import Mathlib

/-!
# Smart QR Hub: the payload codec of `src/App.jsx`

A shallow embedding of the text primitives, the payload builders, the envelope
codec (`createSMQREnvelope`, `parseSMQREnvelope`, `isExpired`), the classifier
(`decodeQRData`) and the payload that `generateQR` builds, followed by the theorems
that settle the claims of the specification.

Conventions of the embedding

* A JavaScript string is the list of its UTF-16 code units (`JSString`).
* A JavaScript value that can come out of `JSON.parse` is a `JSValue`; `undefined`
  is the value of a missing property.
* A call that may throw returns `Except JSError _`; calls whose exception is always
  caught by the surrounding `try` return `Option _`.
* What the host supplies and the program cannot fix (Unicode case mapping, the
  `Date` parser, `Number` printing, the `URL` parser, `decodeURIComponent`) is a
  field of `Platform`; the wall clock is an explicit argument `now` (a time value
  in milliseconds since the epoch).
-/

namespace SmartQR

/-! ## JavaScript strings -/

/-- A JavaScript string, as the list of its UTF-16 code units. -/
abbrev JSString := List Nat

/-- UTF-16 code units of one Unicode scalar value. -/
def utf16Char (c : Char) : List Nat :=
  if c.toNat < 0x10000 then [c.toNat]
  else [0xD800 + (c.toNat - 0x10000) / 0x400, 0xDC00 + (c.toNat - 0x10000) % 0x400]

/-- The JavaScript string written as a literal. -/
def utf16 (s : String) : JSString := s.toList.flatMap utf16Char

/-- Truthiness of a string, `!!s`: a string is falsy exactly when it is empty. -/
def strTruthy (s : JSString) : Bool := !s.isEmpty

/-- The method `s.startsWith(p)`. -/
def startsWith : JSString → JSString → Bool
  | _, [] => true
  | [], _ :: _ => false
  | c :: s, d :: p => c == d && startsWith s p

/-- The method `s.includes(p)`. -/
def includes : JSString → JSString → Bool
  | [], p => p.isEmpty
  | c :: s, p => startsWith (c :: s) p || includes s p

/-- A global replace `s.replace(/c/g, r)` whose pattern is the single code unit `c`
and whose replacement `r` holds no `$`. -/
def replaceAllUnit (c : Nat) (r : JSString) (s : JSString) : JSString :=
  s.flatMap fun x => if x = c then r else [x]

/-- Every code unit of the string is at most U+00FF. -/
def Latin1 (s : JSString) : Prop := ∀ c ∈ s, c ≤ 0xFF

instance (s : JSString) : Decidable (Latin1 s) := by
  unfold Latin1; infer_instance

/-! ## JavaScript values -/

/-- A number as `JSON.parse` reads it: the token `-?int(.frac)?(e exp)?` denotes
`± digits × 10 ^ exp10`, where `digits` is the integer and fraction digits read as one
natural number and `exp10` is the exponent minus the number of fraction digits. -/
structure JSNumber where
  negative : Bool
  digits : Nat
  exp10 : Int
  deriving DecidableEq, Repr

/-- The Number value of the token is `+0` or `-0`: either all digits are zero, or the
magnitude is at most `2 ^ (-1075)`, half the least subnormal double, and rounds to zero
(ties go to the even significand, which is zero). -/
def JSNumber.isZero (n : JSNumber) : Bool :=
  n.digits == 0 || (decide (n.exp10 < 0) && decide (n.digits * 2 ^ 1075 ≤ 10 ^ n.exp10.natAbs))

/-- The values `JSON.parse` can produce, and `undefined`. An object is the list of its
members in source order; a later member with the same key overrides an earlier one. -/
inductive JSValue where
  | undefined
  | null
  | bool (b : Bool)
  | number (n : JSNumber)
  | string (s : JSString)
  | array (items : List JSValue)
  | object (members : List (JSString × JSValue))
  deriving Repr

instance : Inhabited JSValue := ⟨JSValue.undefined⟩

/-- The abstract operation `ToBoolean`. -/
def JSValue.truthy : JSValue → Bool
  | .undefined => false
  | .null => false
  | .bool b => b
  | .number n => !n.isZero
  | .string s => strTruthy s
  | .array _ => true
  | .object _ => true

/-- Lookup of a key in a member list, the last occurrence winning. -/
def lookupMember (key : JSString) : List (JSString × JSValue) → JSValue
  | [] => .undefined
  | (k, v) :: rest =>
    match lookupMember key rest with
    | .undefined => if k = key then v else .undefined
    | w => w

/-- Property read `v.key` for a key that no built-in prototype defines (the program reads
only `smqr`, `payloadType`, `payload`, `expiryDate` and `password`): the member of an
object, `undefined` on every other value. The program guards `null` before reading. -/
def JSValue.get (v : JSValue) (key : JSString) : JSValue :=
  match v with
  | .object ms => lookupMember key ms
  | _ => .undefined

/-- The exceptions the codec can raise. -/
inductive JSError where
  | typeError
  | invalidCharacterError
  | uriError
  deriving DecidableEq, Repr

/-! ## The host platform -/

/-- The parts of a parsed `URL` object the classifier reads. -/
structure URLRecord where
  hostname : JSString
  pathname : JSString
  searchParams : List (JSString × JSString)
  deriving DecidableEq, Repr

/-- What the JavaScript host supplies. -/
structure Platform where
  /-- The method `String.prototype.toUpperCase` (Unicode case mapping). -/
  toUpperCase : JSString → JSString
  /-- The method `String.prototype.toLowerCase` (Unicode case mapping). -/
  toLowerCase : JSString → JSString
  /-- Time value of `new Date(v)`; `none` is an Invalid Date (time value `NaN`). -/
  dateValue : JSValue → Option Int
  /-- The operation `Number::toString` on the Number value of a token. -/
  numberToString : JSNumber → JSString
  /-- The constructor `new URL(s)`; `none` when it throws. -/
  parseURL : JSString → Option URLRecord
  /-- The function `decodeURIComponent`; `none` when it throws `URIError`. -/
  decodeURIComponent : JSString → Option JSString

/-! ## Text primitives and the WiFi builder -/

/-- Source: `escapeSemicolons` (lines 117-120). `none` is an absent argument. -/
def escapeSemicolons (s : Option JSString) : JSString :=
  match s with
  | none => []
  | some s =>
    if !strTruthy s then []
    else replaceAllUnit 59 (utf16 "\\;") (replaceAllUnit 92 (utf16 "\\\\") s)

/-- The argument record of `buildWifiQR`; `none` is an absent field. -/
structure WifiFields where
  ssid : Option JSString
  password : Option JSString
  security : Option JSString

/-- The token `type` computed on line 110 of the source. -/
def wifiType (P : Platform) (security : Option JSString) : JSString :=
  match security with
  | none => utf16 "nopass"
  | some sec =>
    if strTruthy sec && P.toLowerCase sec != utf16 "open" then P.toUpperCase sec
    else utf16 "nopass"

/-- Source: `buildWifiQR` (lines 109-115). -/
def buildWifiQR (P : Platform) (f : WifiFields) : JSString :=
  let type := wifiType P f.security
  if type = utf16 "nopass" then
    utf16 "WIFI:T:nopass;S:" ++ escapeSemicolons f.ssid ++ utf16 ";;"
  else
    utf16 "WIFI:T:" ++ type ++ utf16 ";S:" ++ escapeSemicolons f.ssid ++ utf16 ";P:"
      ++ escapeSemicolons f.password ++ utf16 ";;"

/-! ## JSON.stringify -/

/-- The Number value of the token is an infinity: the magnitude is at least
`2 ^ 1024 - 2 ^ 970`, from where rounding leaves the range of finite doubles. -/
def JSNumber.isInfinite (n : JSNumber) : Bool :=
  if 0 ≤ n.exp10 then decide (2 ^ 1024 - 2 ^ 970 ≤ n.digits * 10 ^ n.exp10.natAbs)
  else decide ((2 ^ 1024 - 2 ^ 970) * 10 ^ n.exp10.natAbs ≤ n.digits)

/-- A lowercase hexadecimal digit. -/
def hexDigit (n : Nat) : Nat := if n < 10 then 48 + n else 87 + n

/-- The escape `\uXXXX` of a code unit. -/
def unicodeEscape (c : Nat) : JSString :=
  [92, 117, hexDigit (c / 4096 % 16), hexDigit (c / 256 % 16), hexDigit (c / 16 % 16),
    hexDigit (c % 16)]

/-- A leading surrogate, U+D800 to U+DBFF. -/
def isHighSurrogate (c : Nat) : Bool := decide (0xD800 ≤ c) && decide (c ≤ 0xDBFF)

/-- A trailing surrogate, U+DC00 to U+DFFF. -/
def isLowSurrogate (c : Nat) : Bool := decide (0xDC00 ≤ c) && decide (c ≤ 0xDFFF)

/-- The characters of `QuoteJSONString` between the two quotes: the two-character escapes,
`\u00XX` for the other control characters and for lone surrogates, everything else as is. -/
def quoteJSONBody : JSString → JSString
  | [] => []
  | c :: rest =>
    if c = 8 then [92, 98] ++ quoteJSONBody rest
    else if c = 9 then [92, 116] ++ quoteJSONBody rest
    else if c = 10 then [92, 110] ++ quoteJSONBody rest
    else if c = 12 then [92, 102] ++ quoteJSONBody rest
    else if c = 13 then [92, 114] ++ quoteJSONBody rest
    else if c = 34 then [92, 34] ++ quoteJSONBody rest
    else if c = 92 then [92, 92] ++ quoteJSONBody rest
    else if c < 32 then unicodeEscape c ++ quoteJSONBody rest
    else if isHighSurrogate c then
      match rest with
      | d :: rest2 =>
        if isLowSurrogate d then c :: d :: quoteJSONBody rest2
        else unicodeEscape c ++ quoteJSONBody (d :: rest2)
      | [] => unicodeEscape c
    else if isLowSurrogate c then unicodeEscape c ++ quoteJSONBody rest
    else c :: quoteJSONBody rest

/-- The operation `QuoteJSONString`. -/
def quoteJSONString (s : JSString) : JSString := [34] ++ quoteJSONBody s ++ [34]

mutual
/-- The function `JSON.stringify` without indentation; `none` is the result `undefined`. -/
def stringify (P : Platform) : JSValue → Option JSString
  | .undefined => none
  | .null => some (utf16 "null")
  | .bool b => some (if b then utf16 "true" else utf16 "false")
  | .number n => some (if n.isInfinite then utf16 "null" else P.numberToString n)
  | .string s => some (quoteJSONString s)
  | .array items => some ([91] ++ stringifyItems P items ++ [93])
  | .object members => some ([123] ++ stringifyMembers P true members ++ [125])
/-- The elements of an array, comma separated; `undefined` prints as `null`. -/
def stringifyItems (P : Platform) : List JSValue → JSString
  | [] => []
  | [v] => (stringify P v).getD (utf16 "null")
  | v :: w :: rest => (stringify P v).getD (utf16 "null") ++ [44] ++ stringifyItems P (w :: rest)
/-- The members of an object, comma separated; a member whose value is `undefined` is left
out. `first` tells that no member has been printed yet. -/
def stringifyMembers (P : Platform) (first : Bool) : List (JSString × JSValue) → JSString
  | [] => []
  | (k, v) :: rest =>
    match stringify P v with
    | none => stringifyMembers P first rest
    | some s =>
      (if first then [] else [44]) ++ quoteJSONString k ++ [58] ++ s
        ++ stringifyMembers P false rest
end

/-! ## Base64: `btoa` and `atob` -/

/-- The base64 character of a 6-bit value. -/
def b64Char (n : Nat) : Nat :=
  if n < 26 then 65 + n
  else if n < 52 then 97 + (n - 26)
  else if n < 62 then 48 + (n - 52)
  else if n = 62 then 43
  else 47

/-- The 6-bit value of a base64 character. -/
def b64Value (c : Nat) : Option Nat :=
  if 65 ≤ c ∧ c ≤ 90 then some (c - 65)
  else if 97 ≤ c ∧ c ≤ 122 then some (c - 71)
  else if 48 ≤ c ∧ c ≤ 57 then some (c + 4)
  else if c = 43 then some 62
  else if c = 47 then some 63
  else none

/-- The 6-bit groups of a byte string, the last group filled with zero bits. -/
def sextets : List Nat → List Nat
  | a :: b :: c :: rest =>
    a / 4 :: (a % 4 * 16 + b / 16) :: (b % 16 * 4 + c / 64) :: c % 64 :: sextets rest
  | [a, b] => [a / 4, a % 4 * 16 + b / 16, b % 16 * 4]
  | [a] => [a / 4, a % 4 * 16]
  | [] => []

/-- The function `btoa`: base64 with padding; it throws `InvalidCharacterError` when a
code unit is above U+00FF. -/
def btoa (s : JSString) : Except JSError JSString :=
  if s.all (fun c => decide (c ≤ 0xFF)) then
    .ok ((sextets s).map b64Char ++ List.replicate ((3 - s.length % 3) % 3) 61)
  else .error .invalidCharacterError

/-- ASCII whitespace: tab, line feed, form feed, carriage return, space. -/
def isAsciiWhitespace (c : Nat) : Bool := c == 9 || c == 10 || c == 12 || c == 13 || c == 32

/-- Step 2 of forgiving-base64 decode: when the length is a multiple of four, one or two
trailing `=` are removed. -/
def stripPadding (s : JSString) : JSString :=
  if s.length % 4 = 0 then
    match s.reverse with
    | 61 :: 61 :: r => r.reverse
    | 61 :: r => r.reverse
    | _ => s
  else s

/-- The bytes of a list of 6-bit values; the bits left over in a last group of two or three
values are dropped. -/
def unsextets : List Nat → List Nat
  | a :: b :: c :: d :: rest =>
    (a * 4 + b / 16) :: (b % 16 * 16 + c / 4) :: (c % 4 * 64 + d) :: unsextets rest
  | [a, b, c] => [a * 4 + b / 16, b % 16 * 16 + c / 4]
  | [a, b] => [a * 4 + b / 16]
  | _ => []

/-- The values of a string of base64 characters; `none` when one is outside the alphabet. -/
def b64Values : JSString → Option (List Nat)
  | [] => some []
  | c :: rest =>
    match b64Value c, b64Values rest with
    | some v, some vs => some (v :: vs)
    | _, _ => none

/-- The function `atob` (forgiving-base64 decode); `none` when it throws. -/
def atob (s : JSString) : Option JSString :=
  let data := stripPadding (s.filter fun c => !isAsciiWhitespace c)
  if data.length % 4 = 1 then none
  else (b64Values data).map unsextets

/-! ## JSON.parse -/

/-- JSON whitespace: tab, line feed, carriage return, space. -/
def isJSONWhitespace (c : Nat) : Bool := c == 9 || c == 10 || c == 13 || c == 32

/-- Drops leading JSON whitespace. -/
def skipWS : JSString → JSString
  | [] => []
  | c :: rest => if isJSONWhitespace c then skipWS rest else c :: rest

/-- The value of a hexadecimal digit of either case. -/
def hexValue (c : Nat) : Option Nat :=
  if 48 ≤ c ∧ c ≤ 57 then some (c - 48)
  else if 97 ≤ c ∧ c ≤ 102 then some (c - 87)
  else if 65 ≤ c ∧ c ≤ 70 then some (c - 55)
  else none

/-- The code unit a single-character escape stands for. -/
def unescapeChar (e : Nat) : Option Nat :=
  if e = 34 then some 34
  else if e = 92 then some 92
  else if e = 47 then some 47
  else if e = 98 then some 8
  else if e = 102 then some 12
  else if e = 110 then some 10
  else if e = 114 then some 13
  else if e = 116 then some 9
  else none

/-- A JSON string from after its opening quote: the string read and the input after the
closing quote. -/
def parseStringBody : JSString → Option (JSString × JSString)
  | [] => none
  | c :: rest =>
    if c = 34 then some ([], rest)
    else if c = 92 then
      match rest with
      | [] => none
      | e :: rest2 =>
        if e = 117 then
          match rest2 with
          | h1 :: h2 :: h3 :: h4 :: rest3 =>
            match hexValue h1, hexValue h2, hexValue h3, hexValue h4, parseStringBody rest3 with
            | some a, some b, some c, some d, some (s, r) =>
              some ((a * 4096 + b * 256 + c * 16 + d) :: s, r)
            | _, _, _, _, _ => none
          | _ => none
        else
          match unescapeChar e, parseStringBody rest2 with
          | some u, some (s, r) => some (u :: s, r)
          | _, _ => none
    else if c < 32 then none
    else
      match parseStringBody rest with
      | some (s, r) => some (c :: s, r)
      | none => none

/-- An ASCII digit. -/
def isDigit (c : Nat) : Bool := decide (48 ≤ c) && decide (c ≤ 57)

/-- Reads the leading digits onto the accumulator: the value, how many digits were read,
and the input after them. -/
def takeDigits : Nat → JSString → Nat × Nat × JSString
  | acc, [] => (acc, 0, [])
  | acc, c :: rest =>
    if isDigit c then
      match takeDigits (acc * 10 + (c - 48)) rest with
      | (v, k, r) => (v, k + 1, r)
    else (acc, 0, c :: rest)

/-- The optional fraction of a number: the digits so far, the count of fraction digits. -/
def parseFraction (intPart : Nat) (inp : JSString) : Option (Nat × Nat × JSString) :=
  match inp with
  | c :: rest =>
    if c = 46 then
      match takeDigits intPart rest with
      | (v, k, r) => if k = 0 then none else some (v, k, r)
    else some (intPart, 0, inp)
  | [] => some (intPart, 0, [])

/-- The optional sign of an exponent: whether it is negative, and the input after it. -/
def exponentSign (inp : JSString) : Bool × JSString :=
  match inp with
  | s :: rest => if s = 43 then (false, rest) else if s = 45 then (true, rest) else (false, inp)
  | [] => (false, [])

/-- The optional exponent of a number. -/
def parseExponent (inp : JSString) : Option (Int × JSString) :=
  match inp with
  | c :: rest =>
    if c = 101 ∨ c = 69 then
      match takeDigits 0 (exponentSign rest).2 with
      | (v, k, r) =>
        if k = 0 then none else some (if (exponentSign rest).1 then - (v : Int) else v, r)
    else some (0, inp)
  | [] => some (0, [])

/-- The integer part of a number, `0|[1-9][0-9]*`. -/
def parseIntPart (inp : JSString) : Option (Nat × JSString) :=
  match inp with
  | [] => none
  | c :: rest =>
    if !isDigit c then none
    else if c = 48 then some (0, rest)
    else
      match takeDigits 0 (c :: rest) with
      | (v, _, r) => some (v, r)

/-- A number without its sign: the digits, the decimal exponent, the input after it. -/
def parseUnsigned (inp : JSString) : Option (Nat × Int × JSString) :=
  match parseIntPart inp with
  | none => none
  | some (intPart, r1) =>
    match parseFraction intPart r1 with
    | none => none
    | some (m, fracLen, r2) =>
      match parseExponent r2 with
      | none => none
      | some (e, r3) => some (m, e - fracLen, r3)

/-- A JSON number token `-?(0|[1-9][0-9]*)(\.[0-9]+)?([eE][+-]?[0-9]+)?`. -/
def parseNumber (inp : JSString) : Option (JSNumber × JSString) :=
  match inp with
  | [] => none
  | s :: rest =>
    if s = 45 then
      match parseUnsigned rest with
      | some (m, e, r) => some (⟨true, m, e⟩, r)
      | none => none
    else
      match parseUnsigned (s :: rest) with
      | some (m, e, r) => some (⟨false, m, e⟩, r)
      | none => none

/-- Outcome of a parser that runs on fuel. -/
inductive Parsed (α : Type) where
  | done (value : α) (rest : JSString)
  | syntaxError
  | outOfFuel
  deriving Repr

mutual
/-- A JSON value, leading whitespace allowed. -/
def parseValue : Nat → JSString → Parsed JSValue
  | 0, _ => .outOfFuel
  | n + 1, inp =>
    match skipWS inp with
    | [] => .syntaxError
    | c :: rest =>
      if c = 123 then
        match skipWS rest with
        | [] => .syntaxError
        | d :: rest2 =>
          if d = 125 then .done (.object []) rest2
          else
            match parseMembers n (d :: rest2) with
            | .done ms r => .done (.object ms) r
            | .syntaxError => .syntaxError
            | .outOfFuel => .outOfFuel
      else if c = 91 then
        match skipWS rest with
        | [] => .syntaxError
        | d :: rest2 =>
          if d = 93 then .done (.array []) rest2
          else
            match parseElements n (d :: rest2) with
            | .done vs r => .done (.array vs) r
            | .syntaxError => .syntaxError
            | .outOfFuel => .outOfFuel
      else if c = 34 then
        match parseStringBody rest with
        | some (s, r) => .done (.string s) r
        | none => .syntaxError
      else if c = 45 ∨ isDigit c = true then
        match parseNumber (c :: rest) with
        | some (x, r) => .done (.number x) r
        | none => .syntaxError
      else if startsWith (c :: rest) (utf16 "true") then .done (.bool true) (rest.drop 3)
      else if startsWith (c :: rest) (utf16 "false") then .done (.bool false) (rest.drop 4)
      else if startsWith (c :: rest) (utf16 "null") then .done .null (rest.drop 3)
      else .syntaxError
/-- The members of a non-empty object up to and including the closing brace. -/
def parseMembers : Nat → JSString → Parsed (List (JSString × JSValue))
  | 0, _ => .outOfFuel
  | n + 1, inp =>
    match skipWS inp with
    | [] => .syntaxError
    | c :: rest =>
      if c = 34 then
        match parseStringBody rest with
        | none => .syntaxError
        | some (k, r1) =>
          match skipWS r1 with
          | [] => .syntaxError
          | c2 :: r2 =>
            if c2 = 58 then
              match parseValue n r2 with
              | .syntaxError => .syntaxError
              | .outOfFuel => .outOfFuel
              | .done v r3 =>
                match skipWS r3 with
                | [] => .syntaxError
                | c3 :: r4 =>
                  if c3 = 44 then
                    match parseMembers n r4 with
                    | .done ms r5 => .done ((k, v) :: ms) r5
                    | .syntaxError => .syntaxError
                    | .outOfFuel => .outOfFuel
                  else if c3 = 125 then .done [(k, v)] r4
                  else .syntaxError
            else .syntaxError
      else .syntaxError
/-- The elements of a non-empty array up to and including the closing bracket. -/
def parseElements : Nat → JSString → Parsed (List JSValue)
  | 0, _ => .outOfFuel
  | n + 1, inp =>
    match parseValue n inp with
    | .syntaxError => .syntaxError
    | .outOfFuel => .outOfFuel
    | .done v r1 =>
      match skipWS r1 with
      | [] => .syntaxError
      | c :: r2 =>
        if c = 44 then
          match parseElements n r2 with
          | .done vs r3 => .done (v :: vs) r3
          | .syntaxError => .syntaxError
          | .outOfFuel => .outOfFuel
        else if c = 93 then .done [v] r2
        else .syntaxError
end

/-- The function `JSON.parse` (no reviver); `none` when it throws `SyntaxError`. The fuel
is twice the length of the text, more than any text can use (`jsonParse_fuel`). -/
def jsonParse (s : JSString) : Option JSValue :=
  match parseValue (2 * s.length + 2) s with
  | .done v rest => if skipWS rest = [] then some v else none
  | _ => none

/-! ## The envelope codec -/

/-- Decimal digits of `n` in a field of `w` digits, zero padded. -/
def padDigits : Nat → Nat → JSString
  | 0, _ => []
  | w + 1, n => padDigits w (n / 10) ++ [48 + n % 10]

/-- Year, month and day of a day count since the epoch, proleptic Gregorian calendar. -/
def civilFromDays (days : Int) : Int × Nat × Nat :=
  let z := days + 719468
  let era := z / 146097
  let doe := (z % 146097).toNat
  let yoe := (doe - doe / 1460 + doe / 36524 - doe / 146096) / 365
  let doy := doe - (365 * yoe + yoe / 4 - yoe / 100)
  let mp := (5 * doy + 2) / 153
  let d := doy - (153 * mp + 2) / 5 + 1
  let m := if mp < 10 then mp + 3 else mp - 9
  let y : Int := (yoe : Int) + era * 400 + (if m ≤ 2 then 1 else 0)
  (y, m, d)

/-- The method `Date.prototype.toISOString` on a valid time value:
`YYYY-MM-DDTHH:mm:ss.sssZ`, the year with a sign and six digits outside 0 to 9999. -/
def toISOString (t : Int) : JSString :=
  let days := t / 86400000
  let ms := (t % 86400000).toNat
  match civilFromDays days with
  | (y, m, d) =>
    let year :=
      if 0 ≤ y ∧ y ≤ 9999 then padDigits 4 y.toNat
      else (if y < 0 then utf16 "-" else utf16 "+") ++ padDigits 6 y.natAbs
    year ++ utf16 "-" ++ padDigits 2 m ++ utf16 "-" ++ padDigits 2 d ++ utf16 "T"
      ++ padDigits 2 (ms / 3600000) ++ utf16 ":" ++ padDigits 2 (ms / 60000 % 60) ++ utf16 ":"
      ++ padDigits 2 (ms / 1000 % 60) ++ utf16 "." ++ padDigits 3 (ms % 1000) ++ utf16 "Z"

/-- The argument record of `createSMQREnvelope`; `none` is an absent (or `null`) field,
for which the parameter default `null` applies. -/
structure EnvelopeArgs where
  payloadType : JSString
  payload : JSString
  expiryDate : Option JSString
  password : Option JSString

/-- The expression `x || null` on an optional string. -/
def orNull (x : Option JSString) : JSValue :=
  match x with
  | some s => if strTruthy s then .string s else .null
  | none => .null

/-- The object literal `envelope` of `createSMQREnvelope` (lines 69-76), created at the
instant `now`. -/
def envelopeRecord (now : Int) (a : EnvelopeArgs) : JSValue :=
  .object [
    (utf16 "smqr", .bool true),
    (utf16 "payloadType", .string a.payloadType),
    (utf16 "payload", .string a.payload),
    (utf16 "expiryDate", orNull a.expiryDate),
    (utf16 "password", orNull a.password),
    (utf16 "createdAt", .string (toISOString now))]

/-- Source: `createSMQREnvelope` (lines 68-78), called at the instant `now`. -/
def createSMQREnvelope (P : Platform) (now : Int) (a : EnvelopeArgs) :
    Except JSError JSString :=
  match btoa ((stringify P (envelopeRecord now a)).getD (utf16 "undefined")) with
  | .ok b => .ok (utf16 "SMQR:" ++ b)
  | .error e => .error e

/-- The call `str.replace(/^SMQR:/, '')`. -/
def stripSMQR (str : JSString) : JSString :=
  if startsWith str (utf16 "SMQR:") then str.drop 5 else str

/-- Source: `parseSMQREnvelope` (lines 80-88); `none` is the result `null`. -/
def parseSMQREnvelope (str : JSString) : Option JSValue :=
  match atob (stripSMQR str) with
  | none => none
  | some json =>
    match jsonParse json with
    | none => none
    | some obj => if obj.truthy && (obj.get (utf16 "smqr")).truthy then some obj else none

/-- Source: `isExpired` (lines 90-99), called at the instant `now`. An Invalid Date never
compares later, and an exception of the `Date` constructor is caught. -/
def isExpired (P : Platform) (now : Int) (expiryDateISO : JSValue) : Bool :=
  if !expiryDateISO.truthy then false
  else
    match P.dateValue expiryDateISO with
    | some expiry => decide (now > expiry)
    | none => false

/-! ## String helpers of the classifier -/

/-- The method `s.endsWith(p)`. -/
def endsWith (s p : JSString) : Bool := startsWith s.reverse p.reverse

/-- The method `s.split(sep)` for a separator of one code unit. -/
def splitOnUnit (sep : Nat) : JSString → List JSString
  | [] => [[]]
  | c :: rest =>
    if c = sep then [] :: splitOnUnit sep rest
    else
      match splitOnUnit sep rest with
      | seg :: segs => (c :: seg) :: segs
      | [] => [[c]]

/-- The method `parts.join(sep)`. -/
def joinWith (sep : JSString) : List JSString → JSString
  | [] => []
  | [s] => s
  | s :: t :: rest => s ++ sep ++ joinWith sep (t :: rest)

/-- The call `s.split(/\r?\n/)`: a line feed, or a carriage return and a line feed,
ends a line. -/
def splitLines : JSString → List JSString
  | [] => [[]]
  | c :: rest =>
    if c = 10 then [] :: splitLines rest
    else
      match rest with
      | d :: rest2 =>
        if c = 13 ∧ d = 10 then [] :: splitLines rest2
        else
          match splitLines (d :: rest2) with
          | seg :: segs => (c :: seg) :: segs
          | [] => [[c]]
      | [] => [[c]]

/-- White space and line terminators, what `trim` removes. -/
def isTrimSpace (c : Nat) : Bool :=
  c == 9 || c == 10 || c == 11 || c == 12 || c == 13 || c == 32 || c == 0xA0 || c == 0x1680
    || (decide (0x2000 ≤ c) && decide (c ≤ 0x200A)) || c == 0x2028 || c == 0x2029
    || c == 0x202F || c == 0x205F || c == 0x3000 || c == 0xFEFF

/-- The method `s.trim()`. -/
def trim (s : JSString) : JSString :=
  ((s.dropWhile isTrimSpace).reverse.dropWhile isTrimSpace).reverse

/-- The call `s.replace(/;;/g, ' ')`: every pair of semicolons, from the left and without
overlap, becomes one space. -/
def collapseSemicolonPairs : JSString → JSString
  | [] => []
  | [c] => [c]
  | c :: d :: rest =>
    if c = 59 ∧ d = 59 then 32 :: collapseSemicolonPairs rest
    else c :: collapseSemicolonPairs (d :: rest)

/-- The call `s.replace(pat, rep)` with a string pattern: the first occurrence only. -/
def replaceFirst (pat rep : JSString) : JSString → JSString
  | [] => if pat.isEmpty then rep else []
  | c :: rest =>
    if startsWith (c :: rest) pat then rep ++ (c :: rest).drop pat.length
    else c :: replaceFirst pat rep rest

/-- The call `s.replace(/^\//, '')`. -/
def stripLeadingSlash (s : JSString) : JSString :=
  match s with
  | c :: rest => if c = 47 then rest else s
  | [] => []

/-- The test `s.match(/^WIFI:/i)`: without the `u` flag only the ASCII letters of either
case match a letter of the pattern. -/
def matchesWifiIgnoreCase (s : JSString) : Bool :=
  match s with
  | w :: i :: f :: j :: c :: _ =>
    (w == 87 || w == 119) && (i == 73 || i == 105) && (f == 70 || f == 102)
      && (j == 73 || j == 105) && c == 58
  | _ => false

/-- The expression `a || b` on values that are a string or `undefined`. -/
def jsOr (a b : Option JSString) : Option JSString :=
  match a with
  | some s => if strTruthy s then some s else b
  | none => b

/-- The value of `data[key]` after the assignments `data[k] = v` of the list, in order. -/
def lookupStr (key : JSString) : List (JSString × JSString) → Option JSString
  | [] => none
  | (k, v) :: rest =>
    match lookupStr key rest with
    | some w => some w
    | none => if k = key then some v else none

/-- The method `searchParams.get(name)`: the value of the first pair of that name. -/
def searchGet (name : JSString) : List (JSString × JSString) → Option JSString
  | [] => none
  | (k, v) :: rest => if k = name then some v else searchGet name rest

/-- Sets a key of a record kept as a list of pairs, in place when the key exists. -/
def setEntry (k v : JSString) : List (JSString × JSString) → List (JSString × JSString)
  | [] => [(k, v)]
  | (k2, v2) :: rest => if k2 = k then (k, v) :: rest else (k2, v2) :: setEntry k v rest

/-- The call `Object.fromEntries(entries)` on string pairs, as the list of the own
properties (the order of integer-like keys apart). -/
def fromEntries (entries : List (JSString × JSString)) : List (JSString × JSString) :=
  entries.foldl (fun acc kv => setEntry kv.1 kv.2 acc) []

/-! ## YouTube video id -/

/-- A character of `[a-zA-Z0-9_-]`. -/
def isIdChar (c : Nat) : Bool :=
  (decide (97 ≤ c) && decide (c ≤ 122)) || (decide (65 ≤ c) && decide (c ≤ 90))
    || (decide (48 ≤ c) && decide (c ≤ 57)) || c == 95 || c == 45

/-- Matches the literal `lit` and then `([a-zA-Z0-9_-]{11})` at the start of `s`; the
capture. -/
def matchIdAfter (lit s : JSString) : Option JSString :=
  if startsWith s lit then
    let cand := (s.drop lit.length).take 11
    if cand.length = 11 ∧ cand.all isIdChar = true then some cand else none
  else none

/-- The alternatives of the first pattern, in their order. -/
def youtubeForms : List JSString :=
  [utf16 "youtube.com/watch?v=", utf16 "youtu.be/", utf16 "youtube.com/embed/",
    utf16 "youtube.com/v/", utf16 "youtube.com/shorts/"]

/-- The first pattern tried at the start of `s`. -/
def matchFormsAt (s : JSString) : Option JSString :=
  youtubeForms.findSome? fun lit => matchIdAfter lit s

/-- The first pattern searched from the left. -/
def searchForms : JSString → Option JSString
  | [] => none
  | c :: rest =>
    match matchFormsAt (c :: rest) with
    | some id => some id
    | none => searchForms rest

/-- A line terminator, what `.` does not match. -/
def isLineTerminator (c : Nat) : Bool := c == 10 || c == 13 || c == 0x2028 || c == 0x2029

/-- The tail `.*v=([a-zA-Z0-9_-]{11})` of the second pattern: the greedy `.*` backtracks
from the end of the line, so the last `v=` with an id behind it is taken. -/
def lastIdInLine : JSString → Option JSString
  | [] => none
  | c :: rest =>
    match (if isLineTerminator c then none else lastIdInLine rest) with
    | some id => some id
    | none => matchIdAfter (utf16 "v=") (c :: rest)

/-- The second pattern `youtube\.com\/watch\?.*v=(...)` searched from the left. -/
def searchWatch : JSString → Option JSString
  | [] => none
  | c :: rest =>
    match (if startsWith (c :: rest) (utf16 "youtube.com/watch?")
      then lastIdInLine ((c :: rest).drop 18) else none) with
    | some id => some id
    | none => searchWatch rest

/-- Source: `extractYouTubeVideoId` (lines 206-219); `none` is the result `null`. -/
def extractYouTubeVideoId (url : JSString) : Option JSString :=
  match searchForms url with
  | some id => some id
  | none => searchWatch url

/-! ## Phone numbers and the other builders -/

/-- Source: `normalizePhone` (lines 101-106). A falsy argument (`none` when it is absent,
or the empty string) is returned as it is; `\d` is an ASCII digit. -/
def normalizePhone (phone : Option JSString) : Option JSString :=
  match phone with
  | none => none
  | some phone =>
    if !strTruthy phone then some phone
    else
      let plus := if startsWith (trim phone) (utf16 "+") then utf16 "+" else []
      let digits := phone.filter isDigit
      some (plus ++ digits)

/-- The code point of a surrogate pair. -/
def pairCodePoint (hi lo : Nat) : Nat := 0x10000 + (hi - 0xD800) * 0x400 + (lo - 0xDC00)

/-- The scalar values of a string, as the conversion to a `USVString` reads them: a
surrogate pair is one code point, a lone surrogate becomes U+FFFD. -/
def scalarValues : JSString → List Nat
  | [] => []
  | [c] => if isHighSurrogate c || isLowSurrogate c then [0xFFFD] else [c]
  | c :: d :: rest =>
    if isHighSurrogate c && isLowSurrogate d then pairCodePoint c d :: scalarValues rest
    else (if isHighSurrogate c || isLowSurrogate c then 0xFFFD else c) :: scalarValues (d :: rest)

/-- The UTF-8 bytes of a code point. -/
def utf8Encode (cp : Nat) : List Nat :=
  if cp < 0x80 then [cp]
  else if cp < 0x800 then [0xC0 + cp / 0x40, 0x80 + cp % 0x40]
  else if cp < 0x10000 then [0xE0 + cp / 0x1000, 0x80 + cp / 0x40 % 0x40, 0x80 + cp % 0x40]
  else [0xF0 + cp / 0x40000, 0x80 + cp / 0x1000 % 0x40, 0x80 + cp / 0x40 % 0x40,
    0x80 + cp % 0x40]

/-- An upper-case hexadecimal digit. -/
def hexUpper (n : Nat) : Nat := if n < 10 then 48 + n else 55 + n

/-- The escape `%XX` of a byte. -/
def percentByte (b : Nat) : JSString := [37, hexUpper (b / 16), hexUpper (b % 16)]

/-- A letter or digit of ASCII. -/
def isAlphanumeric (c : Nat) : Bool :=
  (decide (97 ≤ c) && decide (c ≤ 122)) || (decide (65 ≤ c) && decide (c ≤ 90))
    || (decide (48 ≤ c) && decide (c ≤ 57))

/-- One byte in the `application/x-www-form-urlencoded` serialisation: letters, digits,
`*`, `-`, `.` and `_` stay, a space becomes `+`, any other byte is escaped. -/
def formByte (b : Nat) : JSString :=
  if isAlphanumeric b || b == 42 || b == 45 || b == 46 || b == 95 then [b]
  else if b = 32 then [43]
  else percentByte b

/-- A name or value in the `application/x-www-form-urlencoded` serialisation. -/
def formEncode (s : JSString) : JSString :=
  ((scalarValues s).flatMap utf8Encode).flatMap formByte

/-- The method `URLSearchParams.prototype.toString`. -/
def serializeParams (params : List (JSString × JSString)) : JSString :=
  joinWith (utf16 "&") (params.map fun kv => formEncode kv.1 ++ utf16 "=" ++ formEncode kv.2)

/-- The argument record of `buildUPI`; `none` is an absent field. -/
structure UPIFields where
  pa : Option JSString
  pn : Option JSString
  am : Option JSString
  tn : Option JSString

/-- The statement `if (v) params.set(name, v)`. -/
def setIfTruthy (name : JSString) (v : Option JSString)
    (params : List (JSString × JSString)) : List (JSString × JSString) :=
  match v with
  | some s => if strTruthy s then setEntry name s params else params
  | none => params

/-- Source: `buildUPI` (lines 122-130). -/
def buildUPI (f : UPIFields) : JSString :=
  let params : List (JSString × JSString) := []
  let params := setIfTruthy (utf16 "pa") f.pa params
  let params := setIfTruthy (utf16 "pn") f.pn params
  let params := setIfTruthy (utf16 "am") f.am params
  let params := setIfTruthy (utf16 "tn") f.tn params
  let params := setEntry (utf16 "cu") (utf16 "INR") params
  utf16 "upi://pay?" ++ serializeParams params

/-- Source: `escapeVCard` (line 147). -/
def escapeVCard (s : Option JSString) : JSString :=
  match s with
  | none => []
  | some s => if strTruthy s then replaceAllUnit 10 (utf16 "\\n") s else []

/-- The argument record of `buildVCard`; `none` is an absent field. -/
structure VCardFields where
  fullName : Option JSString
  phone : Option JSString
  email : Option JSString
  address : Option JSString
  org : Option JSString
  title : Option JSString
  website : Option JSString

/-- The statement `if (v) lines.push(before + escapeVCard(v) + after)`, as the lines it
adds. -/
def pushIfTruthy (before after : JSString) (v : Option JSString) : List JSString :=
  match v with
  | some s => if strTruthy s then [before ++ escapeVCard (some s) ++ after] else []
  | none => []

/-- The array `lines` of `buildVCard` before it is joined. -/
def vcardLines (f : VCardFields) : List JSString :=
  [utf16 "BEGIN:VCARD", utf16 "VERSION:3.0"]
    ++ pushIfTruthy (utf16 "FN:") [] f.fullName
    ++ pushIfTruthy (utf16 "ORG:") [] f.org
    ++ pushIfTruthy (utf16 "TITLE:") [] f.title
    ++ pushIfTruthy (utf16 "TEL;TYPE=CELL:") [] f.phone
    ++ pushIfTruthy (utf16 "EMAIL:") [] f.email
    ++ pushIfTruthy (utf16 "ADR:;;") (utf16 ";;;;") f.address
    ++ pushIfTruthy (utf16 "URL:") [] f.website
    ++ [utf16 "END:VCARD"]

/-- Source: `buildVCard` (lines 132-145). -/
def buildVCard (f : VCardFields) : JSString := joinWith (utf16 "\n") (vcardLines f)

/-- A code unit that `encodeURIComponent` leaves as it is: a letter, a digit, or one of
`-_.!~*'()`. -/
def isUriUnreserved (c : Nat) : Bool :=
  isAlphanumeric c || c == 45 || c == 95 || c == 46 || c == 33 || c == 126 || c == 42
    || c == 39 || c == 40 || c == 41

/-- The function `encodeURIComponent`: the UTF-8 bytes of every other code point are
escaped; a lone surrogate throws `URIError`. -/
def encodeURIComponent : JSString → Except JSError JSString
  | [] => .ok []
  | [c] =>
    if isHighSurrogate c || isLowSurrogate c then .error .uriError
    else .ok (if isUriUnreserved c then [c] else (utf8Encode c).flatMap percentByte)
  | c :: d :: rest =>
    if isHighSurrogate c && isLowSurrogate d then
      match encodeURIComponent rest with
      | .ok t => .ok ((utf8Encode (pairCodePoint c d)).flatMap percentByte ++ t)
      | .error e => .error e
    else if isHighSurrogate c || isLowSurrogate c then .error .uriError
    else
      match encodeURIComponent (d :: rest) with
      | .ok t =>
        .ok ((if isUriUnreserved c then [c] else (utf8Encode c).flatMap percentByte) ++ t)
      | .error e => .error e

/-- The argument record of `buildWhatsApp`; `none` is an absent field. -/
structure WhatsAppFields where
  phone : Option JSString
  message : Option JSString

/-- Source: `buildWhatsApp` (lines 149-154). An absent phone has no method `replace`:
`TypeError`. -/
def buildWhatsApp (f : WhatsAppFields) : Except JSError JSString :=
  let normalized := normalizePhone f.phone
  let txt : Except JSError JSString :=
    match f.message with
    | some m => if strTruthy m then encodeURIComponent m else .ok []
    | none => .ok []
  match txt with
  | .error e => .error e
  | .ok txt =>
    match normalized with
    | none => .error .typeError
    | some normalized =>
      if strTruthy txt then
        .ok (utf16 "https://api.whatsapp.com/send?phone=" ++ replaceFirst (utf16 "+") [] normalized
          ++ utf16 "&text=" ++ txt)
      else
        .ok (utf16 "https://api.whatsapp.com/send?phone=" ++ replaceFirst (utf16 "+") [] normalized)

/-- Source: `buildYouTubeVideo` (lines 190-204): its two patterns are those of
`extractYouTubeVideoId`, tried in the same order. -/
def buildYouTubeVideo (url : JSString) : JSString :=
  match searchForms url with
  | some id => utf16 "https://youtube.com/watch?v=" ++ id
  | none =>
    match searchWatch url with
    | some id => utf16 "https://youtube.com/watch?v=" ++ id
    | none => url

/-! ## The classifier -/

/-- The object `decodeQRData` returns. An optional field is `none` when the object has no
such property or holds `undefined` there. -/
structure DecodedResult where
  type : JSString
  content : JSString
  action : JSString
  expiryDate : Option JSValue := none
  envelope : Option JSValue := none
  ssid : Option JSString := none
  password : Option JSString := none
  security : Option JSString := none
  fullName : Option JSString := none
  phone : Option JSString := none
  email : Option JSString := none
  org : Option JSString := none
  address : Option JSString := none
  title : Option JSString := none
  website : Option JSString := none
  message : Option JSString := none
  url : Option JSString := none
  provider : Option JSString := none
  params : Option (List (JSString × JSString)) := none
  videoId : Option JSString := none
  platform : Option JSString := none

/-- What a call of `decodeQRData` yields: an exception, `null` (`none`), or a result. -/
abbrev Outcome := Except JSError (Option DecodedResult)

mutual
/-- The abstract operation `ToString` of a template literal. An object with an own
`toString` member, which JSON cannot make callable, has no primitive value: `TypeError`. -/
def toStringJS (P : Platform) : JSValue → Except JSError JSString
  | .undefined => .ok (utf16 "undefined")
  | .null => .ok (utf16 "null")
  | .bool b => .ok (if b then utf16 "true" else utf16 "false")
  | .number n => .ok (P.numberToString n)
  | .string s => .ok s
  | .array items => joinItems P items
  | .object members =>
    if members.any (fun m => m.1 == utf16 "toString") then .error .typeError
    else .ok (utf16 "[object Object]")
/-- The method `Array.prototype.join` with the separator `,`: `null` prints as nothing. -/
def joinItems (P : Platform) : List JSValue → Except JSError JSString
  | [] => .ok []
  | [v] => itemString P v
  | v :: w :: rest =>
    match itemString P v, joinItems P (w :: rest) with
    | .ok a, .ok b => .ok (a ++ [44] ++ b)
    | .error e, _ => .error e
    | .ok _, .error e => .error e
/-- One element inside `join`. -/
def itemString (P : Platform) : JSValue → Except JSError JSString
  | .undefined => .ok []
  | .null => .ok []
  | .bool b => .ok (if b then utf16 "true" else utf16 "false")
  | .number n => .ok (P.numberToString n)
  | .string s => .ok s
  | .array items => joinItems P items
  | .object members =>
    if members.any (fun m => m.1 == utf16 "toString") then .error .typeError
    else .ok (utf16 "[object Object]")
end

/-- The WiFi branch (lines 356-380). Nothing in its `try` block can throw. -/
def decodeWifi (decodedString : JSString) : DecodedResult :=
  let body := decodedString.drop 5
  let parts := (splitOnUnit 59 body).filter strTruthy
  let data : List (JSString × JSString) :=
    parts.map fun p =>
      match splitOnUnit 58 p with
      | k :: rest => (k, joinWith [58] rest)
      | [] => (p, [])
  let at_ := fun (key : String) => lookupStr (utf16 key) data
  { type := utf16 "wifi"
    content := decodedString
    action := utf16 "Connect WiFi"
    ssid := jsOr (at_ "S") (jsOr (at_ "s") (jsOr (at_ "SSID") (jsOr (at_ "ssid") (at_ "SSID"))))
    password := jsOr (at_ "P") (jsOr (at_ "p") (some []))
    security := jsOr (at_ "T") (jsOr (at_ "t") (some (utf16 "WPA"))) }

/-- The record `out` of the vCard branch. -/
structure VCardOut where
  fullName : Option JSString := none
  phone : Option JSString := none
  email : Option JSString := none
  org : Option JSString := none
  address : Option JSString := none
  title : Option JSString := none
  website : Option JSString := none

/-- The element `parts[1]` of `ln.split(':')` when it is truthy. -/
def secondPart (ln : JSString) : Option JSString :=
  match splitOnUnit 58 ln with
  | _ :: p :: _ => if strTruthy p then some p else none
  | _ => none

/-- The body of the `forEach` over the lines of a vCard (lines 386-401). -/
def vcardLine (out : VCardOut) (ln : JSString) : VCardOut :=
  let out := if startsWith ln (utf16 "FN:") then { out with fullName := some (trim (ln.drop 3)) }
    else out
  let out := if startsWith ln (utf16 "TEL") then
      { out with phone := match secondPart ln with
          | some p => some (trim p)
          | none => out.phone }
    else out
  let out := if startsWith ln (utf16 "EMAIL") then
      { out with email := match secondPart ln with
          | some p => some (trim p)
          | none => out.email }
    else out
  let out := if startsWith ln (utf16 "ORG:") then { out with org := some (trim (ln.drop 4)) }
    else out
  let out := if startsWith ln (utf16 "ADR") then
      { out with address := match secondPart ln with
          | some p => some (trim (collapseSemicolonPairs p))
          | none => out.address }
    else out
  let out := if startsWith ln (utf16 "TITLE:") then { out with title := some (trim (ln.drop 6)) }
    else out
  if startsWith ln (utf16 "URL:") then { out with website := some (trim (ln.drop 4)) }
  else out

/-- The vCard branch (lines 382-409). -/
def decodeVCard (decodedString : JSString) : DecodedResult :=
  let out := (splitLines decodedString).foldl vcardLine {}
  { type := utf16 "vcard"
    content := decodedString
    action := utf16 "Save Contact"
    fullName := out.fullName
    phone := out.phone
    email := out.email
    org := out.org
    address := out.address
    title := out.title
    website := out.website }

/-- The WhatsApp branch (lines 411-432). -/
def decodeWhatsApp (P : Platform) (decodedString : JSString) : DecodedResult :=
  let fallback : DecodedResult :=
    { type := utf16 "whatsapp"
      content := decodedString
      action := utf16 "Open WhatsApp"
      url := some decodedString }
  match P.parseURL decodedString with
  | none => fallback
  | some u =>
    let phone := jsOr (searchGet (utf16 "phone") u.searchParams)
      (some (stripLeadingSlash u.pathname))
    let text := (jsOr (searchGet (utf16 "text") u.searchParams) (some [])).getD []
    match P.decodeURIComponent text with
    | none => fallback
    | some message =>
      { type := utf16 "whatsapp"
        content := decodedString
        action := utf16 "Open WhatsApp"
        phone := phone
        message := some message
        url := some decodedString }

/-- The payment branch (lines 434-454). -/
def decodePayment (P : Platform) (decodedString : JSString) : DecodedResult :=
  let target :=
    if startsWith decodedString (utf16 "upi://") then decodedString
    else utf16 "upi://" ++ replaceFirst (utf16 "upi:") [] decodedString
  match P.parseURL target with
  | none =>
    { type := utf16 "payment"
      content := decodedString
      action := utf16 "Open Payment"
      url := some decodedString }
  | some urlObj =>
    { type := utf16 "payment"
      content := decodedString
      action := utf16 "Open Payment"
      provider := some (utf16 "UPI")
      params := some (fromEntries urlObj.searchParams)
      url := some decodedString }

/-- The table `socialPlatforms` (lines 491-499): domain and platform. -/
def socialPlatforms : List (JSString × JSString) :=
  [(utf16 "instagram.com", utf16 "instagram"), (utf16 "facebook.com", utf16 "facebook"),
    (utf16 "linkedin.com", utf16 "linkedin"), (utf16 "t.me", utf16 "telegram"),
    (utf16 "telegram.me", utf16 "telegram"), (utf16 "youtube.com", utf16 "youtube"),
    (utf16 "youtu.be", utf16 "youtube")]

/-- The body of the `try` block of the generic URL branch (lines 467-518), entered once
`new URL(decodedString)` has succeeded with the record `u`. -/
def decodeURL (P : Platform) (decodedString : JSString) (u : URLRecord) : DecodedResult :=
  let host := P.toLowerCase u.hostname
  let plain : DecodedResult :=
    match socialPlatforms.find? (fun social =>
      includes host social.1 || endsWith host social.1) with
    | some social =>
      { type := utf16 "social"
        content := decodedString
        action := utf16 "Open Social"
        platform := some social.2
        url := some decodedString }
    | none =>
      { type := utf16 "url"
        content := decodedString
        action := utf16 "Open URL"
        url := some decodedString }
  let afterVideo : DecodedResult :=
    if includes host (utf16 "portfolio") || includes host (utf16 "personal")
        || includes host (utf16 "cv") || includes host (utf16 "resume") then
      { type := utf16 "portfolio"
        content := decodedString
        action := utf16 "Open Portfolio"
        url := some decodedString }
    else plain
  if includes host (utf16 "youtube.com") || includes host (utf16 "youtu.be") then
    match extractYouTubeVideoId decodedString with
    | some videoId =>
      { type := utf16 "youtube"
        content := decodedString
        action := utf16 "Watch Video"
        url := some decodedString
        videoId := some videoId }
    | none => afterVideo
  else afterVideo

/-- The branches of `decodeQRData` for a non-empty string that does not start with `SMQR:`
(lines 356-546). None of them calls `decodeQRData` again and none can throw. -/
def decodePlain (P : Platform) (decodedString : JSString) : DecodedResult :=
  if startsWith decodedString (utf16 "WIFI:") || matchesWifiIgnoreCase decodedString then
    decodeWifi decodedString
  else if startsWith decodedString (utf16 "BEGIN:VCARD") then
    decodeVCard decodedString
  else if includes decodedString (utf16 "whatsapp") || includes decodedString (utf16 "wa.me")
      || startsWith decodedString (utf16 "https://api.whatsapp.com") then
    decodeWhatsApp P decodedString
  else if startsWith decodedString (utf16 "upi:") || startsWith decodedString (utf16 "upi://")
      || includes decodedString (utf16 "upi://") then
    decodePayment P decodedString
  else if startsWith decodedString (utf16 "geo:")
      || includes decodedString (utf16 "google.com/maps")
      || includes decodedString (utf16 "maps.google.com")
      || startsWith decodedString (utf16 "https://maps.app.goo.gl/") then
    { type := utf16 "maps"
      content := decodedString
      action := utf16 "Open Maps"
      url := some decodedString }
  else
    match P.parseURL decodedString with
    | some u => decodeURL P decodedString u
    | none =>
      if startsWith decodedString (utf16 "mailto:") then
        { type := utf16 "email"
          content := decodedString
          action := utf16 "Send Email"
          email := some (decodedString.drop 7) }
      else if startsWith decodedString (utf16 "tel:") then
        { type := utf16 "phone"
          content := decodedString
          action := utf16 "Call Number"
          phone := some (decodedString.drop 4) }
      else
        { type := utf16 "text"
          content := decodedString
          action := utf16 "Text Content" }

/-- The statements `if (inner) inner.envelope = env; return inner;`. -/
def attachEnvelope (env : JSValue) : Outcome → Outcome
  | .ok (some inner) => .ok (some { inner with envelope := some env })
  | .ok none => .ok none
  | .error e => .error e

/-- The envelope branch (lines 347-353) for the text `decodedString`, with `recurse` the
call of `decodeQRData` on the payload. -/
def decodeEnvelope (P : Platform) (now : Int) (recurse : JSValue → Option Outcome)
    (decodedString : JSString) : Option Outcome :=
  match parseSMQREnvelope decodedString with
  | none =>
    some (.ok (some
      { type := utf16 "invalid"
        content := utf16 "Invalid secured QR format"
        action := utf16 "Invalid" }))
  | some env =>
    if isExpired P now (env.get (utf16 "expiryDate")) then
      some (.ok (some
        { type := utf16 "expired"
          content := utf16 "QR Code Expired"
          action := utf16 "Expired"
          expiryDate := some (env.get (utf16 "expiryDate")) }))
    else if (env.get (utf16 "password")).truthy then
      match toStringJS P (env.get (utf16 "payloadType")) with
      | .error e => some (.error e)
      | .ok payloadType =>
        some (.ok (some
          { type := utf16 "protected"
            content := utf16 "Protected " ++ payloadType
            action := utf16 "Requires Password"
            envelope := some env }))
    else (recurse (env.get (utf16 "payload"))).map (attachEnvelope env)

/-- Source: `decodeQRData` (lines 343-546) at the instant `now`, with a bound on the depth
of the recursion; `none` when the bound is used up. A truthy argument that is no string has
no method `startsWith`: `TypeError`. -/
def decodeQRDataFuel (P : Platform) (now : Int) : Nat → JSValue → Option Outcome
  | 0, _ => none
  | fuel + 1, decodedString =>
    if !decodedString.truthy then some (.ok none)
    else
      match decodedString with
      | .string s =>
        if startsWith s (utf16 "SMQR:") then
          decodeEnvelope P now (decodeQRDataFuel P now fuel) s
        else some (.ok (some (decodePlain P s)))
      | _ => some (.error .typeError)

/-- Depth that `decodeQRData` cannot exceed on the value: every nested envelope is shorter
than the text that carries it. -/
def depthBound : JSValue → Nat
  | .string s => s.length + 1
  | _ => 1

/-- Source: `decodeQRData` (lines 343-546) at the instant `now`. The recursion always ends
within `depthBound`, so the default is never used. -/
def decodeQRData (P : Platform) (now : Int) (decodedString : JSValue) : Outcome :=
  (decodeQRDataFuel P now (depthBound decodedString) decodedString).getD (.ok none)

/-- The part of the component state that `handleProtectedReveal` writes. -/
structure AppState where
  scanResult : Option DecodedResult

/-- Source: `handleProtectedReveal` (lines 1160-1169) at the instant `now`: what the call
yields and the state it leaves. The attempt is the string of the password input. -/
def handleProtectedReveal (P : Platform) (now : Int) (envelope : JSValue)
    (passwordAttempt : JSString) (st : AppState) :
    Except JSError (Option DecodedResult) × AppState :=
  if !envelope.truthy then (.ok none, st)
  else
    match envelope.get (utf16 "password") with
    | .string p =>
      if p = passwordAttempt then
        match attachEnvelope envelope (decodeQRData P now (envelope.get (utf16 "payload"))) with
        | .ok inner => (.ok inner, { st with scanResult := inner })
        | .error e => (.error e, st)
      else (.ok none, st)
    | _ => (.ok none, st)

/-! ## A host for ASCII text

The platform on which the model is run on concrete inputs. It agrees with a browser on
ASCII case mapping, on the date format that `toISOString` writes, on printing integers,
and on URLs and percent escapes inside the ASCII subset described at each definition. -/

/-- Upper case of an ASCII letter, any other code unit unchanged. -/
def asciiUpper (c : Nat) : Nat := if 97 ≤ c ∧ c ≤ 122 then c - 32 else c

/-- Lower case of an ASCII letter, any other code unit unchanged. -/
def asciiLower (c : Nat) : Nat := if 65 ≤ c ∧ c ≤ 90 then c + 32 else c

/-- The number a run of ASCII digits denotes; `none` when a code unit is no digit. -/
def digitsValue (s : JSString) : Option Nat :=
  s.foldl (fun acc c =>
    match acc with
    | some v => if isDigit c then some (v * 10 + (c - 48)) else none
    | none => none) (some 0)

/-- Day count since the epoch of a calendar date, proleptic Gregorian calendar. -/
def daysFromCivil (y : Int) (m d : Nat) : Int :=
  let y := if m ≤ 2 then y - 1 else y
  let era := y / 400
  let yoe := (y % 400).toNat
  let doy := (153 * (if m > 2 then m - 3 else m + 9) + 2) / 5 + d - 1
  let doe := yoe * 365 + yoe / 4 - yoe / 100 + doy
  era * 146097 + (doe : Int) - 719468

/-- Days of a month. -/
def daysInMonth (y m : Nat) : Nat :=
  if m = 2 then (if y % 4 = 0 ∧ (y % 100 ≠ 0 ∨ y % 400 = 0) then 29 else 28)
  else if m = 4 ∨ m = 6 ∨ m = 9 ∨ m = 11 then 30
  else 31

/-- Time value of a string of the form `YYYY-MM-DDTHH:mm:ss.sssZ`; `none` otherwise. -/
def parseISODate (s : JSString) : Option Int :=
  if s.length = 24 ∧ s.get? 4 = some 45 ∧ s.get? 7 = some 45 ∧ s.get? 10 = some 84
      ∧ s.get? 13 = some 58 ∧ s.get? 16 = some 58 ∧ s.get? 19 = some 46
      ∧ s.get? 23 = some 90 then
    match digitsValue (s.take 4), digitsValue ((s.drop 5).take 2),
      digitsValue ((s.drop 8).take 2), digitsValue ((s.drop 11).take 2),
      digitsValue ((s.drop 14).take 2), digitsValue ((s.drop 17).take 2),
      digitsValue ((s.drop 20).take 3) with
    | some y, some m, some d, some hh, some mm, some ss, some ms =>
      if 1 ≤ m ∧ m ≤ 12 ∧ 1 ≤ d ∧ d ≤ daysInMonth y m ∧ hh ≤ 23 ∧ mm ≤ 59 ∧ ss ≤ 59 then
        some (daysFromCivil y m d * 86400000 + (hh * 3600000 + mm * 60000 + ss * 1000 + ms : Nat))
      else none
    | _, _, _, _, _, _, _ => none
  else none

/-- The sample `new Date(v)`: strings in the format of `toISOString`; everything else is
an Invalid Date here. -/
def sampleDateValue (v : JSValue) : Option Int :=
  match v with
  | .string s => parseISODate s
  | _ => none

/-- The sample `Number::toString`: an integer token below `10 ^ 21` in decimal; any other
token prints as `NaN` here. -/
def sampleNumberToString (n : JSNumber) : JSString :=
  if 0 ≤ n.exp10 ∧ n.digits * 10 ^ n.exp10.natAbs < 10 ^ 21 then
    (if n.negative ∧ n.digits ≠ 0 then utf16 "-" else [])
      ++ (Nat.toDigits 10 (n.digits * 10 ^ n.exp10.natAbs)).map Char.toNat
  else utf16 "NaN"

/-- A letter of the ASCII alphabet. -/
def isAsciiAlpha (c : Nat) : Bool :=
  (decide (65 ≤ c) && decide (c ≤ 90)) || (decide (97 ≤ c) && decide (c ≤ 122))

/-- A code unit allowed in a scheme after its first letter. -/
def isSchemeChar (c : Nat) : Bool := isAsciiAlpha c || isDigit c || c == 43 || c == 45 || c == 46

/-- The scheme of a URL, in lower case, and what follows its colon; `none` when the text
does not begin with a letter, scheme characters and a colon. -/
def splitScheme (s : JSString) : Option (JSString × JSString) :=
  match s with
  | [] => none
  | c :: rest =>
    if isAsciiAlpha c then
      match rest.dropWhile isSchemeChar with
      | d :: after =>
        if d = 58 then some ((c :: rest.takeWhile isSchemeChar).map asciiLower, after) else none
      | [] => none
    else none

/-- Percent-decoding of escapes below `%80`; an escape that is malformed or not ASCII
stays as written. -/
def percentDecodeAscii : JSString → JSString
  | [] => []
  | [c] => [c]
  | [c, d] => [c, d]
  | c :: h :: l :: rest =>
    match (if c = 37 then hexValue h else none), hexValue l with
    | some a, some b =>
      if a < 8 then (a * 16 + b) :: percentDecodeAscii rest
      else c :: percentDecodeAscii (h :: l :: rest)
    | _, _ => c :: percentDecodeAscii (h :: l :: rest)

/-- The pairs of a query string: split on `&` and on the first `=`, `+` read as a space,
ASCII escapes decoded. -/
def sampleSearchParams (query : JSString) : List (JSString × JSString) :=
  ((splitOnUnit 38 query).filter strTruthy).map fun pair =>
    let pair := replaceAllUnit 43 [32] pair
    match splitOnUnit 61 pair with
    | k :: rest => (percentDecodeAscii k, percentDecodeAscii (joinWith [61] rest))
    | [] => ([], [])

/-- Removes leading and trailing C0 controls and spaces. -/
def trimC0 (s : JSString) : JSString :=
  ((s.dropWhile fun c => decide (c ≤ 32)).reverse.dropWhile fun c => decide (c ≤ 32)).reverse

/-- The sample `new URL(s)` on ASCII text without userinfo, port, escapes or dot segments
in the host and path. A text without a scheme is no URL (the rule of every browser); an
`http`, `https`, `ws`, `wss` or `ftp` URL needs a host, read after any slashes, in lower
case, and its path starts with a slash; after another scheme a host follows `//` only. -/
def sampleParseURL (s : JSString) : Option URLRecord :=
  let s := (trimC0 s).filter fun c => !(c == 9 || c == 10 || c == 13)
  match splitScheme s with
  | none => none
  | some (scheme, rest) =>
    let rest := rest.takeWhile fun c => c != 35
    let beforeQuery := rest.takeWhile fun c => c != 63
    let query := (rest.dropWhile fun c => c != 63).drop 1
    let special := [utf16 "http", utf16 "https", utf16 "ws", utf16 "wss", utf16 "ftp"].contains scheme
    if special then
      let afterSlashes := beforeQuery.dropWhile fun c => c == 47 || c == 92
      let host := (afterSlashes.takeWhile fun c => !(c == 47 || c == 92)).map asciiLower
      let path := afterSlashes.dropWhile fun c => !(c == 47 || c == 92)
      if host.isEmpty then none
      else some ⟨host, if path.isEmpty then [47] else path, sampleSearchParams query⟩
    else if startsWith beforeQuery (utf16 "//") then
      let afterSlashes := beforeQuery.drop 2
      some ⟨afterSlashes.takeWhile fun c => c != 47, afterSlashes.dropWhile fun c => c != 47,
        sampleSearchParams query⟩
    else some ⟨[], beforeQuery, sampleSearchParams query⟩

/-- The sample `decodeURIComponent` on escapes below `%80`: a `%` that no two hexadecimal
digits follow, or a byte from `%80` on (whose UTF-8 sequence this host does not read),
throws. -/
def sampleDecodeURIComponent : JSString → Option JSString
  | [] => some []
  | c :: rest =>
    if c = 37 then
      match rest with
      | h :: l :: rest2 =>
        match hexValue h, hexValue l, sampleDecodeURIComponent rest2 with
        | some a, some b, some t => if a < 8 then some ((a * 16 + b) :: t) else none
        | _, _, _ => none
      | _ => none
    else
      match sampleDecodeURIComponent rest with
      | some t => some (c :: t)
      | none => none

/-- The host for ASCII text. -/
def asciiHost : Platform where
  toUpperCase := fun s => s.map asciiUpper
  toLowerCase := fun s => s.map asciiLower
  dateValue := sampleDateValue
  numberToString := sampleNumberToString
  parseURL := sampleParseURL
  decodeURIComponent := sampleDecodeURIComponent

/-- The sample `new URL(s).toString()`: the scheme in lower case and the rest as written,
which is what a browser returns for a URL that is already in its normal form; `none` when
the text has no scheme and the constructor throws. -/
def sampleHref (s : JSString) : Option JSString :=
  match splitScheme ((trimC0 s).filter fun c => !(c == 9 || c == 10 || c == 13)) with
  | none => none
  | some (scheme, rest) => some (scheme ++ [58] ++ rest)

/-! ## The payload that `generateQR` builds -/

/-- The argument record of `buildMaps`; `none` is an absent field. -/
structure MapsFields where
  placeName : Option JSString
  lat : Option JSString
  lon : Option JSString

/-- Source: `buildMaps` (lines 156-161). An absent place name is written as the word
`undefined`. -/
def buildMaps (f : MapsFields) : Except JSError JSString :=
  if strTruthy (f.lat.getD []) && strTruthy (f.lon.getD []) then
    .ok (utf16 "https://www.google.com/maps?q=" ++ f.lat.getD [] ++ utf16 "," ++ f.lon.getD []
      ++ utf16 "&z=15")
  else
    match encodeURIComponent (f.placeName.getD (utf16 "undefined")) with
    | .ok q => .ok (utf16 "https://www.google.com/maps/search/?api=1&query=" ++ q)
    | .error e => .error e

/-- The call `s.replace(/^@/, '')`. -/
def stripLeadingAt (s : JSString) : JSString :=
  match s with
  | c :: rest => if c = 64 then rest else s
  | [] => []

/-- Source: `buildSocial` (lines 163-187) on a profile string; `href` is the host's
`new URL(profile).toString()`, `none` when the constructor throws. -/
def buildSocial (href : JSString → Option JSString) (platform profile : JSString) : JSString :=
  match href profile with
  | some url => url
  | none =>
    let username := trim (stripLeadingAt profile)
    if platform = utf16 "instagram" then utf16 "https://instagram.com/" ++ username
    else if platform = utf16 "facebook" then utf16 "https://facebook.com/" ++ username
    else if platform = utf16 "linkedin" then utf16 "https://www.linkedin.com/in/" ++ username
    else if platform = utf16 "telegram" then utf16 "https://t.me/" ++ username
    else if platform = utf16 "youtube" then
      if startsWith username (utf16 "@") then utf16 "https://youtube.com/" ++ username
      else utf16 "https://youtube.com/@" ++ username
    else profile

/-- The test `/^https?:\/\//i.test(s)`: without the `u` flag only the ASCII letters of
either case match a letter of the pattern. -/
def hasHttpScheme (s : JSString) : Bool :=
  startsWith (s.map asciiLower) (utf16 "http://") || startsWith (s.map asciiLower) (utf16 "https://")

/-- The statement `if (!/^https?:\/\//i.test(urlVal)) urlVal = 'https://' + urlVal`. -/
def withHttps (s : JSString) : JSString := if hasHttpScheme s then s else utf16 "https://" ++ s

/-- The state of the generator form that `generateQR` reads, with the initial values of
the component. -/
structure GeneratorForm where
  qrType : JSString := utf16 "url"
  qrInput : JSString := []
  portfolioUrl : JSString := []
  socialPlatform : JSString := utf16 "instagram"
  socialProfile : JSString := []
  wifiSsid : JSString := []
  wifiPassword : JSString := []
  wifiSecurity : JSString := utf16 "WPA"
  paymentId : JSString := []
  paymentName : JSString := []
  paymentAmount : JSString := []
  paymentNote : JSString := []
  vcardFullName : JSString := []
  vcardPhone : JSString := []
  vcardEmail : JSString := []
  vcardAddress : JSString := []
  vcardOrg : JSString := []
  vcardTitle : JSString := []
  vcardWebsite : JSString := []
  whatsPhone : JSString := []
  whatsMessage : JSString := []
  mapsPlaceName : JSString := []
  mapsLat : JSString := []
  mapsLon : JSString := []
  youtubeUrl : JSString := []

/-- Source: `generateQR` (lines 917-1032), the value of `payload` when line 1034 is reached:
`.ok none` when the input is refused with an alert, an error when a builder throws (the
`catch` of line 1068 reports it), and the empty payload for a type that no branch names. -/
def generatePayload (P : Platform) (href : JSString → Option JSString) (s : GeneratorForm) :
    Except JSError (Option JSString) :=
  if s.qrType = utf16 "url" then
    if !strTruthy (trim s.qrInput) then .ok none
    else .ok (some (withHttps (trim s.qrInput)))
  else if s.qrType = utf16 "text" then
    if !strTruthy (trim s.qrInput) then .ok none
    else .ok (some s.qrInput)
  else if s.qrType = utf16 "email" then
    if !strTruthy (trim s.qrInput) then .ok none
    else .ok (some (utf16 "mailto:" ++ trim s.qrInput))
  else if s.qrType = utf16 "phone" then
    if !strTruthy (trim s.qrInput) then .ok none
    else .ok (some (utf16 "tel:" ++ (normalizePhone (some (trim s.qrInput))).getD []))
  else if s.qrType = utf16 "portfolio" then
    if !strTruthy (trim s.portfolioUrl) then .ok none
    else .ok (some (withHttps (trim s.portfolioUrl)))
  else if s.qrType = utf16 "social" then
    if !strTruthy (trim s.socialProfile) then .ok none
    else .ok (some (buildSocial href s.socialPlatform (trim s.socialProfile)))
  else if s.qrType = utf16 "wifi" then
    if !strTruthy (trim s.wifiSsid) then .ok none
    else .ok (some (buildWifiQR P ⟨some (trim s.wifiSsid), some s.wifiPassword, some s.wifiSecurity⟩))
  else if s.qrType = utf16 "payment" then
    if !strTruthy (trim s.paymentId) then .ok none
    else .ok (some (buildUPI ⟨some (trim s.paymentId), some (trim s.paymentName),
      some (trim s.paymentAmount), some (trim s.paymentNote)⟩))
  else if s.qrType = utf16 "vcard" then
    if !strTruthy (trim s.vcardFullName) && !strTruthy (trim s.vcardPhone) then .ok none
    else .ok (some (buildVCard
      { fullName := some (trim s.vcardFullName)
        phone := some (trim s.vcardPhone)
        email := some (trim s.vcardEmail)
        address := some (trim s.vcardAddress)
        org := some (trim s.vcardOrg)
        title := some (trim s.vcardTitle)
        website := some (trim s.vcardWebsite) }))
  else if s.qrType = utf16 "whatsapp" then
    if !strTruthy (trim s.whatsPhone) then .ok none
    else
      match buildWhatsApp ⟨some (trim s.whatsPhone), some (trim s.whatsMessage)⟩ with
      | .ok t => .ok (some t)
      | .error e => .error e
  else if s.qrType = utf16 "maps" then
    if (!strTruthy s.mapsLat || !strTruthy s.mapsLon) && !strTruthy (trim s.mapsPlaceName) then
      .ok none
    else
      match buildMaps ⟨some (trim s.mapsPlaceName), some (trim s.mapsLat), some (trim s.mapsLon)⟩ with
      | .ok t => .ok (some t)
      | .error e => .error e
  else if s.qrType = utf16 "youtube" then
    if !strTruthy (trim s.youtubeUrl) then .ok none
    else .ok (some (buildYouTubeVideo (trim s.youtubeUrl)))
  else .ok (some [])

/-! ## The size of a value -/

mutual
/-- A lower bound on the length of every JSON text of the value: a string counts its code
units and two quotes, an array or object its brackets and what it holds. -/
def JSValue.weight : JSValue → Nat
  | .undefined => 1
  | .null => 1
  | .bool _ => 1
  | .number _ => 1
  | .string s => s.length + 2
  | .array items => weightItems items + 2
  | .object members => weightMembers members + 2
/-- The weight of the elements of an array. -/
def weightItems : List JSValue → Nat
  | [] => 0
  | v :: rest => v.weight + weightItems rest
/-- The weight of the values of the members of an object. -/
def weightMembers : List (JSString × JSValue) → Nat
  | [] => 0
  | (_, v) :: rest => v.weight + weightMembers rest
end

/-! ## Helpers of the statements and proofs -/

/-- The quoted form of the string holds only code units up to U+00FF, so that `btoa`
accepts it: the string is within Latin-1 apart from lone surrogates, which are escaped. -/
def Printable (s : JSString) : Prop := Latin1 (quoteJSONBody s)

/-- A value the envelope record holds: `null`, a boolean, or a printable string. -/
def Scalar (v : JSValue) : Prop :=
  v = .null ∨ v = .bool true ∨ v = .bool false ∨ ∃ s, v = .string s ∧ Printable s

/-- Facts of Unicode case mapping that the WiFi round trip uses: upper-casing leaves a
non-empty string non-empty, brings in no semicolon, and never yields the lower-case word
`nopass`. -/
def UpperCaseFacts (P : Platform) : Prop :=
  ∀ s, (s ≠ [] → P.toUpperCase s ≠ []) ∧ (59 ∉ s → 59 ∉ P.toUpperCase s)
    ∧ P.toUpperCase s ≠ utf16 "nopass"

/-- A value of a contact card as the round trip takes it: no white space at either end, no
line feed, no colon and no semicolon. -/
def PlainValue (s : JSString) : Prop := trim s = s ∧ 10 ∉ s ∧ 58 ∉ s ∧ 59 ∉ s

/-- A web address of a contact card as the round trip takes it: as `PlainValue`, but a
colon is allowed. -/
def PlainLink (s : JSString) : Prop := trim s = s ∧ 10 ∉ s ∧ 59 ∉ s

/-- A code unit of the fields in the payment round trip: a letter or digit of ASCII, a
space or `@`. -/
def isPaymentUnit (c : Nat) : Bool := isAlphanumeric c || c == 32 || c == 64

/-- The parameter `key=value&` that `buildUPI` writes for a truthy field; nothing for an
absent or empty one. -/
def upiPart (key : JSString) (v : Option JSString) : JSString :=
  match v with
  | some s => if strTruthy s then key ++ utf16 "=" ++ formEncode s ++ utf16 "&" else []
  | none => []

/-- The escape of the specification, one pass over the text: a backslash becomes two
backslashes, a semicolon becomes a backslash and a semicolon, any other code unit stays. -/
def escapeSinglePass (s : JSString) : JSString :=
  s.flatMap fun c => if c = 92 then [92, 92] else if c = 59 then [92, 59] else [c]

/-- A branch of `decodeQRData` before the generic URL branch takes the text: the test of
the WiFi, vCard, WhatsApp, payment or maps branch holds (lines 356, 382, 411, 434, 456). -/
def beforeURL (s : JSString) : Bool :=
  (startsWith s (utf16 "WIFI:") || matchesWifiIgnoreCase s)
    || startsWith s (utf16 "BEGIN:VCARD")
    || (includes s (utf16 "whatsapp") || includes s (utf16 "wa.me")
      || startsWith s (utf16 "https://api.whatsapp.com"))
    || (startsWith s (utf16 "upi:") || startsWith s (utf16 "upi://")
      || includes s (utf16 "upi://"))
    || (startsWith s (utf16 "geo:") || includes s (utf16 "google.com/maps")
      || includes s (utf16 "maps.google.com")
      || startsWith s (utf16 "https://maps.app.goo.gl/"))

/-- The pair that the WiFi branch stores for one segment (lines 362-363): the text before
the first colon and the text behind it. -/
def wifiPair (p : JSString) : JSString × JSString :=
  match splitOnUnit 58 p with
  | k :: rest => (k, joinWith [58] rest)
  | [] => (p, [])

/-- The assignments to `data` that the WiFi branch makes on a text (lines 359-364). -/
def wifiData (t : JSString) : List (JSString × JSString) :=
  ((splitOnUnit 59 (t.drop 5)).filter strTruthy).map wifiPair

/-! # Theorems -/

/-! ## Literals -/

theorem utf16_nopass : utf16 "nopass" = [110, 111, 112, 97, 115, 115] := by decide

/-! ## C1: the WiFi builder -/

theorem asciiUpper_ne_lower (c : Nat) : asciiUpper c ≠ 110 := by
  unfold asciiUpper
  split <;> omega

theorem asciiUpper_ne_nopass (s : JSString) : s.map asciiUpper ≠ utf16 "nopass" := by
  rw [utf16_nopass]
  cases s with
  | nil => simp
  | cons c t =>
    intro h
    simp only [List.map_cons, List.cons.injEq] at h
    exact asciiUpper_ne_lower c h.1

/-- C1: `buildWifiQR` returns `WIFI:T:nopass;S:<ssid>;;` when the security is absent, empty
or `open` in any case, whatever the password, and otherwise
`WIFI:T:<SECURITY>;S:<ssid>;P:<password>;;` with the security in upper case, the ssid
and the password passed through `escapeSemicolons`. The hypothesis states the fact of
Unicode that an upper-cased string is never the lower-case word `nopass`. -/
theorem buildWifiQR_spec (P : Platform) (ssid password security : Option JSString)
    (hU : ∀ s, security = some s → P.toUpperCase s ≠ utf16 "nopass") :
    ((security = none ∨ security = some [] ∨
        ∃ s, security = some s ∧ P.toLowerCase s = utf16 "open") →
      buildWifiQR P ⟨ssid, password, security⟩
        = utf16 "WIFI:T:nopass;S:" ++ escapeSemicolons ssid ++ utf16 ";;") ∧
    (∀ s, security = some s → s ≠ [] → P.toLowerCase s ≠ utf16 "open" →
      buildWifiQR P ⟨ssid, password, security⟩
        = utf16 "WIFI:T:" ++ P.toUpperCase s ++ utf16 ";S:" ++ escapeSemicolons ssid
          ++ utf16 ";P:" ++ escapeSemicolons password ++ utf16 ";;") := by
  constructor
  · intro h
    have ht : wifiType P security = utf16 "nopass" := by
      rcases h with h | h | ⟨s, h, hs⟩
      · subst h; rfl
      · subst h; rfl
      · subst h; simp [wifiType, hs]
    simp [buildWifiQR, ht]
  · intro s hs hne hlow
    subst hs
    have ht : wifiType P (some s) = P.toUpperCase s := by
      cases s with
      | nil => exact absurd rfl hne
      | cons c t => simp [wifiType, strTruthy, hlow]
    have hn := hU s rfl
    simp [buildWifiQR, ht, hn]

/-- C1, on the host for ASCII text: the two examples of the specification. -/
theorem buildWifiQR_spec_witness :
    buildWifiQR asciiHost ⟨some (utf16 "MyNet"), none, some (utf16 "open")⟩
        = utf16 "WIFI:T:nopass;S:MyNet;;" ∧
    buildWifiQR asciiHost ⟨some (utf16 "MyNet"), some (utf16 "p@ss"), some (utf16 "WPA2")⟩
        = utf16 "WIFI:T:WPA2;S:MyNet;P:p@ss;;" := by
  constructor
  · rw [(buildWifiQR_spec asciiHost (some (utf16 "MyNet")) none (some (utf16 "open"))
      (fun s _ => asciiUpper_ne_nopass s)).1 (Or.inr (Or.inr ⟨_, rfl, by decide⟩))]
    decide
  · rw [(buildWifiQR_spec asciiHost (some (utf16 "MyNet")) (some (utf16 "p@ss"))
      (some (utf16 "WPA2")) (fun s _ => asciiUpper_ne_nopass s)).2 (utf16 "WPA2") rfl
      (by decide) (by decide)]
    decide

/-! ## Base64 round trip -/

theorem b64Value_b64Char (v : Nat) (h : v < 64) : b64Value (b64Char v) = some v := by
  unfold b64Char b64Value
  split_ifs <;> first | omega | (congr 1; omega)

theorem b64Char_not_pad (v : Nat) : b64Char v ≠ 61 := by
  unfold b64Char
  split_ifs <;> omega

theorem b64Char_not_space (v : Nat) : isAsciiWhitespace (b64Char v) = false := by
  unfold b64Char isAsciiWhitespace
  split_ifs <;> simp <;> omega

theorem sextets_lt (s : List Nat) (h : ∀ c ∈ s, c ≤ 0xFF) : ∀ v ∈ sextets s, v < 64 := by
  induction s using sextets.induct with
  | case1 a b c rest ih =>
    simp only [sextets, List.mem_cons, forall_eq_or_imp] at h ⊢
    refine ⟨by omega, by omega, by omega, by omega, ?_⟩
    exact ih (fun x hx => h.2.2.2 x hx)
  | case2 a b =>
    simp only [sextets, List.mem_cons, forall_eq_or_imp] at h ⊢
    simp only [List.mem_nil_iff, false_imp_iff, implies_true, and_true] at h ⊢
    omega
  | case3 a =>
    simp only [sextets, List.mem_cons, forall_eq_or_imp] at h ⊢
    simp only [List.mem_nil_iff, false_imp_iff, implies_true, and_true] at h ⊢
    omega
  | case4 => simp [sextets]

theorem unsextets_sextets (s : List Nat) (h : ∀ c ∈ s, c ≤ 0xFF) : unsextets (sextets s) = s := by
  induction s using sextets.induct with
  | case1 a b c rest ih =>
    simp only [List.mem_cons, forall_eq_or_imp] at h
    simp only [sextets, unsextets, ih (fun x hx => h.2.2.2 x hx), List.cons.injEq, and_true]
    omega
  | case2 a b =>
    simp only [List.mem_cons, forall_eq_or_imp] at h
    simp only [sextets, unsextets, List.cons.injEq, and_true]
    omega
  | case3 a =>
    simp only [List.mem_cons, forall_eq_or_imp] at h
    simp only [sextets, unsextets, List.cons.injEq, and_true]
    omega
  | case4 => simp [sextets, unsextets]

theorem sextets_length (s : List Nat) :
    (sextets s).length + (3 - s.length % 3) % 3 = 4 * ((s.length + 2) / 3) := by
  induction s using sextets.induct with
  | case1 a b c rest ih =>
    simp only [sextets, List.length_cons]
    omega
  | case2 a b => simp [sextets]
  | case3 a => simp [sextets]
  | case4 => simp [sextets]

theorem sextets_length_mod (s : List Nat) : (sextets s).length % 4 ≠ 1 := by
  induction s using sextets.induct with
  | case1 a b c rest ih =>
    simp only [sextets, List.length_cons]
    omega
  | case2 a b => simp [sextets]
  | case3 a => simp [sextets]
  | case4 => simp [sextets]

theorem b64Values_map (vs : List Nat) (h : ∀ v ∈ vs, v < 64) :
    b64Values (vs.map b64Char) = some vs := by
  induction vs with
  | nil => rfl
  | cons v t ih =>
    simp only [List.mem_cons, forall_eq_or_imp] at h
    simp [b64Values, b64Value_b64Char v h.1, ih h.2]

theorem stripPadding_encoded (enc : List Nat) (k : Nat) (hk : k ≤ 2)
    (hlen : (enc.length + k) % 4 = 0) (hpad : ∀ c ∈ enc, c ≠ 61) :
    stripPadding (enc ++ List.replicate k 61) = enc := by
  unfold stripPadding
  simp only [List.length_append, List.length_replicate, hlen, if_true, List.reverse_append,
    List.reverse_replicate]
  have hlast : ∀ c r, enc.reverse = c :: r → c ≠ 61 := by
    intro c r h
    apply hpad
    have : c ∈ enc.reverse := by rw [h]; simp
    simpa using this
  interval_cases k
  · simp only [List.replicate_zero, List.nil_append]
    rcases hr : enc.reverse with _ | ⟨c, r⟩
    · have : enc = [] := by simpa using hr
      simp [this]
    · have hc := hlast c r hr
      split
      · rename_i heq; simp only [List.cons.injEq] at heq; exact absurd heq.1.symm (Ne.symm hc) |> False.elim
      · rename_i heq; simp only [List.cons.injEq] at heq; exact absurd heq.1.symm (Ne.symm hc) |> False.elim
      · simp
  · rcases hr : enc.reverse with _ | ⟨c, r⟩
    · have : enc = [] := by simpa using hr
      simp [this] at hlen
    · have hc := hlast c r hr
      have hrev : enc = (c :: r).reverse := by rw [← hr]; simp
      simp only [List.replicate_one, List.singleton_append]
      split
      · rename_i heq; simp only [List.cons.injEq] at heq; exact absurd heq.2.1.symm (Ne.symm hc) |> False.elim
      · rename_i heq; simp only [List.cons.injEq] at heq; rw [hrev, ← heq.2]
      · rename_i h1 h2; exact absurd rfl (h2 _) |> False.elim
  · simp only [List.replicate_succ, List.replicate_zero, List.cons_append, List.nil_append]
    simp

theorem atob_encoded (s : List Nat) (h : ∀ c ∈ s, c ≤ 0xFF) :
    atob ((sextets s).map b64Char ++ List.replicate ((3 - s.length % 3) % 3) 61) = some s := by
  have hfilter : ((sextets s).map b64Char ++ List.replicate ((3 - s.length % 3) % 3) 61).filter
      (fun c => !isAsciiWhitespace c)
      = (sextets s).map b64Char ++ List.replicate ((3 - s.length % 3) % 3) 61 := by
    rw [List.filter_eq_self]
    intro c hc
    rcases List.mem_append.1 hc with hc | hc
    · obtain ⟨v, _, rfl⟩ := List.mem_map.1 hc
      simp [b64Char_not_space]
    · have := List.eq_of_mem_replicate hc
      subst this
      decide
  have hstrip := stripPadding_encoded ((sextets s).map b64Char) ((3 - s.length % 3) % 3)
    (by omega) (by have := sextets_length s; simp only [List.length_map]; omega)
    (by intro c hc; obtain ⟨v, _, rfl⟩ := List.mem_map.1 hc; exact b64Char_not_pad v)
  unfold atob
  simp only [hfilter, hstrip, List.length_map]
  rw [if_neg (sextets_length_mod s), b64Values_map _ (sextets_lt s h)]
  simp [unsextets_sextets s h]

theorem btoa_ok (s : JSString) (h : Latin1 s) :
    btoa s = .ok ((sextets s).map b64Char ++ List.replicate ((3 - s.length % 3) % 3) 61) := by
  unfold btoa
  rw [if_pos]
  simpa [Latin1, List.all_eq_true] using h

theorem atob_btoa (s b : JSString) (h : btoa s = .ok b) : atob b = some s := by
  unfold btoa at h
  split at h
  · rename_i hall
    simp only [Except.ok.injEq] at h
    subst h
    apply atob_encoded
    simpa [List.all_eq_true] using hall
  · simp at h

/-! ## JSON round trip on strings -/

theorem hexValue_hexDigit (d : Nat) (h : d < 16) : hexValue (hexDigit d) = some d := by
  unfold hexDigit hexValue
  split_ifs <;> first | omega | (congr 1; omega)

theorem parseStringBody_quoteMark (rest : JSString) :
    parseStringBody (34 :: rest) = some ([], rest) := by
  rw [parseStringBody.eq_def]; rfl

theorem parseStringBody_plain (c : Nat) (rest : JSString) (h1 : c ≠ 34) (h2 : c ≠ 92)
    (h3 : ¬ c < 32) :
    parseStringBody (c :: rest)
      = match parseStringBody rest with
        | some (s, r) => some (c :: s, r)
        | none => none := by
  rw [parseStringBody.eq_def]; simp only [h1, h2, h3, if_false]

theorem parseStringBody_escape (e : Nat) (rest : JSString) (h : e ≠ 117) :
    parseStringBody (92 :: e :: rest)
      = match unescapeChar e, parseStringBody rest with
        | some u, some (s, r) => some (u :: s, r)
        | _, _ => none := by
  rw [parseStringBody.eq_def]; simp only [h, if_false, if_true, show (92 : Nat) ≠ 34 by decide]

theorem parseStringBody_hex (h1 h2 h3 h4 : Nat) (rest : JSString) :
    parseStringBody (92 :: 117 :: h1 :: h2 :: h3 :: h4 :: rest)
      = match hexValue h1, hexValue h2, hexValue h3, hexValue h4, parseStringBody rest with
        | some a, some b, some c, some d, some (s, r) =>
          some ((a * 4096 + b * 256 + c * 16 + d) :: s, r)
        | _, _, _, _, _ => none := by
  rw [parseStringBody.eq_def]; simp only [if_false, if_true, show (92 : Nat) ≠ 34 by decide]

theorem quoteJSONBody_cons (c : Nat) (rest : JSString) (hc : c ≤ 0xFF) :
    quoteJSONBody (c :: rest)
      = (if c = 8 then [92, 98] else if c = 9 then [92, 116] else if c = 10 then [92, 110]
          else if c = 12 then [92, 102] else if c = 13 then [92, 114]
          else if c = 34 then [92, 34] else if c = 92 then [92, 92]
          else if c < 32 then unicodeEscape c else [c]) ++ quoteJSONBody rest := by
  have hs : isHighSurrogate c = false := by
    simp only [isHighSurrogate, Bool.and_eq_false_iff, decide_eq_false_iff_not]; omega
  have hl : isLowSurrogate c = false := by
    simp only [isLowSurrogate, Bool.and_eq_false_iff, decide_eq_false_iff_not]; omega
  rw [quoteJSONBody.eq_def]
  simp only [hs, hl, Bool.false_eq_true, if_false]
  split_ifs <;> rfl

theorem parseStringBody_unicodeEscape (c : Nat) (rest : JSString) :
    parseStringBody (unicodeEscape c ++ rest)
      = match parseStringBody rest with
        | some (s, r) =>
          some ((c / 4096 % 16 * 4096 + c / 256 % 16 * 256 + c / 16 % 16 * 16 + c % 16) :: s, r)
        | none => none := by
  have e1 := hexValue_hexDigit (c / 4096 % 16) (Nat.mod_lt _ (by norm_num))
  have e2 := hexValue_hexDigit (c / 256 % 16) (Nat.mod_lt _ (by norm_num))
  have e3 := hexValue_hexDigit (c / 16 % 16) (Nat.mod_lt _ (by norm_num))
  have e4 := hexValue_hexDigit (c % 16) (Nat.mod_lt _ (by norm_num))
  simp only [unicodeEscape, List.cons_append, List.nil_append, parseStringBody_hex, e1, e2, e3,
    e4]
  cases parseStringBody rest with
  | none => rfl
  | some p => rfl

/-! ## JSON round trip on every string whose quoted form is within Latin-1 -/

theorem Latin1.left {a b : JSString} (h : Latin1 (a ++ b)) : Latin1 a :=
  fun c hc => h c (List.mem_append_left _ hc)

theorem Latin1.right {a b : JSString} (h : Latin1 (a ++ b)) : Latin1 b :=
  fun c hc => h c (List.mem_append_right _ hc)

theorem unicodeEscape_value (c : Nat) (h : c < 65536) :
    c / 4096 % 16 * 4096 + c / 256 % 16 * 256 + c / 16 % 16 * 16 + c % 16 = c := by
  omega

theorem parseStringBody_escaped (c : Nat) (h : c < 65536) (t rest : JSString)
    (ih : parseStringBody (quoteJSONBody t ++ 34 :: rest) = some (t, rest)) :
    parseStringBody ((unicodeEscape c ++ quoteJSONBody t) ++ 34 :: rest)
      = some (c :: t, rest) := by
  rw [List.append_assoc, parseStringBody_unicodeEscape, ih]
  simp only [unicodeEscape_value c h]

theorem parseStringBody_short (e u : Nat) (he : e ≠ 117) (hu : unescapeChar e = some u)
    (t rest : JSString) (ih : parseStringBody (quoteJSONBody t ++ 34 :: rest) = some (t, rest)) :
    parseStringBody (([92, e] ++ quoteJSONBody t) ++ 34 :: rest) = some (u :: t, rest) := by
  simp only [List.cons_append, List.nil_append, parseStringBody_escape e _ he, hu, ih]

/-- A string whose quoted form holds only code units up to U+00FF is read back by the
parser: the escapes, those of lone surrogates included, are undone. -/
theorem parseStringBody_quoteJSONBody (s : JSString) (rest : JSString)
    (h : Latin1 (quoteJSONBody s)) :
    parseStringBody (quoteJSONBody s ++ 34 :: rest) = some (s, rest) := by
  induction s using quoteJSONBody.induct with
  | case1 => simp [quoteJSONBody, parseStringBody_quoteMark]
  | case2 t ih =>
    have e : quoteJSONBody (8 :: t) = [92, 98] ++ quoteJSONBody t := by
      rw [quoteJSONBody.eq_def]; rfl
    rw [e] at h ⊢
    exact parseStringBody_short 98 8 (by decide) (by decide) t rest (ih h.right)
  | case3 t _ ih =>
    have e : quoteJSONBody (9 :: t) = [92, 116] ++ quoteJSONBody t := by
      rw [quoteJSONBody.eq_def]; rfl
    rw [e] at h ⊢
    exact parseStringBody_short 116 9 (by decide) (by decide) t rest (ih h.right)
  | case4 t _ _ ih =>
    have e : quoteJSONBody (10 :: t) = [92, 110] ++ quoteJSONBody t := by
      rw [quoteJSONBody.eq_def]; rfl
    rw [e] at h ⊢
    exact parseStringBody_short 110 10 (by decide) (by decide) t rest (ih h.right)
  | case5 t _ _ _ ih =>
    have e : quoteJSONBody (12 :: t) = [92, 102] ++ quoteJSONBody t := by
      rw [quoteJSONBody.eq_def]; rfl
    rw [e] at h ⊢
    exact parseStringBody_short 102 12 (by decide) (by decide) t rest (ih h.right)
  | case6 t _ _ _ _ ih =>
    have e : quoteJSONBody (13 :: t) = [92, 114] ++ quoteJSONBody t := by
      rw [quoteJSONBody.eq_def]; rfl
    rw [e] at h ⊢
    exact parseStringBody_short 114 13 (by decide) (by decide) t rest (ih h.right)
  | case7 t _ _ _ _ _ ih =>
    have e : quoteJSONBody (34 :: t) = [92, 34] ++ quoteJSONBody t := by
      rw [quoteJSONBody.eq_def]; rfl
    rw [e] at h ⊢
    exact parseStringBody_short 34 34 (by decide) (by decide) t rest (ih h.right)
  | case8 t _ _ _ _ _ _ ih =>
    have e : quoteJSONBody (92 :: t) = [92, 92] ++ quoteJSONBody t := by
      rw [quoteJSONBody.eq_def]; rfl
    rw [e] at h ⊢
    exact parseStringBody_short 92 92 (by decide) (by decide) t rest (ih h.right)
  | case9 c t h1 h2 h3 h4 h5 h6 h7 h8 ih =>
    have e : quoteJSONBody (c :: t) = unicodeEscape c ++ quoteJSONBody t := by
      rw [quoteJSONBody.eq_def]; simp only [h1, h2, h3, h4, h5, h6, h7, h8, if_false, if_true]
    rw [e] at h ⊢
    exact parseStringBody_escaped c (by omega) t rest (ih h.right)
  | case10 c h1 h2 h3 h4 h5 h6 h7 h8 h9 d t h10 ih =>
    have e : quoteJSONBody (c :: d :: t) = c :: d :: quoteJSONBody t := by
      rw [quoteJSONBody.eq_def]
      simp only [h1, h2, h3, h4, h5, h6, h7, h8, h9, h10, if_false, if_true, Bool.false_eq_true]
    rw [e] at h
    have hc := h c (List.mem_cons_self _ _)
    simp only [isHighSurrogate, Bool.and_eq_true, decide_eq_true_eq] at h9
    omega
  | case11 c h1 h2 h3 h4 h5 h6 h7 h8 h9 d t h10 ih =>
    have e : quoteJSONBody (c :: d :: t) = unicodeEscape c ++ quoteJSONBody (d :: t) := by
      rw [quoteJSONBody.eq_def]
      simp only [h1, h2, h3, h4, h5, h6, h7, h8, h9, h10, if_false, if_true, Bool.false_eq_true]
    rw [e] at h ⊢
    simp only [isHighSurrogate, Bool.and_eq_true, decide_eq_true_eq] at h9
    exact parseStringBody_escaped c (by omega) (d :: t) rest (ih h.right)
  | case12 c h1 h2 h3 h4 h5 h6 h7 h8 h9 =>
    have e : quoteJSONBody [c] = unicodeEscape c ++ quoteJSONBody [] := by
      rw [quoteJSONBody.eq_def]
      simp only [h1, h2, h3, h4, h5, h6, h7, h8, h9, if_false, if_true, quoteJSONBody,
        List.append_nil]
    rw [e]
    simp only [isHighSurrogate, Bool.and_eq_true, decide_eq_true_eq] at h9
    exact parseStringBody_escaped c (by omega) [] rest
      (by simp [quoteJSONBody, parseStringBody_quoteMark])
  | case13 c t h1 h2 h3 h4 h5 h6 h7 h8 h9 h10 ih =>
    have e : quoteJSONBody (c :: t) = unicodeEscape c ++ quoteJSONBody t := by
      rw [quoteJSONBody.eq_def]
      simp only [h1, h2, h3, h4, h5, h6, h7, h8, h9, h10, if_false, if_true, Bool.false_eq_true]
    rw [e] at h ⊢
    simp only [isLowSurrogate, Bool.and_eq_true, decide_eq_true_eq] at h10
    exact parseStringBody_escaped c (by omega) t rest (ih h.right)
  | case14 c t h1 h2 h3 h4 h5 h6 h7 h8 h9 h10 ih =>
    have e : quoteJSONBody (c :: t) = c :: quoteJSONBody t := by
      rw [quoteJSONBody.eq_def]
      simp only [h1, h2, h3, h4, h5, h6, h7, h8, h9, h10, if_false, if_true, Bool.false_eq_true]
    rw [e] at h ⊢
    have ih := ih (fun x hx => h x (List.mem_cons_of_mem _ hx))
    rw [List.cons_append, parseStringBody_plain c _ h6 h7 h8, ih]

theorem Latin1.append {a b : JSString} (ha : Latin1 a) (hb : Latin1 b) : Latin1 (a ++ b) := by
  intro c hc
  rcases List.mem_append.1 hc with h | h
  · exact ha c h
  · exact hb c h

theorem Latin1.cons {c : Nat} {s : JSString} (hc : c ≤ 0xFF) (hs : Latin1 s) :
    Latin1 (c :: s) := by
  intro x hx
  rcases List.mem_cons.1 hx with h | h
  · subst h; exact hc
  · exact hs x h

theorem hexDigit_le (d : Nat) (h : d < 16) : hexDigit d ≤ 0xFF := by
  unfold hexDigit
  split <;> omega

theorem latin1_unicodeEscape (c : Nat) : Latin1 (unicodeEscape c) := by
  intro x hx
  simp only [unicodeEscape, List.mem_cons, List.mem_nil_iff, or_false] at hx
  have h1 := hexDigit_le (c / 4096 % 16) (Nat.mod_lt _ (by norm_num))
  have h2 := hexDigit_le (c / 256 % 16) (Nat.mod_lt _ (by norm_num))
  have h3 := hexDigit_le (c / 16 % 16) (Nat.mod_lt _ (by norm_num))
  have h4 := hexDigit_le (c % 16) (Nat.mod_lt _ (by norm_num))
  rcases hx with h | h | h | h | h | h <;> subst h <;> first | assumption | decide

/-- Every string within Latin-1 is printable. -/
theorem printable_of_latin1 (s : JSString) (h : Latin1 s) : Printable s := by
  unfold Printable
  induction s with
  | nil => intro c hc; simp [quoteJSONBody] at hc
  | cons c t ih =>
    have hc : c ≤ 0xFF := h c (List.mem_cons_self _ _)
    have ih := ih (fun x hx => h x (List.mem_cons_of_mem _ hx))
    rw [quoteJSONBody_cons c t hc]
    refine Latin1.append ?_ ih
    split_ifs
    all_goals first
      | exact latin1_unicodeEscape c
      | exact Latin1.cons hc (by intro x hx; simp at hx)
      | decide

theorem latin1_quoteJSONString (s : JSString) (h : Printable s) : Latin1 (quoteJSONString s) := by
  unfold quoteJSONString
  exact Latin1.append (Latin1.append (by decide) h) (by decide)

/-! ## JSON round trip on records of scalars -/

theorem skipWS_cons (c : Nat) (rest : JSString) (h : isJSONWhitespace c = false) :
    skipWS (c :: rest) = c :: rest := by
  simp [skipWS, h]

theorem parseValue_string (n : Nat) (body s r : JSString)
    (h : parseStringBody body = some (s, r)) :
    parseValue (n + 1) (34 :: body) = .done (.string s) r := by
  rw [parseValue.eq_def]
  simp only [skipWS_cons 34 body (by decide)]
  simp only [show (34 : Nat) ≠ 123 by decide, show (34 : Nat) ≠ 91 by decide, if_false, if_true,
    h]

theorem utf16_null : utf16 "null" = [110, 117, 108, 108] := by decide

theorem utf16_true : utf16 "true" = [116, 114, 117, 101] := by decide

theorem utf16_false : utf16 "false" = [102, 97, 108, 115, 101] := by decide

theorem parseValue_null (n : Nat) (rest : JSString) :
    parseValue (n + 1) (utf16 "null" ++ rest) = .done .null rest := by
  rw [parseValue.eq_def]
  simp only [utf16_null, utf16_true, utf16_false, List.cons_append, List.nil_append]
  rw [skipWS_cons _ _ (by decide)]
  simp +decide [startsWith, isDigit]

theorem parseValue_true (n : Nat) (rest : JSString) :
    parseValue (n + 1) (utf16 "true" ++ rest) = .done (.bool true) rest := by
  rw [parseValue.eq_def]
  simp only [utf16_null, utf16_true, utf16_false, List.cons_append, List.nil_append]
  rw [skipWS_cons _ _ (by decide)]
  simp +decide [startsWith, isDigit]

theorem parseValue_false (n : Nat) (rest : JSString) :
    parseValue (n + 1) (utf16 "false" ++ rest) = .done (.bool false) rest := by
  rw [parseValue.eq_def]
  simp only [utf16_null, utf16_true, utf16_false, List.cons_append, List.nil_append]
  rw [skipWS_cons _ _ (by decide)]
  simp +decide [startsWith, isDigit]

theorem parseValue_quoted (n : Nat) (s : JSString) (h : Printable s) (rest : JSString) :
    parseValue (n + 1) (quoteJSONString s ++ rest) = .done (.string s) rest := by
  have := parseStringBody_quoteJSONBody s rest h
  simp only [quoteJSONString, List.singleton_append, List.cons_append, List.append_assoc]
  exact parseValue_string n _ s rest this

theorem parseMembers_last (n : Nat) (k body r1 r4 : JSString) (v : JSValue)
    (hk : parseStringBody body = some (k, 58 :: r1))
    (hv : parseValue n r1 = .done v (125 :: r4)) :
    parseMembers (n + 1) (34 :: body) = .done [(k, v)] r4 := by
  rw [parseMembers.eq_def]
  simp only [skipWS_cons 34 body (by decide), if_true, hk, skipWS_cons 58 r1 (by decide), hv,
    skipWS_cons 125 r4 (by decide), show (125 : Nat) ≠ 44 by decide, if_false]

theorem parseMembers_more (n : Nat) (k body r1 r4 r5 : JSString) (v : JSValue)
    (ms : List (JSString × JSValue))
    (hk : parseStringBody body = some (k, 58 :: r1))
    (hv : parseValue n r1 = .done v (44 :: r4))
    (hms : parseMembers n r4 = .done ms r5) :
    parseMembers (n + 1) (34 :: body) = .done ((k, v) :: ms) r5 := by
  rw [parseMembers.eq_def]
  simp only [skipWS_cons 34 body (by decide), if_true, hk, skipWS_cons 58 r1 (by decide), hv,
    skipWS_cons 44 r4 (by decide), hms]

theorem stringify_scalar (P : Platform) (v : JSValue) (hv : Scalar v) :
    ∃ t, stringify P v = some t ∧ Latin1 t ∧
      ∀ n rest, parseValue (n + 1) (t ++ rest) = .done v rest := by
  rcases hv with h | h | h | ⟨s, h, hs⟩
  · subst h
    exact ⟨utf16 "null", by rw [stringify], by decide, fun n rest => parseValue_null n rest⟩
  · subst h
    exact ⟨utf16 "true", by rw [stringify]; rfl, by decide, fun n rest => parseValue_true n rest⟩
  · subst h
    exact ⟨utf16 "false", by rw [stringify]; rfl, by decide,
      fun n rest => parseValue_false n rest⟩
  · subst h
    exact ⟨quoteJSONString s, by rw [stringify], latin1_quoteJSONString s hs,
      fun n rest => parseValue_quoted n s hs rest⟩

theorem parseMembers_scalars (P : Platform) (ms : List (JSString × JSValue)) :
    ∀ (k : JSString) (v : JSValue) (n : Nat) (rest : JSString), Printable k → Scalar v →
      (∀ m ∈ ms, Printable m.1 ∧ Scalar m.2) → ms.length < n →
      parseMembers (n + 1) (quoteJSONString k ++ 58 :: ((stringify P v).getD []
        ++ (stringifyMembers P false ms ++ 125 :: rest))) = .done ((k, v) :: ms) rest := by
  induction ms with
  | nil =>
    intro k v n rest hk hv _ hn
    obtain ⟨t, ht, _, hp⟩ := stringify_scalar P v hv
    obtain ⟨n, rfl⟩ : ∃ m, n = m + 1 := ⟨n - 1, by simp at hn; omega⟩
    have hbody := parseStringBody_quoteJSONBody k (58 :: (t ++ 125 :: rest)) hk
    rw [ht]
    simp only [quoteJSONString, stringifyMembers, Option.getD_some, List.nil_append,
      List.singleton_append, List.cons_append, List.append_assoc]
    exact parseMembers_last _ k _ _ rest v hbody (hp n _)
  | cons m ms ih =>
    intro k v n rest hk hv hms hn
    obtain ⟨t, ht, _, hp⟩ := stringify_scalar P v hv
    obtain ⟨n, rfl⟩ : ∃ m, n = m + 1 := ⟨n - 1, by simp at hn; omega⟩
    obtain ⟨k2, v2⟩ := m
    have hm := hms (k2, v2) (List.mem_cons_self _ _)
    obtain ⟨t2, ht2, _, _⟩ := stringify_scalar P v2 hm.2
    have ih := ih k2 v2 n rest hm.1 hm.2 (fun x hx => hms x (List.mem_cons_of_mem _ hx))
      (by simp at hn; omega)
    rw [ht2] at ih
    have hbody := parseStringBody_quoteJSONBody k
      (58 :: (t ++ 44 :: (quoteJSONString k2 ++ 58 :: (t2
        ++ (stringifyMembers P false ms ++ 125 :: rest))))) hk
    rw [ht]
    simp only [quoteJSONString, stringifyMembers, ht2, Option.getD_some, List.nil_append,
      List.singleton_append, List.cons_append, List.append_assoc, Bool.false_eq_true, if_false]
    simp only [quoteJSONString, Option.getD_some, List.nil_append,
      List.singleton_append, List.cons_append, List.append_assoc] at ih hbody
    exact parseMembers_more _ k _ _ _ rest v _ hbody (hp n _) ih

theorem latin1_stringifyMembers (P : Platform) (ms : List (JSString × JSValue))
    (hms : ∀ m ∈ ms, Printable m.1 ∧ Scalar m.2) (first : Bool) :
    Latin1 (stringifyMembers P first ms) := by
  induction ms generalizing first with
  | nil => intro c hc; simp [stringifyMembers] at hc
  | cons m ms ih =>
    obtain ⟨k, v⟩ := m
    have hm := hms (k, v) (List.mem_cons_self _ _)
    obtain ⟨t, ht, hl, _⟩ := stringify_scalar P v hm.2
    have ih := ih (fun x hx => hms x (List.mem_cons_of_mem _ hx)) false
    simp only [stringifyMembers, ht]
    refine Latin1.append (Latin1.append (Latin1.append (Latin1.append ?_
      (latin1_quoteJSONString k hm.1)) (by decide)) hl) ih
    cases first <;> decide

theorem length_stringifyMembers (P : Platform) (ms : List (JSString × JSValue))
    (hms : ∀ m ∈ ms, Printable m.1 ∧ Scalar m.2) (first : Bool) :
    ms.length ≤ (stringifyMembers P first ms).length := by
  induction ms generalizing first with
  | nil => simp
  | cons m ms ih =>
    obtain ⟨k, v⟩ := m
    have hm := hms (k, v) (List.mem_cons_self _ _)
    obtain ⟨t, ht, _, _⟩ := stringify_scalar P v hm.2
    have ih := ih (fun x hx => hms x (List.mem_cons_of_mem _ hx)) false
    simp only [stringifyMembers, ht, quoteJSONString, List.length_append, List.length_cons,
      List.length_nil]
    omega

theorem parseValue_object (n : Nat) (body rest : JSString) (ms : List (JSString × JSValue))
    (h : parseMembers n (34 :: body) = .done ms rest) :
    parseValue (n + 1) (123 :: 34 :: body) = .done (.object ms) rest := by
  rw [parseValue.eq_def]
  simp only [skipWS_cons 123 _ (by decide), skipWS_cons 34 _ (by decide), if_true,
    show (34 : Nat) ≠ 125 by decide, if_false, h]

/-- A record of scalars with printable keys survives `JSON.stringify`, then `JSON.parse`,
and its text is within Latin-1. -/
theorem jsonParse_stringify_record (P : Platform) (k : JSString) (v : JSValue)
    (ms : List (JSString × JSValue)) (hk : Printable k) (hv : Scalar v)
    (hms : ∀ m ∈ ms, Printable m.1 ∧ Scalar m.2) :
    ∃ text, stringify P (.object ((k, v) :: ms)) = some text ∧ Latin1 text ∧
      jsonParse text = some (.object ((k, v) :: ms)) := by
  obtain ⟨t, ht, hl, _⟩ := stringify_scalar P v hv
  have hall : ∀ m ∈ (k, v) :: ms, Printable m.1 ∧ Scalar m.2 := by
    intro m hm
    rcases List.mem_cons.1 hm with h | h
    · subst h; exact ⟨hk, hv⟩
    · exact hms m h
  refine ⟨[123] ++ stringifyMembers P true ((k, v) :: ms) ++ [125], by rw [stringify], ?_, ?_⟩
  · exact Latin1.append (Latin1.append (by decide) (latin1_stringifyMembers P _ hall true))
      (by decide)
  · have hlen := length_stringifyMembers P ms hms false
    have htext : [123] ++ stringifyMembers P true ((k, v) :: ms) ++ [125]
        = 123 :: 34 :: (quoteJSONBody k ++ 34 :: 58 :: (t
          ++ (stringifyMembers P false ms ++ [125]))) := by
      simp only [stringifyMembers, ht, quoteJSONString, if_true, List.nil_append,
        List.singleton_append, List.cons_append, List.append_assoc]
    rw [htext]
    generalize hT : quoteJSONBody k ++ 34 :: 58 :: (t
      ++ (stringifyMembers P false ms ++ [125])) = body
    have hparse := parseMembers_scalars P ms k v (2 * (123 :: 34 :: body).length) [] hk hv hms
      (by rw [← hT]; simp only [List.length_append, List.length_cons, List.length_nil]; omega)
    rw [ht] at hparse
    simp only [quoteJSONString, Option.getD_some, List.nil_append, List.singleton_append,
      List.cons_append, List.append_assoc] at hparse
    rw [hT] at hparse
    unfold jsonParse
    rw [show 2 * (123 :: 34 :: body).length + 2 = (2 * (123 :: 34 :: body).length + 1) + 1
      from rfl, parseValue_object _ _ _ _ hparse]
    rfl

/-! ## The envelope survives `createSMQREnvelope` and `parseSMQREnvelope` -/

theorem latin1_padDigits (w n : Nat) : Latin1 (padDigits w n) := by
  induction w generalizing n with
  | zero => intro c hc; simp [padDigits] at hc
  | succ w ih =>
    rw [padDigits]
    refine Latin1.append (ih _) ?_
    intro c hc
    simp only [List.mem_singleton] at hc
    omega

theorem latin1_year (y : Int) :
    Latin1 (if 0 ≤ y ∧ y ≤ 9999 then padDigits 4 y.toNat
      else (if y < 0 then utf16 "-" else utf16 "+") ++ padDigits 6 y.natAbs) := by
  split_ifs
  · exact latin1_padDigits _ _
  · exact Latin1.append (by decide) (latin1_padDigits _ _)
  · exact Latin1.append (by decide) (latin1_padDigits _ _)

theorem latin1_toISOString (t : Int) : Latin1 (toISOString t) := by
  unfold toISOString
  simp only
  have pd := latin1_padDigits
  exact ((((((((((((((latin1_year _).append (by decide)).append (pd _ _)).append
    (by decide)).append (pd _ _)).append (by decide)).append (pd _ _)).append
    (by decide)).append (pd _ _)).append (by decide)).append (pd _ _)).append
    (by decide)).append (pd _ _)).append (by decide))

theorem orNull_cases (x : Option JSString) :
    orNull x = .null ∨ ∃ s, orNull x = .string s ∧ x = some s ∧ s ≠ [] := by
  cases x with
  | none => exact Or.inl rfl
  | some s =>
    cases s with
    | nil => exact Or.inl rfl
    | cons c t => exact Or.inr ⟨c :: t, rfl, rfl, by simp⟩

theorem utf16_SMQR : utf16 "SMQR:" = [83, 77, 81, 82, 58] := by decide

theorem stripSMQR_wrap (b : JSString) : stripSMQR (utf16 "SMQR:" ++ b) = b := by
  simp [stripSMQR, utf16_SMQR, startsWith]

theorem startsWith_wrap (b : JSString) : startsWith (utf16 "SMQR:" ++ b) (utf16 "SMQR:") = true := by
  simp [utf16_SMQR, startsWith]

theorem envelopeRecord_smqr (now : Int) (a : EnvelopeArgs) :
    (envelopeRecord now a).get (utf16 "smqr") = .bool true := by
  rcases orNull_cases a.expiryDate with h1 | ⟨s1, h1, _⟩ <;>
  rcases orNull_cases a.password with h2 | ⟨s2, h2, _⟩ <;>
  simp +decide [envelopeRecord, JSValue.get, lookupMember, h1, h2]

theorem envelopeRecord_payloadType (now : Int) (a : EnvelopeArgs) :
    (envelopeRecord now a).get (utf16 "payloadType") = .string a.payloadType := by
  rcases orNull_cases a.expiryDate with h1 | ⟨s1, h1, _⟩ <;>
  rcases orNull_cases a.password with h2 | ⟨s2, h2, _⟩ <;>
  simp +decide [envelopeRecord, JSValue.get, lookupMember, h1, h2]

theorem envelopeRecord_payload (now : Int) (a : EnvelopeArgs) :
    (envelopeRecord now a).get (utf16 "payload") = .string a.payload := by
  rcases orNull_cases a.expiryDate with h1 | ⟨s1, h1, _⟩ <;>
  rcases orNull_cases a.password with h2 | ⟨s2, h2, _⟩ <;>
  simp +decide [envelopeRecord, JSValue.get, lookupMember, h1, h2]

theorem envelopeRecord_expiryDate (now : Int) (a : EnvelopeArgs) :
    (envelopeRecord now a).get (utf16 "expiryDate") = orNull a.expiryDate := by
  rcases orNull_cases a.expiryDate with h1 | ⟨s1, h1, _⟩ <;>
  rcases orNull_cases a.password with h2 | ⟨s2, h2, _⟩ <;>
  simp +decide [envelopeRecord, JSValue.get, lookupMember, h1, h2]

theorem envelopeRecord_password (now : Int) (a : EnvelopeArgs) :
    (envelopeRecord now a).get (utf16 "password") = orNull a.password := by
  rcases orNull_cases a.expiryDate with h1 | ⟨s1, h1, _⟩ <;>
  rcases orNull_cases a.password with h2 | ⟨s2, h2, _⟩ <;>
  simp +decide [envelopeRecord, JSValue.get, lookupMember, h1, h2]

theorem printable_of_quoted {s : JSString} (h : Latin1 (quoteJSONString s)) : Printable s := by
  unfold quoteJSONString at h
  exact h.left.right

theorem scalars_of_latin1 (P : Platform) (ms : List (JSString × JSValue))
    (hshape : ∀ m ∈ ms, m.2 = .null ∨ m.2 = .bool true ∨ m.2 = .bool false ∨
      ∃ s, m.2 = .string s) (first : Bool)
    (h : Latin1 (stringifyMembers P first ms)) : ∀ m ∈ ms, Printable m.1 ∧ Scalar m.2 := by
  induction ms generalizing first with
  | nil => intro m hm; simp at hm
  | cons m ms ih =>
    obtain ⟨k, v⟩ := m
    have hv := hshape (k, v) (List.mem_cons_self _ _)
    have hrest := fun x hx => hshape x (List.mem_cons_of_mem _ hx)
    have key : ∃ t, stringify P v = some t ∧ (Latin1 t → Scalar v) := by
      rcases hv with h1 | h1 | h1 | ⟨s, h1⟩ <;> simp only at h1 <;> subst h1
      · exact ⟨_, by rw [stringify], fun _ => Or.inl rfl⟩
      · exact ⟨_, by rw [stringify], fun _ => Or.inr (Or.inl rfl)⟩
      · exact ⟨_, by rw [stringify], fun _ => Or.inr (Or.inr (Or.inl rfl))⟩
      · exact ⟨_, by rw [stringify],
          fun hl => Or.inr (Or.inr (Or.inr ⟨s, rfl, printable_of_quoted hl⟩))⟩
    obtain ⟨t, ht, hsc⟩ := key
    simp only [stringifyMembers, ht] at h
    have hk : Printable k := printable_of_quoted h.left.left.left.right
    have hvs : Scalar v := hsc h.left.right
    intro x hx
    rcases List.mem_cons.1 hx with hx | hx
    · subst hx; exact ⟨hk, hvs⟩
    · exact ih hrest false h.right x hx

theorem envelopeRecord_shape (now : Int) (a : EnvelopeArgs) :
    ∃ ms, envelopeRecord now a = .object ((utf16 "smqr", .bool true) :: ms) ∧
      (∀ m ∈ ms, m.2 = .null ∨ m.2 = .bool true ∨ m.2 = .bool false ∨ ∃ s, m.2 = .string s) ∧
      ((Latin1 a.payloadType ∧ Latin1 a.payload ∧ (∀ e ∈ a.expiryDate, Latin1 e)
          ∧ (∀ p ∈ a.password, Latin1 p)) → ∀ m ∈ ms, Printable m.1 ∧ Scalar m.2) := by
  refine ⟨_, rfl, ?_, ?_⟩
  · intro m hm
    simp only [List.mem_cons, List.mem_nil_iff, or_false] at hm
    rcases hm with h | h | h | h | h <;> subst h
    · exact Or.inr (Or.inr (Or.inr ⟨_, rfl⟩))
    · exact Or.inr (Or.inr (Or.inr ⟨_, rfl⟩))
    · rcases orNull_cases a.expiryDate with h | ⟨s, h, _⟩
      · exact Or.inl h
      · exact Or.inr (Or.inr (Or.inr ⟨s, h⟩))
    · rcases orNull_cases a.password with h | ⟨s, h, _⟩
      · exact Or.inl h
      · exact Or.inr (Or.inr (Or.inr ⟨s, h⟩))
    · exact Or.inr (Or.inr (Or.inr ⟨_, rfl⟩))
  · rintro ⟨h1, h2, h3, h4⟩ m hm
    simp only [List.mem_cons, List.mem_nil_iff, or_false] at hm
    rcases hm with h | h | h | h | h <;> subst h
    · exact ⟨by show Latin1 (quoteJSONBody (utf16 "payloadType")); decide,
        Or.inr (Or.inr (Or.inr ⟨_, rfl, printable_of_latin1 _ h1⟩))⟩
    · exact ⟨by show Latin1 (quoteJSONBody (utf16 "payload")); decide,
        Or.inr (Or.inr (Or.inr ⟨_, rfl, printable_of_latin1 _ h2⟩))⟩
    · refine ⟨by show Latin1 (quoteJSONBody (utf16 "expiryDate")); decide, ?_⟩
      rcases orNull_cases a.expiryDate with h | ⟨s, h, hs, _⟩
      · exact Or.inl h
      · exact Or.inr (Or.inr (Or.inr ⟨s, h, printable_of_latin1 _ (h3 s hs)⟩))
    · refine ⟨by show Latin1 (quoteJSONBody (utf16 "password")); decide, ?_⟩
      rcases orNull_cases a.password with h | ⟨s, h, hs, _⟩
      · exact Or.inl h
      · exact Or.inr (Or.inr (Or.inr ⟨s, h, printable_of_latin1 _ (h4 s hs)⟩))
    · exact ⟨by show Latin1 (quoteJSONBody (utf16 "createdAt")); decide,
        Or.inr (Or.inr (Or.inr ⟨_, rfl, printable_of_latin1 _ (latin1_toISOString now)⟩))⟩

theorem latin1_of_btoa {s b : JSString} (h : btoa s = .ok b) : Latin1 s := by
  unfold btoa at h
  split at h
  · rename_i hall
    intro c hc
    simpa using (List.all_eq_true.1 hall) c hc
  · simp at h

/-- Whenever `createSMQREnvelope` returns a text, the text starts with `SMQR:` and
`parseSMQREnvelope` reads the record back from it. -/
theorem parse_create (P : Platform) (now : Int) (a : EnvelopeArgs) (text : JSString)
    (h : createSMQREnvelope P now a = .ok text) :
    (∃ b, text = utf16 "SMQR:" ++ b) ∧ parseSMQREnvelope text = some (envelopeRecord now a) := by
  obtain ⟨ms, hrec, hshape, _⟩ := envelopeRecord_shape now a
  unfold createSMQREnvelope at h
  rw [hrec] at h ⊢
  have hs : stringify P (.object ((utf16 "smqr", .bool true) :: ms))
      = some ([123] ++ stringifyMembers P true ((utf16 "smqr", .bool true) :: ms) ++ [125]) := by
    rw [stringify]
  rw [hs, Option.getD_some] at h
  cases hb : btoa ([123] ++ stringifyMembers P true ((utf16 "smqr", .bool true) :: ms) ++ [125])
    with
  | error e => rw [hb] at h; simp at h
  | ok b =>
    rw [hb] at h
    simp only [Except.ok.injEq] at h
    subst h
    refine ⟨⟨b, rfl⟩, ?_⟩
    have hl := latin1_of_btoa hb
    have hall := scalars_of_latin1 P ((utf16 "smqr", .bool true) :: ms)
      (by
        intro m hm
        rcases List.mem_cons.1 hm with h | h
        · subst h; exact Or.inr (Or.inl rfl)
        · exact hshape m h) true hl.left.right
    obtain ⟨json, hj, _, hparse⟩ := jsonParse_stringify_record P (utf16 "smqr") (.bool true) ms
      (hall _ (List.mem_cons_self _ _)).1 (Or.inr (Or.inl rfl))
      (fun m hm => hall m (List.mem_cons_of_mem _ hm))
    rw [hs] at hj
    simp only [Option.some.injEq] at hj
    subst hj
    unfold parseSMQREnvelope
    rw [stripSMQR_wrap, atob_btoa _ _ hb]
    simp only [hparse]
    rw [← hrec, envelopeRecord_smqr, hrec]
    rfl

/-- On arguments within Latin-1, `createSMQREnvelope` returns a text. -/
theorem create_ok (P : Platform) (now : Int) (a : EnvelopeArgs)
    (h1 : Latin1 a.payloadType) (h2 : Latin1 a.payload) (h3 : ∀ e ∈ a.expiryDate, Latin1 e)
    (h4 : ∀ p ∈ a.password, Latin1 p) : ∃ text, createSMQREnvelope P now a = .ok text := by
  obtain ⟨ms, hrec, _, hpr⟩ := envelopeRecord_shape now a
  obtain ⟨json, hj, hl, _⟩ := jsonParse_stringify_record P (utf16 "smqr") (.bool true) ms
    (by unfold Printable; decide) (Or.inr (Or.inl rfl)) (hpr ⟨h1, h2, h3, h4⟩)
  unfold createSMQREnvelope
  rw [hrec, hj, Option.getD_some, btoa_ok json hl]
  exact ⟨_, rfl⟩

/-! ## C2: `createSMQREnvelope` outside Latin-1 -/

theorem btoa_error (s : JSString) (c : Nat) (hc : c ∈ s) (h : 0xFF < c) :
    btoa s = .error .invalidCharacterError := by
  unfold btoa
  rw [if_neg]
  intro hall
  have := (List.all_eq_true.1 hall) c hc
  simp only [decide_eq_true_eq] at this
  omega

/-- C2 (the code at the failing input): for the payload `€` (U+20AC), on every host and at
every instant, `createSMQREnvelope` throws `InvalidCharacterError` and returns no text:
`JSON.stringify` leaves the character as it is and `btoa` rejects it. -/
theorem createSMQREnvelope_throws (P : Platform) (now : Int) :
    createSMQREnvelope P now ⟨utf16 "text", utf16 "€", none, some (utf16 "p1")⟩
      = .error .invalidCharacterError := by
  unfold createSMQREnvelope
  rw [btoa_error _ 8364 _ (by decide)]
  have hq : quoteJSONString (utf16 "€") = [34, 8364, 34] := by decide
  simp [envelopeRecord, stringify, stringifyMembers, hq, orNull]

/-! ## C3: the envelope round trip -/

/-- C3: for arguments whose code units are all at most U+00FF, `createSMQREnvelope` returns
a text and `parseSMQREnvelope` of that text returns a record whose `smqr` is `true`, whose
`payloadType` and `payload` are the arguments, and whose `expiryDate` and `password` are the
arguments, or `null` for an absent or empty one (`orNull`). -/
theorem envelope_round_trip (P : Platform) (now : Int) (a : EnvelopeArgs)
    (h1 : Latin1 a.payloadType) (h2 : Latin1 a.payload) (h3 : ∀ e ∈ a.expiryDate, Latin1 e)
    (h4 : ∀ p ∈ a.password, Latin1 p) :
    ∃ text env, createSMQREnvelope P now a = .ok text ∧ parseSMQREnvelope text = some env ∧
      env.get (utf16 "smqr") = .bool true ∧
      env.get (utf16 "payloadType") = .string a.payloadType ∧
      env.get (utf16 "payload") = .string a.payload ∧
      env.get (utf16 "expiryDate") = orNull a.expiryDate ∧
      env.get (utf16 "password") = orNull a.password := by
  obtain ⟨text, ht⟩ := create_ok P now a h1 h2 h3 h4
  exact ⟨text, envelopeRecord now a, ht, (parse_create P now a text ht).2,
    envelopeRecord_smqr now a, envelopeRecord_payloadType now a, envelopeRecord_payload now a,
    envelopeRecord_expiryDate now a, envelopeRecord_password now a⟩

/-- C3 on an example: a text payload with a password and no expiry date. -/
theorem envelope_round_trip_witness :
    ∃ text env,
      createSMQREnvelope asciiHost 1700000000000 ⟨utf16 "text", utf16 "secret", none,
        some (utf16 "p1")⟩ = .ok text ∧
      parseSMQREnvelope text = some env ∧
      env.get (utf16 "smqr") = .bool true ∧
      env.get (utf16 "payloadType") = .string (utf16 "text") ∧
      env.get (utf16 "payload") = .string (utf16 "secret") ∧
      env.get (utf16 "expiryDate") = .null ∧
      env.get (utf16 "password") = .string (utf16 "p1") :=
  envelope_round_trip asciiHost 1700000000000
    ⟨utf16 "text", utf16 "secret", none, some (utf16 "p1")⟩ (by decide) (by decide)
    (by intro e he; cases he) (by intro p hp; cases hp; decide)

/-! ## One step of `decodeQRData` -/

theorem ne_nil_of_startsWith {s : JSString} (h : startsWith s (utf16 "SMQR:") = true) :
    s ≠ [] := by
  rintro rfl
  simp [utf16_SMQR, startsWith] at h

theorem decodeQRData_empty (P : Platform) (now : Int) :
    decodeQRData P now (.string []) = .ok none := rfl

theorem decodeQRData_plain (P : Platform) (now : Int) (s : JSString) (hne : s ≠ [])
    (h : startsWith s (utf16 "SMQR:") = false) :
    decodeQRData P now (.string s) = .ok (some (decodePlain P s)) := by
  cases s with
  | nil => exact absurd rfl hne
  | cons c t =>
    simp [decodeQRData, depthBound, decodeQRDataFuel, JSValue.truthy, strTruthy, h]

theorem decodeQRData_envelope (P : Platform) (now : Int) (text : JSString)
    (h : startsWith text (utf16 "SMQR:") = true) :
    decodeQRData P now (.string text)
      = (decodeEnvelope P now (decodeQRDataFuel P now text.length) text).getD (.ok none) := by
  cases text with
  | nil => exact absurd rfl (ne_nil_of_startsWith h)
  | cons c t =>
    simp [decodeQRData, depthBound, decodeQRDataFuel, JSValue.truthy, strTruthy, h]

/-! ## C4: `parseSMQREnvelope` and the prefix -/

/-- C4 (counterexample): the text `eyJzbXFyIjp0cnVlfQ==` does not begin with `SMQR:`, yet
`parseSMQREnvelope` returns a record for it, not `null`. -/
theorem parseSMQREnvelope_without_marker_text :
    startsWith (utf16 "eyJzbXFyIjp0cnVlfQ==") (utf16 "SMQR:") = false ∧
    parseSMQREnvelope (utf16 "eyJzbXFyIjp0cnVlfQ==")
      = some (.object [(utf16 "smqr", .bool true)]) := by
  constructor
  · decide
  · rfl

/-- C4 (amended): `parseSMQREnvelope` itself does not test the prefix: on a text that does
not begin with `SMQR:` it decodes the whole text, and returns what it returns for the same
text behind the prefix. The prefix is tested by `decodeQRData`, which never unwraps such a
text: it returns `null` for the empty text and the plain classification otherwise. -/
theorem parseSMQREnvelope_prefix_optional (P : Platform) (now : Int) (text : JSString)
    (h : startsWith text (utf16 "SMQR:") = false) :
    parseSMQREnvelope text = parseSMQREnvelope (utf16 "SMQR:" ++ text) ∧
    decodeQRData P now (.string text)
      = .ok (if text = [] then none else some (decodePlain P text)) := by
  constructor
  · unfold parseSMQREnvelope
    rw [stripSMQR_wrap]
    simp [stripSMQR, h]
  · by_cases ht : text = []
    · subst ht; rfl
    · rw [if_neg ht, decodeQRData_plain P now text ht h]

/-- C4 (amended) on an example: the text of the counterexample is classified as plain
text by `decodeQRData`. -/
theorem parseSMQREnvelope_prefix_optional_witness :
    parseSMQREnvelope (utf16 "eyJzbXFyIjp0cnVlfQ==")
      = parseSMQREnvelope (utf16 "SMQR:" ++ utf16 "eyJzbXFyIjp0cnVlfQ==") ∧
    decodeQRData asciiHost 0 (.string (utf16 "eyJzbXFyIjp0cnVlfQ=="))
      = .ok (if utf16 "eyJzbXFyIjp0cnVlfQ==" = [] then none
          else some (decodePlain asciiHost (utf16 "eyJzbXFyIjp0cnVlfQ=="))) :=
  parseSMQREnvelope_prefix_optional asciiHost 0 (utf16 "eyJzbXFyIjp0cnVlfQ==") (by decide)

/-! ## C10: a text that fails to unwrap -/

/-- C10: a text that begins with `SMQR:` and that `parseSMQREnvelope` rejects (`null`: the
rest is no base64, or no JSON text, or the record has no truthy `smqr`) is classified as
`invalid`. -/
theorem decodeQRData_invalid (P : Platform) (now : Int) (text : JSString)
    (h : startsWith text (utf16 "SMQR:") = true) (hfail : parseSMQREnvelope text = none) :
    decodeQRData P now (.string text)
      = .ok (some
          { type := utf16 "invalid"
            content := utf16 "Invalid secured QR format"
            action := utf16 "Invalid" }) := by
  rw [decodeQRData_envelope P now text h]
  simp [decodeEnvelope, hfail]

/-- C10 on three examples: no base64, base64 of no JSON text, and a record without the
marker. -/
theorem decodeQRData_invalid_witness :
    (decodeQRData asciiHost 0 (.string (utf16 "SMQR:!!!"))).map (Option.map (·.type))
      = .ok (some (utf16 "invalid")) ∧
    (decodeQRData asciiHost 0 (.string (utf16 "SMQR:eHg="))).map (Option.map (·.type))
      = .ok (some (utf16 "invalid")) ∧
    (decodeQRData asciiHost 0 (.string (utf16 "SMQR:eyJhIjoxfQ=="))).map (Option.map (·.type))
      = .ok (some (utf16 "invalid")) := by
  refine ⟨?_, ?_, ?_⟩
  · rw [decodeQRData_invalid asciiHost 0 (utf16 "SMQR:!!!") (by decide) rfl]; rfl
  · rw [decodeQRData_invalid asciiHost 0 (utf16 "SMQR:eHg=") (by decide) rfl]; rfl
  · rw [decodeQRData_invalid asciiHost 0 (utf16 "SMQR:eyJhIjoxfQ==") (by decide) rfl]
    rfl

/-! ## C6: an expired envelope -/

theorem orNull_some {s : JSString} (h : s ≠ []) : orNull (some s) = .string s := by
  cases s with
  | nil => exact absurd rfl h
  | cons c t => rfl

theorem truthy_string {s : JSString} (h : s ≠ []) : (JSValue.string s).truthy = true := by
  cases s with
  | nil => exact absurd rfl h
  | cons c t => rfl

/-- C6: with the clock of the classifier at `now`, an envelope created (at any instant) with
an expiry date that parses to an instant strictly before `now` is classified as `expired`
and the result carries that expiry date; the result names neither the password nor the
payload, so the expiry check wins over the password check and the payload plays no part.
Whenever `createSMQREnvelope` returns a text the classification is this one, and on
arguments within Latin-1 it does return one. The empty string is no date. -/
theorem decodeQRData_expired (P : Platform) (created now : Int) (a : EnvelopeArgs)
    (e : JSString) (t : Int) (hexp : a.expiryDate = some e) (hne : e ≠ [])
    (hdate : P.dateValue (.string e) = some t) (hlt : t < now) :
    (∀ text, createSMQREnvelope P created a = .ok text →
      decodeQRData P now (.string text)
        = .ok (some
            { type := utf16 "expired"
              content := utf16 "QR Code Expired"
              action := utf16 "Expired"
              expiryDate := some (.string e) })) ∧
    (Latin1 a.payloadType → Latin1 a.payload → Latin1 e → (∀ p ∈ a.password, Latin1 p) →
      ∃ text, createSMQREnvelope P created a = .ok text) := by
  constructor
  · intro text htext
    obtain ⟨⟨b, hb⟩, hparse⟩ := parse_create P created a text htext
    have hstart : startsWith text (utf16 "SMQR:") = true := by rw [hb]; exact startsWith_wrap b
    have hget : (envelopeRecord created a).get (utf16 "expiryDate") = .string e := by
      rw [envelopeRecord_expiryDate, hexp, orNull_some hne]
    have hex : isExpired P now (.string e) = true := by
      simp [isExpired, truthy_string hne, hdate, hlt]
    rw [decodeQRData_envelope P now text hstart]
    simp [decodeEnvelope, hparse, hget, hex]
  · intro h1 h2 h3 h4
    exact create_ok P created a h1 h2
      (by intro x hx; rw [hexp] at hx; cases hx; exact h3) h4

/-- C6 on the example of the specification: `wrap("url", "https://a.example")` with an
expiry date one day before the scan, without and with a password. -/
theorem decodeQRData_expired_witness :
    (∃ text,
      createSMQREnvelope asciiHost 1699900000000 ⟨utf16 "url", utf16 "https://a.example",
        some (utf16 "2023-11-13T22:13:20.000Z"), none⟩ = .ok text ∧
      decodeQRData asciiHost 1700000000000 (.string text)
        = .ok (some
            { type := utf16 "expired"
              content := utf16 "QR Code Expired"
              action := utf16 "Expired"
              expiryDate := some (.string (utf16 "2023-11-13T22:13:20.000Z")) })) ∧
    (∃ text,
      createSMQREnvelope asciiHost 1699900000000 ⟨utf16 "url", utf16 "https://a.example",
        some (utf16 "2023-11-13T22:13:20.000Z"), some (utf16 "p1")⟩ = .ok text ∧
      decodeQRData asciiHost 1700000000000 (.string text)
        = .ok (some
            { type := utf16 "expired"
              content := utf16 "QR Code Expired"
              action := utf16 "Expired"
              expiryDate := some (.string (utf16 "2023-11-13T22:13:20.000Z")) })) := by
  constructor
  · have h := decodeQRData_expired asciiHost 1699900000000 1700000000000
      ⟨utf16 "url", utf16 "https://a.example", some (utf16 "2023-11-13T22:13:20.000Z"), none⟩
      (utf16 "2023-11-13T22:13:20.000Z") 1699913600000 rfl (by decide) (by decide) (by decide)
    obtain ⟨text, ht⟩ := h.2 (by decide) (by decide) (by decide) (by intro p hp; cases hp)
    exact ⟨text, ht, h.1 text ht⟩
  · have h := decodeQRData_expired asciiHost 1699900000000 1700000000000
      ⟨utf16 "url", utf16 "https://a.example", some (utf16 "2023-11-13T22:13:20.000Z"),
        some (utf16 "p1")⟩
      (utf16 "2023-11-13T22:13:20.000Z") 1699913600000 rfl (by decide) (by decide) (by decide)
    obtain ⟨text, ht⟩ := h.2 (by decide) (by decide) (by decide)
      (by intro p hp; cases hp; decide)
    exact ⟨text, ht, h.1 text ht⟩

/-! ## C7: a protected envelope -/

/-- C7: an envelope created with a non-empty password, whose expiry date does not make it
expired at `now` (it is absent, or not yet passed, or no date), is classified as
`protected`: the content names the payload type only, and the `envelope` field is the
record that was wrapped, with the same payload and password. The result holds the payload
nowhere else: the payload is not classified. Whenever `createSMQREnvelope` returns a text
the classification is this one, and on arguments within Latin-1 it does return one. -/
theorem decodeQRData_protected (P : Platform) (created now : Int) (a : EnvelopeArgs)
    (p : JSString) (hpw : a.password = some p) (hne : p ≠ [])
    (hexp : isExpired P now (orNull a.expiryDate) = false) :
    (∀ text, createSMQREnvelope P created a = .ok text →
      decodeQRData P now (.string text)
        = .ok (some
            { type := utf16 "protected"
              content := utf16 "Protected " ++ a.payloadType
              action := utf16 "Requires Password"
              envelope := some (envelopeRecord created a) })) ∧
    (envelopeRecord created a).get (utf16 "payload") = .string a.payload ∧
    (envelopeRecord created a).get (utf16 "password") = .string p ∧
    (Latin1 a.payloadType → Latin1 a.payload → (∀ e ∈ a.expiryDate, Latin1 e) → Latin1 p →
      ∃ text, createSMQREnvelope P created a = .ok text) := by
  have hgetpw : (envelopeRecord created a).get (utf16 "password") = .string p := by
    rw [envelopeRecord_password, hpw, orNull_some hne]
  refine ⟨?_, envelopeRecord_payload created a, hgetpw, ?_⟩
  · intro text htext
    obtain ⟨⟨b, hb⟩, hparse⟩ := parse_create P created a text htext
    have hstart : startsWith text (utf16 "SMQR:") = true := by rw [hb]; exact startsWith_wrap b
    rw [decodeQRData_envelope P now text hstart]
    simp [decodeEnvelope, hparse, envelopeRecord_expiryDate, hexp, hgetpw, truthy_string hne,
      envelopeRecord_payloadType, toStringJS]
  · intro h1 h2 h3 h4
    exact create_ok P created a h1 h2 h3
      (by intro x hx; rw [hpw] at hx; cases hx; exact h4)

/-- C7 on the example of the specification: `wrap("text", "secret", password = "p1")`. -/
theorem decodeQRData_protected_witness :
    ∃ text,
      createSMQREnvelope asciiHost 1699900000000 ⟨utf16 "text", utf16 "secret", none,
        some (utf16 "p1")⟩ = .ok text ∧
      decodeQRData asciiHost 1700000000000 (.string text)
        = .ok (some
            { type := utf16 "protected"
              content := utf16 "Protected text"
              action := utf16 "Requires Password"
              envelope := some (envelopeRecord 1699900000000
                ⟨utf16 "text", utf16 "secret", none, some (utf16 "p1")⟩) }) := by
  have h := decodeQRData_protected asciiHost 1699900000000 1700000000000
    ⟨utf16 "text", utf16 "secret", none, some (utf16 "p1")⟩ (utf16 "p1") rfl (by decide) rfl
  obtain ⟨text, ht⟩ := h.2.2.2 (by decide) (by decide) (by intro e he; cases he) (by decide)
  exact ⟨text, ht, h.1 text ht⟩

/-! ## C8: the password reveal -/

/-- C8: for an envelope whose password is the string `p` and an attempt `a`: when `a` is
`p`, `handleProtectedReveal` returns `decodeQRData` of the payload with the envelope attached
and stores that as the scan result (an exception of `decodeQRData` passes through and leaves
the state as it was); when `a` is not `p`, it returns `null` and leaves the state as it
was. -/
theorem handleProtectedReveal_spec (P : Platform) (now : Int) (envelope : JSValue)
    (p a : JSString) (st : AppState) (henv : envelope.truthy = true)
    (hp : envelope.get (utf16 "password") = .string p) :
    (a = p → ∀ inner, decodeQRData P now (envelope.get (utf16 "payload")) = .ok inner →
      handleProtectedReveal P now envelope a st
        = (attachEnvelope envelope (.ok inner),
            { st with scanResult := inner.map fun r => { r with envelope := some envelope } })) ∧
    (a = p → ∀ err, decodeQRData P now (envelope.get (utf16 "payload")) = .error err →
      handleProtectedReveal P now envelope a st = (.error err, st)) ∧
    (a ≠ p → handleProtectedReveal P now envelope a st = (.ok none, st)) := by
  refine ⟨?_, ?_, ?_⟩
  · intro hap inner hinner
    subst hap
    cases inner with
    | none => simp [handleProtectedReveal, henv, hp, hinner, attachEnvelope]
    | some r => simp [handleProtectedReveal, henv, hp, hinner, attachEnvelope]
  · intro hap err herr
    subst hap
    simp [handleProtectedReveal, henv, hp, herr, attachEnvelope]
  · intro hap
    simp [handleProtectedReveal, henv, hp, Ne.symm hap]

/-- C8 on the example of the specification: the envelope of
`wrap("text", "secret", password = "p1")`, revealed with `p1`, gives the text result of
`secret` with the envelope attached and stores it; revealed with `p2` it gives `null` and
the stored scan result stays. -/
theorem handleProtectedReveal_spec_witness :
    handleProtectedReveal asciiHost 1700000000000
        (envelopeRecord 1699900000000 ⟨utf16 "text", utf16 "secret", none, some (utf16 "p1")⟩)
        (utf16 "p1") ⟨none⟩
      = (.ok (some
            { type := utf16 "text"
              content := utf16 "secret"
              action := utf16 "Text Content"
              envelope := some (envelopeRecord 1699900000000
                ⟨utf16 "text", utf16 "secret", none, some (utf16 "p1")⟩) }),
          ⟨some
            { type := utf16 "text"
              content := utf16 "secret"
              action := utf16 "Text Content"
              envelope := some (envelopeRecord 1699900000000
                ⟨utf16 "text", utf16 "secret", none, some (utf16 "p1")⟩) }⟩) ∧
    handleProtectedReveal asciiHost 1700000000000
        (envelopeRecord 1699900000000 ⟨utf16 "text", utf16 "secret", none, some (utf16 "p1")⟩)
        (utf16 "p2") ⟨none⟩
      = (.ok none, ⟨none⟩) := by
  have h := handleProtectedReveal_spec asciiHost 1700000000000
    (envelopeRecord 1699900000000 ⟨utf16 "text", utf16 "secret", none, some (utf16 "p1")⟩)
    (utf16 "p1")
  constructor
  · exact (h (utf16 "p1") ⟨none⟩ rfl rfl).1 rfl _ rfl
  · exact (h (utf16 "p2") ⟨none⟩ rfl rfl).2.2 (by decide)

/-! ## What the parser reads is no longer than its text -/

theorem skipWS_length (s : JSString) : (skipWS s).length ≤ s.length := by
  induction s with
  | nil => simp [skipWS]
  | cons c t ih =>
    rw [skipWS]
    split
    · simp only [List.length_cons]; omega
    · simp

theorem skipWS_cons_length {s r : JSString} {c : Nat} (h : skipWS s = c :: r) :
    r.length + 1 ≤ s.length := by
  have := skipWS_length s
  rw [h] at this
  simpa using this

theorem parseStringBody_length (body : JSString) :
    ∀ s r, parseStringBody body = some (s, r) → s.length + r.length + 1 ≤ body.length := by
  induction body using parseStringBody.induct with
  | case1 => intro s r h; simp [parseStringBody] at h
  | case2 rest =>
    intro s r h
    rw [parseStringBody_quoteMark] at h
    simp only [Option.some.injEq, Prod.mk.injEq] at h
    obtain ⟨rfl, rfl⟩ := h
    simp
  | case3 _ =>
    intro s r h
    rw [parseStringBody.eq_def] at h
    simp at h
  | case4 h1 h2 h3 h4 rest3 a b c d s0 r0 hp hd hc hb ha _ ih =>
    intro s r h
    rw [parseStringBody_hex, ha, hb, hc, hd, hp] at h
    simp only [Option.some.injEq, Prod.mk.injEq] at h
    have hi := ih s0 r0 hp
    obtain ⟨rfl, rfl⟩ := h
    simp only [List.length_cons]
    omega
  | case5 h1 h2 h3 h4 rest3 hfalse _ _ =>
    intro s r h
    rw [parseStringBody_hex] at h
    split at h
    · rename_i e1 e2 e3 e4 e5
      exact (hfalse _ _ _ _ _ _ e1 e2 e3 e4 e5).elim
    · simp at h
  | case6 rest2 hshort _ =>
    intro s r h
    rw [parseStringBody.eq_def] at h
    simp only [show (92 : Nat) ≠ 34 by decide, if_false, if_true] at h
    cases h
  | case7 e rest2 he u s0 r0 hp hu _ ih =>
    intro s r h
    rw [parseStringBody_escape e rest2 he, hu, hp] at h
    simp only [Option.some.injEq, Prod.mk.injEq] at h
    have hi := ih s0 r0 hp
    obtain ⟨rfl, rfl⟩ := h
    simp only [List.length_cons]
    omega
  | case8 e rest2 he hfalse _ _ =>
    intro s r h
    rw [parseStringBody_escape e rest2 he] at h
    split at h
    · rename_i e1 e2
      exact (hfalse _ _ _ e1 e2).elim
    · simp at h
  | case9 c rest h1 h2 h3 =>
    intro s r h
    rw [parseStringBody.eq_def] at h
    simp [h1, h2, h3] at h
  | case10 c rest h1 h2 h3 s0 r0 hp ih =>
    intro s r h
    rw [parseStringBody_plain c rest h1 h2 h3, hp] at h
    simp only [Option.some.injEq, Prod.mk.injEq] at h
    have hi := ih s0 r0 hp
    obtain ⟨rfl, rfl⟩ := h
    simp only [List.length_cons]
    omega
  | case11 c rest h1 h2 h3 hp _ =>
    intro s r h
    rw [parseStringBody_plain c rest h1 h2 h3, hp] at h
    simp at h

theorem takeDigits_length (s : JSString) :
    ∀ acc v k r, takeDigits acc s = (v, k, r) → r.length + k = s.length := by
  induction s with
  | nil =>
    intro acc v k r h
    simp only [takeDigits, Prod.mk.injEq] at h
    obtain ⟨_, rfl, rfl⟩ := h
    rfl
  | cons c t ih =>
    intro acc v k r h
    rw [takeDigits] at h
    by_cases hd : isDigit c = true
    · rcases hrec : takeDigits (acc * 10 + (c - 48)) t with ⟨v2, k2, r2⟩
      have hi := ih _ _ _ _ hrec
      simp only [hd, if_true, hrec, Prod.mk.injEq] at h
      obtain ⟨_, rfl, rfl⟩ := h
      simp only [List.length_cons]
      omega
    · simp only [hd, if_false, Prod.mk.injEq] at h
      obtain ⟨_, rfl, rfl⟩ := h
      rfl

theorem parseFraction_length (i : Nat) (inp : JSString) (m k : Nat) (r : JSString)
    (h : parseFraction i inp = some (m, k, r)) : r.length ≤ inp.length := by
  unfold parseFraction at h
  cases inp with
  | nil =>
    simp only [Option.some.injEq, Prod.mk.injEq] at h
    obtain ⟨_, _, rfl⟩ := h
    exact le_refl _
  | cons c rest =>
    simp only at h
    by_cases hc : c = 46
    · rcases hrec : takeDigits i rest with ⟨v2, k2, r2⟩
      have hi := takeDigits_length rest _ _ _ _ hrec
      simp only [hc, if_true, hrec] at h
      by_cases hk : k2 = 0
      · simp [hk] at h
      · simp only [hk, if_false, Option.some.injEq, Prod.mk.injEq] at h
        obtain ⟨_, _, rfl⟩ := h
        simp only [List.length_cons]
        omega
    · simp only [hc, if_false, Option.some.injEq, Prod.mk.injEq] at h
      obtain ⟨_, _, rfl⟩ := h
      exact le_refl _

theorem exponentSign_length (inp : JSString) : (exponentSign inp).2.length ≤ inp.length := by
  unfold exponentSign
  split
  · split_ifs <;> simp
  · simp

theorem parseExponent_length (inp : JSString) (e : Int) (r : JSString)
    (h : parseExponent inp = some (e, r)) : r.length ≤ inp.length := by
  unfold parseExponent at h
  cases inp with
  | nil =>
    simp only [Option.some.injEq, Prod.mk.injEq] at h
    obtain ⟨_, rfl⟩ := h
    exact le_refl _
  | cons c rest =>
    by_cases hc : c = 101 ∨ c = 69
    · simp only [hc, if_true] at h
      have hlen := exponentSign_length rest
      rcases hrec : takeDigits 0 (exponentSign rest).2 with ⟨v2, k2, r2⟩
      have hi := takeDigits_length (exponentSign rest).2 _ _ _ _ hrec
      simp only [hrec] at h
      by_cases hk : k2 = 0
      · simp [hk] at h
      · simp only [hk, if_false, Option.some.injEq, Prod.mk.injEq] at h
        obtain ⟨_, rfl⟩ := h
        simp only [List.length_cons]
        omega
    · simp only [hc, if_false, Option.some.injEq, Prod.mk.injEq] at h
      obtain ⟨_, rfl⟩ := h
      exact le_refl _

theorem parseIntPart_length (inp : JSString) (v : Nat) (r : JSString)
    (h : parseIntPart inp = some (v, r)) : r.length + 1 ≤ inp.length := by
  unfold parseIntPart at h
  cases inp with
  | nil => simp at h
  | cons c rest =>
    by_cases hd : isDigit c = true
    · simp only [hd, Bool.not_true, Bool.false_eq_true, if_false] at h
      by_cases h0 : c = 48
      · simp only [h0, if_true, Option.some.injEq, Prod.mk.injEq] at h
        obtain ⟨_, rfl⟩ := h
        simp
      · rcases hrec : takeDigits 0 (c :: rest) with ⟨v2, k2, r2⟩
        have hi := takeDigits_length (c :: rest) _ _ _ _ hrec
        simp only [h0, if_false, hrec, Option.some.injEq, Prod.mk.injEq] at h
        obtain ⟨_, rfl⟩ := h
        rw [takeDigits] at hrec
        simp only [hd, if_true] at hrec
        rcases hrec2 : takeDigits (0 * 10 + (c - 48)) rest with ⟨v3, k3, r3⟩
        have hi2 := takeDigits_length rest _ _ _ _ hrec2
        simp only [hrec2, Prod.mk.injEq] at hrec
        obtain ⟨_, _, rfl⟩ := hrec
        simp only [List.length_cons]
        omega
    · simp [hd] at h

theorem parseUnsigned_length (inp : JSString) (m : Nat) (e : Int) (r : JSString)
    (h : parseUnsigned inp = some (m, e, r)) : r.length + 1 ≤ inp.length := by
  unfold parseUnsigned at h
  rcases h1 : parseIntPart inp with _ | ⟨v1, r1⟩
  · simp [h1] at h
  · have l1 := parseIntPart_length _ _ _ h1
    simp only [h1] at h
    rcases h2 : parseFraction v1 r1 with _ | ⟨m2, k2, r2⟩
    · simp [h2] at h
    · have l2 := parseFraction_length _ _ _ _ _ h2
      simp only [h2] at h
      rcases h3 : parseExponent r2 with _ | ⟨e3, r3⟩
      · simp [h3] at h
      · have l3 := parseExponent_length _ _ _ h3
        simp only [h3, Option.some.injEq, Prod.mk.injEq] at h
        obtain ⟨_, _, rfl⟩ := h
        omega

theorem parseNumber_length (inp : JSString) (x : JSNumber) (r : JSString)
    (h : parseNumber inp = some (x, r)) : r.length + 1 ≤ inp.length := by
  unfold parseNumber at h
  cases inp with
  | nil => simp at h
  | cons s rest =>
    by_cases hs : s = 45
    · simp only [hs, if_true] at h
      rcases h1 : parseUnsigned rest with _ | ⟨m, e, r1⟩
      · simp [h1] at h
      · have l1 := parseUnsigned_length _ _ _ _ h1
        simp only [h1, Option.some.injEq, Prod.mk.injEq] at h
        obtain ⟨_, rfl⟩ := h
        simp only [List.length_cons]
        omega
    · simp only [hs, if_false] at h
      rcases h1 : parseUnsigned (s :: rest) with _ | ⟨m, e, r1⟩
      · simp [h1] at h
      · have l1 := parseUnsigned_length _ _ _ _ h1
        simp only [h1, Option.some.injEq, Prod.mk.injEq] at h
        obtain ⟨_, rfl⟩ := h
        exact l1

theorem parse_weight : ∀ n,
    (∀ inp v rest, parseValue n inp = .done v rest → v.weight + rest.length ≤ inp.length) ∧
    (∀ inp ms rest, parseMembers n inp = .done ms rest →
      weightMembers ms + rest.length + 1 ≤ inp.length) ∧
    (∀ inp vs rest, parseElements n inp = .done vs rest →
      weightItems vs + rest.length + 1 ≤ inp.length) := by
  intro n
  induction n with
  | zero =>
    refine ⟨?_, ?_, ?_⟩ <;> intro inp v rest h
    · rw [parseValue.eq_def] at h; simp at h
    · rw [parseMembers.eq_def] at h; simp at h
    · rw [parseElements.eq_def] at h; simp at h
  | succ n ih =>
    obtain ⟨ihV, ihM, ihE⟩ := ih
    refine ⟨?_, ?_, ?_⟩
    · intro inp v rest h
      rw [parseValue.eq_def] at h
      simp only at h
      rcases hs : skipWS inp with _ | ⟨c, r0⟩
      · simp [hs] at h
      have l0 := skipWS_cons_length hs
      simp only [hs] at h
      by_cases h1 : c = 123
      · simp only [h1, if_true] at h
        rcases hs2 : skipWS r0 with _ | ⟨d, r2⟩
        · simp [hs2] at h
        have l2 := skipWS_cons_length hs2
        simp only [hs2] at h
        by_cases h2 : d = 125
        · simp only [h2, if_true, Parsed.done.injEq] at h
          obtain ⟨rfl, rfl⟩ := h
          simp only [JSValue.weight, weightMembers]
          omega
        · simp only [h2, if_false] at h
          rcases hm : parseMembers n (d :: r2) with ⟨ms, r⟩ | _ | _
          · have := ihM _ _ _ hm
            simp only [hm, Parsed.done.injEq] at h
            obtain ⟨rfl, rfl⟩ := h
            simp only [JSValue.weight, List.length_cons] at *
            omega
          · simp [hm] at h
          · simp [hm] at h
      simp only [h1, if_false] at h
      by_cases h2 : c = 91
      · simp only [h2, if_true] at h
        rcases hs2 : skipWS r0 with _ | ⟨d, r2⟩
        · simp [hs2] at h
        have l2 := skipWS_cons_length hs2
        simp only [hs2] at h
        by_cases h3 : d = 93
        · simp only [h3, if_true, Parsed.done.injEq] at h
          obtain ⟨rfl, rfl⟩ := h
          simp only [JSValue.weight, weightItems]
          omega
        · simp only [h3, if_false] at h
          rcases hm : parseElements n (d :: r2) with ⟨vs, r⟩ | _ | _
          · have := ihE _ _ _ hm
            simp only [hm, Parsed.done.injEq] at h
            obtain ⟨rfl, rfl⟩ := h
            simp only [JSValue.weight, List.length_cons] at *
            omega
          · simp [hm] at h
          · simp [hm] at h
      simp only [h2, if_false] at h
      by_cases h3 : c = 34
      · simp only [h3, if_true] at h
        rcases hp : parseStringBody r0 with _ | ⟨s, r⟩
        · simp [hp] at h
        · have := parseStringBody_length _ _ _ hp
          simp only [hp, Parsed.done.injEq] at h
          obtain ⟨rfl, rfl⟩ := h
          simp only [JSValue.weight]
          omega
      simp only [h3, if_false] at h
      by_cases h4 : c = 45 ∨ isDigit c = true
      · simp only [h4, if_true] at h
        rcases hp : parseNumber (c :: r0) with _ | ⟨x, r⟩
        · simp [hp] at h
        · have := parseNumber_length _ _ _ hp
          simp only [hp, Parsed.done.injEq] at h
          obtain ⟨rfl, rfl⟩ := h
          simp only [JSValue.weight, List.length_cons] at *
          omega
      simp only [h4, if_false] at h
      have d3 : (r0.drop 3).length ≤ r0.length := by simp
      have d4 : (r0.drop 4).length ≤ r0.length := by simp
      split_ifs at h
      all_goals first
        | (simp only [Parsed.done.injEq] at h
           obtain ⟨rfl, rfl⟩ := h
           simp only [JSValue.weight]
           omega)

    · intro inp ms rest h
      rw [parseMembers.eq_def] at h
      simp only at h
      rcases hs : skipWS inp with _ | ⟨c, r0⟩
      · simp [hs] at h
      have l0 := skipWS_cons_length hs
      simp only [hs] at h
      by_cases h1 : c = 34
      · simp only [h1, if_true] at h
        rcases hp : parseStringBody r0 with _ | ⟨k, r1⟩
        · simp [hp] at h
        have lk := parseStringBody_length _ _ _ hp
        simp only [hp] at h
        rcases hs1 : skipWS r1 with _ | ⟨c2, r2⟩
        · simp [hs1] at h
        have l1 := skipWS_cons_length hs1
        simp only [hs1] at h
        by_cases h2 : c2 = 58
        · simp only [h2, if_true] at h
          rcases hv : parseValue n r2 with ⟨v, r3⟩ | _ | _
          · have lv := ihV _ _ _ hv
            simp only [hv] at h
            rcases hs3 : skipWS r3 with _ | ⟨c3, r4⟩
            · simp [hs3] at h
            have l3 := skipWS_cons_length hs3
            simp only [hs3] at h
            by_cases h3 : c3 = 44
            · simp only [h3, if_true] at h
              rcases hm : parseMembers n r4 with ⟨ms2, r5⟩ | _ | _
              · have lm := ihM _ _ _ hm
                simp only [hm, Parsed.done.injEq] at h
                obtain ⟨rfl, rfl⟩ := h
                simp only [weightMembers]
                omega
              · simp [hm] at h
              · simp [hm] at h
            · simp only [h3, if_false] at h
              by_cases h4 : c3 = 125
              · simp only [h4, if_true, Parsed.done.injEq] at h
                obtain ⟨rfl, rfl⟩ := h
                simp only [weightMembers]
                omega
              · simp [h4] at h
          · simp [hv] at h
          · simp [hv] at h
        · simp [h2] at h
      · simp [h1] at h
    · intro inp vs rest h
      rw [parseElements.eq_def] at h
      simp only at h
      rcases hv : parseValue n inp with ⟨v, r1⟩ | _ | _
      · have lv := ihV _ _ _ hv
        simp only [hv] at h
        rcases hs1 : skipWS r1 with _ | ⟨c, r2⟩
        · simp [hs1] at h
        have l1 := skipWS_cons_length hs1
        simp only [hs1] at h
        by_cases h1 : c = 44
        · simp only [h1, if_true] at h
          rcases hm : parseElements n r2 with ⟨vs2, r3⟩ | _ | _
          · have lm := ihE _ _ _ hm
            simp only [hm, Parsed.done.injEq] at h
            obtain ⟨rfl, rfl⟩ := h
            simp only [weightItems]
            omega
          · simp [hm] at h
          · simp [hm] at h
        · simp only [h1, if_false] at h
          by_cases h2 : c = 93
          · simp only [h2, if_true, Parsed.done.injEq] at h
            obtain ⟨rfl, rfl⟩ := h
            simp only [weightItems]
            omega
          · simp [h2] at h
      · simp [hv] at h
      · simp [hv] at h

theorem jsonParse_weight (s : JSString) (v : JSValue) (h : jsonParse s = some v) :
    v.weight ≤ s.length := by
  unfold jsonParse at h
  rcases hp : parseValue (2 * s.length + 2) s with ⟨w, r⟩ | _ | _
  · have := (parse_weight _).1 _ _ _ hp
    simp only [hp] at h
    split_ifs at h
    simp only [Option.some.injEq] at h
    subst h
    omega
  · simp [hp] at h
  · simp [hp] at h

theorem lookupMember_weight (key : JSString) (ms : List (JSString × JSValue)) :
    lookupMember key ms = .undefined ∨ (lookupMember key ms).weight ≤ weightMembers ms := by
  induction ms with
  | nil => exact Or.inl rfl
  | cons m ms ih =>
    obtain ⟨k, v⟩ := m
    rw [lookupMember, weightMembers]
    rcases ih with h | h
    · rw [h]
      simp only
      split_ifs
      · exact Or.inr (by omega)
      · exact Or.inl rfl
    · by_cases hu : lookupMember key ms = .undefined
      · rw [hu]
        simp only
        split_ifs
        · exact Or.inr (by omega)
        · exact Or.inl rfl
      · right
        split
        · rename_i heq; exact absurd heq hu
        · omega

theorem get_string_length (v : JSValue) (key p : JSString) (h : v.get key = .string p) :
    p.length + 2 ≤ v.weight := by
  unfold JSValue.get at h
  cases v with
  | object ms =>
    simp only at h
    rcases lookupMember_weight key ms with hu | hw
    · rw [hu] at h; cases h
    · rw [h] at hw
      simp only [JSValue.weight] at hw ⊢
      omega
  | _ => cases h

theorem unsextets_length (vs : List Nat) : (unsextets vs).length ≤ vs.length := by
  induction vs using unsextets.induct with
  | case1 a b c d rest ih => simp only [unsextets, List.length_cons]; omega
  | case2 a b c => simp [unsextets]
  | case3 a b => simp [unsextets]
  | case4 vs h1 h2 h3 =>
    rw [unsextets.eq_def]
    split
    · exact absurd rfl (h1 _ _ _ _ _)
    · exact absurd rfl (h2 _ _ _)
    · exact absurd rfl (h3 _ _)
    · simp

theorem b64Values_length (s : JSString) : ∀ vs, b64Values s = some vs → vs.length = s.length := by
  induction s with
  | nil => intro vs h; simp only [b64Values, Option.some.injEq] at h; subst h; rfl
  | cons c t ih =>
    intro vs h
    rw [b64Values] at h
    rcases h1 : b64Value c with _ | v
    · simp [h1] at h
    · rcases h2 : b64Values t with _ | vt
      · simp [h1, h2] at h
      · simp only [h1, h2, Option.some.injEq] at h
        subst h
        simp [ih vt h2]

theorem stripPadding_length (s : JSString) : (stripPadding s).length ≤ s.length := by
  unfold stripPadding
  split_ifs
  · have hl : s.reverse.length = s.length := List.length_reverse s
    split
    · rename_i r heq; rw [heq] at hl; simp only [List.length_cons] at hl
      simp only [List.length_reverse]; omega
    · rename_i r _ heq; rw [heq] at hl; simp only [List.length_cons] at hl
      simp only [List.length_reverse]; omega
    · exact le_refl _
  · exact le_refl _

theorem atob_length (s j : JSString) (h : atob s = some j) : j.length ≤ s.length := by
  unfold atob at h
  simp only at h
  split_ifs at h
  rcases hv : b64Values (stripPadding (s.filter fun c => !isAsciiWhitespace c)) with _ | vs
  · simp [hv] at h
  · simp only [hv, Option.map_some', Option.some.injEq] at h
    subst h
    have l1 := unsextets_length vs
    have l2 := b64Values_length _ _ hv
    have l3 := stripPadding_length (s.filter fun c => !isAsciiWhitespace c)
    have l4 := List.length_filter_le (fun c => !isAsciiWhitespace c) s
    omega

theorem stripSMQR_length (s : JSString) : (stripSMQR s).length ≤ s.length := by
  unfold stripSMQR
  split_ifs
  · simp
  · exact le_refl _

/-- Every string member of a record that `parseSMQREnvelope` returns is shorter than the
text it was read from. -/
theorem parseSMQREnvelope_member_length (text : JSString) (env : JSValue) (key p : JSString)
    (h : parseSMQREnvelope text = some env) (hp : env.get key = .string p) :
    p.length + 2 ≤ text.length := by
  unfold parseSMQREnvelope at h
  rcases ha : atob (stripSMQR text) with _ | json
  · simp [ha] at h
  · simp only [ha] at h
    rcases hj : jsonParse json with _ | obj
    · simp [hj] at h
    · simp only [hj] at h
      split_ifs at h
      simp only [Option.some.injEq] at h
      subst h
      have l1 := get_string_length _ _ _ hp
      have l2 := jsonParse_weight _ _ hj
      have l3 := atob_length _ _ ha
      have l4 := stripSMQR_length text
      omega

/-! ## The fuel of `jsonParse` is never used up -/

theorem JSValue.weight_pos (v : JSValue) : 1 ≤ v.weight := by
  cases v <;> simp only [JSValue.weight] <;> omega

theorem parse_fuel : ∀ n,
    (∀ inp, 2 * inp.length + 1 ≤ n → parseValue n inp ≠ .outOfFuel) ∧
    (∀ inp, 2 * inp.length + 2 ≤ n → parseMembers n inp ≠ .outOfFuel) ∧
    (∀ inp, 2 * inp.length + 2 ≤ n → parseElements n inp ≠ .outOfFuel) := by
  intro n
  induction n with
  | zero =>
    refine ⟨?_, ?_, ?_⟩ <;> intro inp h <;> omega
  | succ n ih =>
    obtain ⟨ihV, ihM, ihE⟩ := ih
    refine ⟨?_, ?_, ?_⟩
    · intro inp hn h
      rw [parseValue.eq_def] at h
      simp only at h
      rcases hs : skipWS inp with _ | ⟨c, r0⟩
      · simp [hs] at h
      have l0 := skipWS_cons_length hs
      simp only [hs] at h
      by_cases h1 : c = 123
      · simp only [h1, if_true] at h
        rcases hs2 : skipWS r0 with _ | ⟨d, r2⟩
        · simp [hs2] at h
        have l2 := skipWS_cons_length hs2
        simp only [hs2] at h
        by_cases h2 : d = 125
        · simp [h2] at h
        · simp only [h2, if_false] at h
          rcases hm : parseMembers n (d :: r2) with ⟨ms, r⟩ | _ | _
          · simp [hm] at h
          · simp [hm] at h
          · exact ihM (d :: r2) (by simp only [List.length_cons]; omega) hm
      simp only [h1, if_false] at h
      by_cases h2 : c = 91
      · simp only [h2, if_true] at h
        rcases hs2 : skipWS r0 with _ | ⟨d, r2⟩
        · simp [hs2] at h
        have l2 := skipWS_cons_length hs2
        simp only [hs2] at h
        by_cases h3 : d = 93
        · simp [h3] at h
        · simp only [h3, if_false] at h
          rcases hm : parseElements n (d :: r2) with ⟨vs, r⟩ | _ | _
          · simp [hm] at h
          · simp [hm] at h
          · exact ihE (d :: r2) (by simp only [List.length_cons]; omega) hm
      simp only [h2, if_false] at h
      by_cases h3 : c = 34
      · simp only [h3, if_true] at h
        rcases hp : parseStringBody r0 with _ | ⟨s, r⟩
        · simp [hp] at h
        · simp [hp] at h
      simp only [h3, if_false] at h
      by_cases h4 : c = 45 ∨ isDigit c = true
      · simp only [h4, if_true] at h
        rcases hp : parseNumber (c :: r0) with _ | ⟨x, r⟩
        · simp [hp] at h
        · simp [hp] at h
      simp only [h4, if_false] at h
      split_ifs at h
    · intro inp hn h
      rw [parseMembers.eq_def] at h
      simp only at h
      rcases hs : skipWS inp with _ | ⟨c, r0⟩
      · simp [hs] at h
      have l0 := skipWS_cons_length hs
      simp only [hs] at h
      by_cases h1 : c = 34
      · simp only [h1, if_true] at h
        rcases hp : parseStringBody r0 with _ | ⟨k, r1⟩
        · simp [hp] at h
        have lk := parseStringBody_length _ _ _ hp
        simp only [hp] at h
        rcases hs1 : skipWS r1 with _ | ⟨c2, r2⟩
        · simp [hs1] at h
        have l1 := skipWS_cons_length hs1
        simp only [hs1] at h
        by_cases h2 : c2 = 58
        · simp only [h2, if_true] at h
          rcases hv : parseValue n r2 with ⟨v, r3⟩ | _ | _
          · have lv := (parse_weight n).1 _ _ _ hv
            have lw := v.weight_pos
            simp only [hv] at h
            rcases hs3 : skipWS r3 with _ | ⟨c3, r4⟩
            · simp [hs3] at h
            have l3 := skipWS_cons_length hs3
            simp only [hs3] at h
            by_cases h3 : c3 = 44
            · simp only [h3, if_true] at h
              rcases hm : parseMembers n r4 with ⟨ms2, r5⟩ | _ | _
              · simp [hm] at h
              · simp [hm] at h
              · exact ihM r4 (by omega) hm
            · simp only [h3, if_false] at h
              split_ifs at h
          · simp [hv] at h
          · exact ihV r2 (by omega) hv
        · simp [h2] at h
      · simp [h1] at h
    · intro inp hn h
      rw [parseElements.eq_def] at h
      simp only at h
      rcases hv : parseValue n inp with ⟨v, r1⟩ | _ | _
      · have lv := (parse_weight n).1 _ _ _ hv
        have lw := v.weight_pos
        simp only [hv] at h
        rcases hs1 : skipWS r1 with _ | ⟨c, r2⟩
        · simp [hs1] at h
        have l1 := skipWS_cons_length hs1
        simp only [hs1] at h
        by_cases h1 : c = 44
        · simp only [h1, if_true] at h
          rcases hm : parseElements n r2 with ⟨vs2, r3⟩ | _ | _
          · simp [hm] at h
          · simp [hm] at h
          · exact ihE r2 (by omega) hm
        · simp only [h1, if_false] at h
          split_ifs at h
      · simp [hv] at h
      · exact ihV inp (by omega) hv

/-- The model of `JSON.parse` never fails for want of fuel: `none` is a syntax error. -/
theorem jsonParse_fuel (s : JSString) : parseValue (2 * s.length + 2) s ≠ .outOfFuel :=
  (parse_fuel _).1 s (by omega)

/-! ## The recursion of `decodeQRData` ends within its bound -/

theorem decodeEnvelope_mono (P : Platform) (now : Int) (f g : JSValue → Option Outcome)
    (hfg : ∀ v r, f v = some r → g v = some r) (s : JSString) (r : Outcome)
    (h : decodeEnvelope P now f s = some r) : decodeEnvelope P now g s = some r := by
  unfold decodeEnvelope at h ⊢
  split
  · rename_i hp; simpa [hp] using h
  · rename_i env hp
    simp only [hp] at h
    split_ifs at h ⊢
    · exact h
    · exact h
    · rcases hf : f (env.get (utf16 "payload")) with _ | r0
      · simp [hf] at h
      · rw [hf] at h
        rw [hfg _ _ hf]
        exact h

theorem decodeQRDataFuel_string (P : Platform) (now : Int) (n : Nat) (s : JSString) :
    decodeQRDataFuel P now (n + 1) (.string s)
      = if s = [] then some (.ok none)
        else if startsWith s (utf16 "SMQR:") = true then
          decodeEnvelope P now (decodeQRDataFuel P now n) s
        else some (.ok (some (decodePlain P s))) := by
  cases s with
  | nil => rfl
  | cons c t => simp [decodeQRDataFuel, JSValue.truthy, strTruthy]

theorem decodeQRDataFuel_other (P : Platform) (now : Int) (n : Nat) (v : JSValue)
    (h : ∀ s, v ≠ .string s) :
    decodeQRDataFuel P now (n + 1) v
      = if v.truthy = true then some (.error .typeError) else some (.ok none) := by
  cases v with
  | string s => exact absurd rfl (h s)
  | _ => simp [decodeQRDataFuel, JSValue.truthy] <;> split_ifs <;> simp_all

theorem decodeQRDataFuel_mono (P : Platform) (now : Int) :
    ∀ n m v r, decodeQRDataFuel P now n v = some r → n ≤ m →
      decodeQRDataFuel P now m v = some r := by
  intro n
  induction n with
  | zero => intro m v r h; simp [decodeQRDataFuel] at h
  | succ n ih =>
    intro m v r h hle
    obtain ⟨m, rfl⟩ : ∃ k, m = k + 1 := ⟨m - 1, by omega⟩
    by_cases hv : ∃ s, v = .string s
    · obtain ⟨s, rfl⟩ := hv
      rw [decodeQRDataFuel_string] at h ⊢
      split_ifs at h ⊢
      · exact h
      · exact decodeEnvelope_mono P now _ _ (fun v r hv => ih m v r hv (by omega)) s r h
      · exact h
    · have hv2 : ∀ s, v ≠ .string s := fun s hs => hv ⟨s, hs⟩
      rw [decodeQRDataFuel_other P now _ v hv2] at h ⊢
      exact h

theorem decodeQRDataFuel_adequate (P : Platform) (now : Int) :
    ∀ n v, depthBound v ≤ n → ∃ r, decodeQRDataFuel P now n v = some r := by
  intro n
  induction n with
  | zero =>
    intro v h
    cases v <;> simp [depthBound] at h
  | succ n ih =>
    intro v h
    by_cases hv : ∃ s, v = .string s
    · obtain ⟨s, rfl⟩ := hv
      rw [decodeQRDataFuel_string]
      split_ifs with h0 hs
      · exact ⟨_, rfl⟩
      · unfold decodeEnvelope
        rcases hp : parseSMQREnvelope s with _ | env
        · exact ⟨_, rfl⟩
        · simp only
          split_ifs
          · exact ⟨_, rfl⟩
          · split
            · exact ⟨_, rfl⟩
            · exact ⟨_, rfl⟩
          · have hb : depthBound (env.get (utf16 "payload")) ≤ n := by
              simp only [depthBound] at h
              have hpos : 1 ≤ s.length := by
                cases s with
                | nil => exact absurd rfl h0
                | cons c t => simp
              rcases hv : env.get (utf16 "payload") with _ | _ | _ | _ | p | _ | _
              all_goals simp only [depthBound]
              all_goals try omega
              have hlen := parseSMQREnvelope_member_length s env _ p hp hv
              omega
            obtain ⟨r, hr⟩ := ih _ hb
            exact ⟨_, by rw [hr]; rfl⟩
      · exact ⟨_, rfl⟩
    · have hv2 : ∀ s, v ≠ .string s := fun s hs => hv ⟨s, hs⟩
      rw [decodeQRDataFuel_other P now _ v hv2]
      split_ifs <;> exact ⟨_, rfl⟩

/-- With fuel up to its bound, the fuelled function is `decodeQRData`. -/
theorem decodeQRDataFuel_eq (P : Platform) (now : Int) (n : Nat) (v : JSValue)
    (h : depthBound v ≤ n) : decodeQRDataFuel P now n v = some (decodeQRData P now v) := by
  obtain ⟨r, hr⟩ := decodeQRDataFuel_adequate P now (depthBound v) v (le_refl _)
  rw [decodeQRDataFuel_mono P now _ n v r hr h]
  simp [decodeQRData, hr]

/-! ## C9: an envelope that is open -/

/-- The envelope branch on an envelope that is neither expired nor protected. -/
theorem decodeQRData_open (P : Platform) (now : Int) (text : JSString) (env : JSValue)
    (h : startsWith text (utf16 "SMQR:") = true) (hparse : parseSMQREnvelope text = some env)
    (hexp : isExpired P now (env.get (utf16 "expiryDate")) = false)
    (hpw : (env.get (utf16 "password")).truthy = false) :
    decodeQRData P now (.string text)
      = attachEnvelope env (decodeQRData P now (env.get (utf16 "payload"))) := by
  have hb : depthBound (env.get (utf16 "payload")) ≤ text.length := by
    have hne := ne_nil_of_startsWith h
    have hpos : 1 ≤ text.length := by
      cases text with
      | nil => exact absurd rfl hne
      | cons c t => simp
    rcases hv : env.get (utf16 "payload") with _ | _ | _ | _ | p | _ | _
    all_goals simp only [depthBound]
    all_goals try omega
    have hlen := parseSMQREnvelope_member_length text env _ p hparse hv
    omega
  rw [decodeQRData_envelope P now text h]
  simp [decodeEnvelope, hparse, hexp, hpw, decodeQRDataFuel_eq P now _ _ hb]

/-- C9: for a text that begins with `SMQR:` and unwraps to an envelope that is not expired
and has no password, `decodeQRData` of the text is `decodeQRData` of the payload with the
envelope attached: the same result with the `envelope` field set and every other field as
it was (and `null` or an exception as they were). -/
theorem decodeQRData_unwraps (P : Platform) (now : Int) (text : JSString) (env : JSValue)
    (h : startsWith text (utf16 "SMQR:") = true) (hparse : parseSMQREnvelope text = some env)
    (hexp : isExpired P now (env.get (utf16 "expiryDate")) = false)
    (hpw : (env.get (utf16 "password")).truthy = false) :
    decodeQRData P now (.string text)
        = attachEnvelope env (decodeQRData P now (env.get (utf16 "payload"))) ∧
    (∀ inner, decodeQRData P now (env.get (utf16 "payload")) = .ok (some inner) →
      decodeQRData P now (.string text) = .ok (some { inner with envelope := some env })) := by
  have main := decodeQRData_open P now text env h hparse hexp hpw
  refine ⟨main, ?_⟩
  intro inner hinner
  rw [main, hinner]
  rfl

set_option maxRecDepth 100000 in
/-- C9 on an example: the envelope of the URL `https://a.example` with an expiry date one
day after the scan and no password is classified as that URL, with the envelope attached. -/
theorem decodeQRData_unwraps_witness :
    decodeQRData asciiHost 1700000000000 (.string (utf16
      "SMQR:eyJzbXFyIjp0cnVlLCJwYXlsb2FkVHlwZSI6InVybCIsInBheWxvYWQiOiJodHRwczovL2EuZXhhbXBsZSIsImV4cGlyeURhdGUiOiIyMDIzLTExLTE1VDIyOjEzOjIwLjAwMFoiLCJwYXNzd29yZCI6bnVsbCwiY3JlYXRlZEF0IjoiMjAyMy0xMS0xM1QxODoyNjo0MC4wMDBaIn0="))
      = .ok (some
          { type := utf16 "url"
            content := utf16 "https://a.example"
            action := utf16 "Open URL"
            url := some (utf16 "https://a.example")
            envelope := some (envelopeRecord 1699900000000
              ⟨utf16 "url", utf16 "https://a.example",
                some (utf16 "2023-11-15T22:13:20.000Z"), none⟩) }) :=
  (decodeQRData_unwraps asciiHost 1700000000000 (utf16
      "SMQR:eyJzbXFyIjp0cnVlLCJwYXlsb2FkVHlwZSI6InVybCIsInBheWxvYWQiOiJodHRwczovL2EuZXhhbXBsZSIsImV4cGlyeURhdGUiOiIyMDIzLTExLTE1VDIyOjEzOjIwLjAwMFoiLCJwYXNzd29yZCI6bnVsbCwiY3JlYXRlZEF0IjoiMjAyMy0xMS0xM1QxODoyNjo0MC4wMDBaIn0=")
    (envelopeRecord 1699900000000
      ⟨utf16 "url", utf16 "https://a.example", some (utf16 "2023-11-15T22:13:20.000Z"), none⟩)
    (by decide) rfl rfl rfl).2 _ rfl

/-! ## C5: what `decodeQRData` returns -/

theorem decodeWhatsApp_type (P : Platform) (s : JSString) :
    (decodeWhatsApp P s).type = utf16 "whatsapp" := by
  unfold decodeWhatsApp
  simp only
  split
  · rfl
  · split <;> rfl

theorem decodePayment_type (P : Platform) (s : JSString) :
    (decodePayment P s).type = utf16 "payment" := by
  unfold decodePayment
  simp only
  split <;> rfl

theorem decodeURL_type (P : Platform) (s : JSString) (u : URLRecord) :
    (decodeURL P s u).type = utf16 "youtube" ∨ (decodeURL P s u).type = utf16 "portfolio" ∨
      (decodeURL P s u).type = utf16 "social" ∨ (decodeURL P s u).type = utf16 "url" := by
  have hplain : ∀ o : Option (JSString × JSString),
      (match o with
        | some social =>
          ({ type := utf16 "social"
             content := s
             action := utf16 "Open Social"
             platform := some social.2
             url := some s } : DecodedResult)
        | none =>
          { type := utf16 "url"
            content := s
            action := utf16 "Open URL"
            url := some s }).type = utf16 "social" ∨
      (match o with
        | some social =>
          ({ type := utf16 "social"
             content := s
             action := utf16 "Open Social"
             platform := some social.2
             url := some s } : DecodedResult)
        | none =>
          { type := utf16 "url"
            content := s
            action := utf16 "Open URL"
            url := some s }).type = utf16 "url" := by
    intro o
    cases o with
    | none => exact Or.inr rfl
    | some x => exact Or.inl rfl
  unfold decodeURL
  simp only
  split_ifs
  · split
    · exact Or.inl rfl
    · exact Or.inr (Or.inl rfl)
  · split
    · exact Or.inl rfl
    · exact Or.inr (Or.inr (hplain _))
  · exact Or.inr (Or.inl rfl)
  · exact Or.inr (Or.inr (hplain _))

theorem decodeWifi_type (s : JSString) : (decodeWifi s).type = utf16 "wifi" := rfl

theorem decodeVCard_type (s : JSString) : (decodeVCard s).type = utf16 "vcard" := rfl

/-- The tag of a plain classification is one of the twelve categories. -/
theorem decodePlain_type (P : Platform) (s : JSString) :
    (decodePlain P s).type ∈ [utf16 "wifi", utf16 "vcard", utf16 "whatsapp", utf16 "payment",
      utf16 "maps", utf16 "youtube", utf16 "portfolio", utf16 "social", utf16 "url",
      utf16 "email", utf16 "phone", utf16 "text"] := by
  unfold decodePlain
  split_ifs
  · rw [decodeWifi_type]; decide
  · rw [decodeVCard_type]; decide
  · rw [decodeWhatsApp_type]; decide
  · rw [decodePayment_type]; decide
  · show utf16 "maps" ∈ _; decide
  · split
    · rcases decodeURL_type P s ‹_› with h | h | h | h <;> rw [h] <;> decide
    · show utf16 "email" ∈ _; decide
  · split
    · rcases decodeURL_type P s ‹_› with h | h | h | h <;> rw [h] <;> decide
    · show utf16 "phone" ∈ _; decide
  · split
    · rcases decodeURL_type P s ‹_› with h | h | h | h <;> rw [h] <;> decide
    · show utf16 "text" ∈ _; decide

theorem decodeQRData_falsy (P : Platform) (now : Int) (v : JSValue) (h : v.truthy = false) :
    decodeQRData P now v = .ok none := by
  cases v <;> simp [decodeQRData, depthBound, decodeQRDataFuel, h]

set_option maxRecDepth 100000 in
/-- C5 (counterexample): `decodeQRData` returns `null`, not a result, for the empty string
and for the envelope `SMQR:eyJzbXFyIjp0cnVlfQ==` (the marked record without a payload); for
the envelope `SMQR:eyJzbXFyIjp0cnVlLCJwYXlsb2FkIjo1fQ==`, whose payload is the number 5,
it throws `TypeError`. -/
theorem decodeQRData_without_result :
    decodeQRData asciiHost 0 (.string []) = .ok none ∧
    decodeQRData asciiHost 0 (.string (utf16 "SMQR:eyJzbXFyIjp0cnVlfQ==")) = .ok none ∧
    decodeQRData asciiHost 0 (.string (utf16 "SMQR:eyJzbXFyIjp0cnVlLCJwYXlsb2FkIjo1fQ=="))
      = .error .typeError :=
  ⟨rfl, rfl, rfl⟩

/-- C5 (amended): for every non-empty text that does not begin with `SMQR:`, `decodeQRData`
does not throw and returns a result whose type is one of the twelve categories; for the
empty string, and for a text that begins with `SMQR:` and unwraps to an envelope that is
neither expired nor protected and whose payload is missing or falsy, it returns `null`. -/
theorem decodeQRData_returns (P : Platform) (now : Int) (text : JSString) :
    (text = [] → decodeQRData P now (.string text) = .ok none) ∧
    (text ≠ [] → startsWith text (utf16 "SMQR:") = false →
      ∃ r, decodeQRData P now (.string text) = .ok (some r) ∧
        r.type ∈ [utf16 "wifi", utf16 "vcard", utf16 "whatsapp", utf16 "payment",
          utf16 "maps", utf16 "youtube", utf16 "portfolio", utf16 "social", utf16 "url",
          utf16 "email", utf16 "phone", utf16 "text"]) ∧
    (∀ env, startsWith text (utf16 "SMQR:") = true → parseSMQREnvelope text = some env →
      isExpired P now (env.get (utf16 "expiryDate")) = false →
      (env.get (utf16 "password")).truthy = false →
      (env.get (utf16 "payload")).truthy = false →
      decodeQRData P now (.string text) = .ok none) := by
  refine ⟨?_, ?_, ?_⟩
  · rintro rfl
    rfl
  · intro hne hs
    exact ⟨decodePlain P text, decodeQRData_plain P now text hne hs, decodePlain_type P text⟩
  · intro env hs hparse hexp hpw hpay
    rw [decodeQRData_open P now text env hs hparse hexp hpw, decodeQRData_falsy P now _ hpay]
    rfl

set_option maxRecDepth 100000 in
/-- C5 (amended) on the three kinds of text: the empty string, the example
`not a known format xyz` of the specification, and a marked record without a payload. -/
theorem decodeQRData_returns_witness :
    decodeQRData asciiHost 0 (.string []) = .ok none ∧
    (∃ r, decodeQRData asciiHost 0 (.string (utf16 "not a known format xyz")) = .ok (some r) ∧
      r.type ∈ [utf16 "wifi", utf16 "vcard", utf16 "whatsapp", utf16 "payment",
        utf16 "maps", utf16 "youtube", utf16 "portfolio", utf16 "social", utf16 "url",
        utf16 "email", utf16 "phone", utf16 "text"]) ∧
    decodeQRData asciiHost 0 (.string (utf16 "SMQR:eyJzbXFyIjp0cnVlfQ==")) = .ok none :=
  ⟨(decodeQRData_returns asciiHost 0 []).1 rfl,
    (decodeQRData_returns asciiHost 0 (utf16 "not a known format xyz")).2.1 (by decide)
      (by decide),
    (decodeQRData_returns asciiHost 0 (utf16 "SMQR:eyJzbXFyIjp0cnVlfQ==")).2.2
      (.object [(utf16 "smqr", .bool true)]) (by decide) rfl rfl rfl rfl⟩

/-! ## C11: the expiry test -/

/-- C11: at the instant `now`, `isExpired` is false on an absent (`undefined`, `null`) or
empty expiry date and on a value that `new Date` does not read as an instant; on any other
value, read as the instant `expiry`, it is true exactly when `expiry < now`, hence false
at the instant `expiry` itself. -/
theorem isExpired_spec (P : Platform) (now : Int) (v : JSValue) :
    isExpired P now .undefined = false ∧ isExpired P now .null = false
      ∧ isExpired P now (.string []) = false
      ∧ (P.dateValue v = none → isExpired P now v = false)
      ∧ (∀ expiry, v.truthy = true → P.dateValue v = some expiry →
          (isExpired P now v = true ↔ expiry < now) ∧ isExpired P expiry v = false) := by
  refine ⟨rfl, rfl, rfl, ?_, ?_⟩
  · intro h
    unfold isExpired
    rw [h]
    split <;> rfl
  · intro expiry ht hd
    unfold isExpired
    rw [hd, ht]
    simp

/-- C11 on the sample host: a date is expired one millisecond after its instant and not
at the instant itself. -/
theorem isExpired_spec_witness :
    (isExpired asciiHost 1704067200001 (.string (utf16 "2024-01-01T00:00:00.000Z")) = true
        ↔ (1704067200000 : Int) < 1704067200001)
      ∧ isExpired asciiHost 1704067200000 (.string (utf16 "2024-01-01T00:00:00.000Z")) = false :=
  (isExpired_spec asciiHost 1704067200001 (.string (utf16 "2024-01-01T00:00:00.000Z"))).2.2.2.2
    1704067200000 (by decide) (by decide)

/-! ## Prefixes and occurrences -/

theorem startsWith_spec (s p : JSString) : startsWith s p = true ↔ p <+: s := by
  induction p generalizing s with
  | nil => simp [startsWith]
  | cons d p ih =>
    cases s with
    | nil => simp [startsWith]
    | cons c s =>
      rw [startsWith, List.cons_prefix_cons, Bool.and_eq_true, ih, beq_iff_eq]
      constructor <;> rintro ⟨h1, h2⟩ <;> exact ⟨h1.symm, h2⟩

theorem startsWith_append_self (p t : JSString) : startsWith (p ++ t) p = true :=
  (startsWith_spec _ _).2 (List.prefix_append p t)

theorem includes_spec (s p : JSString) : includes s p = true ↔ p <:+: s := by
  induction s with
  | nil => simp [includes]
  | cons c s ih =>
    rw [includes, Bool.or_eq_true, ih, startsWith_spec, List.infix_cons_iff]

theorem includes_of_eq {p s : JSString} (a b : JSString) (h : s = a ++ p ++ b) :
    includes s p = true :=
  (includes_spec _ _).2 ⟨a, b, h.symm⟩

theorem startsWith_append_of_differ (a b t : JSString)
    (h : (List.zipWith (fun x y => x == y) a b).all (fun x => x) = false) :
    startsWith (a ++ t) b = false := by
  induction a generalizing b with
  | nil => simp at h
  | cons c a ih =>
    cases b with
    | nil => simp at h
    | cons d b =>
      rw [List.zipWith_cons_cons, List.all_cons, Bool.and_eq_false_iff] at h
      rw [List.cons_append, startsWith, Bool.and_eq_false_iff]
      rcases h with h | h
      · exact Or.inl h
      · exact Or.inr (ih b h)

/-- A text that lacks one code unit of a pattern does not hold the pattern. -/
theorem includes_of_not_mem (s p : JSString) (c : Nat) (hp : c ∈ p) (hs : c ∉ s) :
    includes s p = false := by
  cases h : includes s p with
  | false => rfl
  | true => exact absurd (((includes_spec s p).1 h).subset hp) hs

/-! ## Fields that a branch leaves out -/

theorem decodeWhatsApp_email (P : Platform) (s : JSString) : (decodeWhatsApp P s).email = none := by
  unfold decodeWhatsApp
  simp only
  split
  · rfl
  · split <;> rfl

theorem decodePayment_fields (P : Platform) (s : JSString) :
    (decodePayment P s).email = none ∧ (decodePayment P s).phone = none := by
  unfold decodePayment
  simp only
  split <;> exact ⟨rfl, rfl⟩

theorem decodeURL_fields (P : Platform) (s : JSString) (u : URLRecord) :
    (decodeURL P s u).email = none ∧ (decodeURL P s u).phone = none := by
  have hplain : ∀ o : Option (JSString × JSString),
      (match o with
        | some social =>
          ({ type := utf16 "social"
             content := s
             action := utf16 "Open Social"
             platform := some social.2
             url := some s } : DecodedResult)
        | none =>
          { type := utf16 "url"
            content := s
            action := utf16 "Open URL"
            url := some s }).email = none ∧
      (match o with
        | some social =>
          ({ type := utf16 "social"
             content := s
             action := utf16 "Open Social"
             platform := some social.2
             url := some s } : DecodedResult)
        | none =>
          { type := utf16 "url"
            content := s
            action := utf16 "Open URL"
            url := some s }).phone = none := by
    intro o
    cases o <;> exact ⟨rfl, rfl⟩
  unfold decodeURL
  simp only
  split_ifs
  · split
    · exact ⟨rfl, rfl⟩
    · exact ⟨rfl, rfl⟩
  · split
    · exact ⟨rfl, rfl⟩
    · exact hplain _
  · exact ⟨rfl, rfl⟩
  · exact hplain _

theorem decodeURL_type_ne (P : Platform) (s : JSString) (u : URLRecord) :
    (decodeURL P s u).type ≠ utf16 "email" ∧ (decodeURL P s u).type ≠ utf16 "phone" := by
  rcases decodeURL_type P s u with h | h | h | h <;> rw [h] <;> constructor <;> decide

/-! ## C12: the text of an e-mail address -/

/-- C12 (the code): whenever `new URL` accepts the text `mailto:` + address, as every
browser does for this scheme, `decodeQRData` answers from the generic URL branch or from a
branch before it, so the result is never of type `email` and has no `email` field. -/
theorem decodeQRData_mailto (P : Platform) (now : Int) (addr : JSString) (u : URLRecord)
    (hu : P.parseURL (utf16 "mailto:" ++ addr) = some u) :
    ∃ r, decodeQRData P now (.string (utf16 "mailto:" ++ addr)) = .ok (some r)
      ∧ r.type ≠ utf16 "email" ∧ r.email = none := by
  refine ⟨decodePlain P (utf16 "mailto:" ++ addr),
    decodeQRData_plain P now _ (by simp +decide [utf16])
      (startsWith_append_of_differ _ _ _ (by decide)), ?_⟩
  have hv : startsWith (utf16 "mailto:" ++ addr) (utf16 "BEGIN:VCARD") = false :=
    startsWith_append_of_differ _ _ _ (by decide)
  unfold decodePlain
  rw [hu, hv]
  simp only [Bool.false_eq_true, if_false]
  split_ifs
  · exact ⟨by rw [decodeWifi_type]; decide, rfl⟩
  · exact ⟨by rw [decodeWhatsApp_type]; decide, decodeWhatsApp_email P _⟩
  · exact ⟨by rw [decodePayment_type]; decide, (decodePayment_fields P _).1⟩
  · exact ⟨by show utf16 "maps" ≠ _; decide, rfl⟩
  · exact ⟨(decodeURL_type_ne P _ u).1, (decodeURL_fields P _ u).1⟩

set_option maxRecDepth 100000 in
/-- C12 on the sample host: the text `mailto:a@b.com` comes back as a plain URL, of type
`url`, without an `email` field. -/
theorem decodeQRData_mailto_witness :
    ∃ r, decodeQRData asciiHost 0 (.string (utf16 "mailto:" ++ utf16 "a@b.com")) = .ok (some r)
      ∧ r.type = utf16 "url" ∧ r.action = utf16 "Open URL"
      ∧ r.url = some (utf16 "mailto:a@b.com") ∧ r.email = none := by
  obtain ⟨r, h, -, he⟩ :=
    decodeQRData_mailto asciiHost 0 (utf16 "a@b.com") ⟨[], utf16 "a@b.com", []⟩ (by decide)
  have h0 : decodeQRData asciiHost 0 (.string (utf16 "mailto:" ++ utf16 "a@b.com"))
      = .ok (some
          { type := utf16 "url"
            content := utf16 "mailto:a@b.com"
            action := utf16 "Open URL"
            url := some (utf16 "mailto:a@b.com") }) := rfl
  rw [h0] at h
  cases h
  exact ⟨_, h0, rfl, rfl, rfl, rfl⟩

/-! ## C13: the text of a phone number -/

/-- The result of `normalizePhone` is empty or holds the digits of the argument
behind at most one `+`. -/
theorem normalizePhone_units (p n : JSString) (h : normalizePhone (some p) = some n) :
    (n = [] ∨ n = p.filter isDigit ∨ n = utf16 "+" ++ p.filter isDigit)
      ∧ ∀ c ∈ n, c = 43 ∨ isDigit c = true := by
  unfold normalizePhone at h
  simp only at h
  have hd : ∀ c ∈ p.filter isDigit, c = 43 ∨ isDigit c = true :=
    fun c hc => Or.inr (List.mem_filter.1 hc).2
  split_ifs at h with h1 h2
  · cases h
    have : p = [] := by
      cases p with
      | nil => rfl
      | cons c t => simp [strTruthy] at h1
    subst this
    exact ⟨Or.inl rfl, by simp⟩
  · cases h
    refine ⟨Or.inr (Or.inr rfl), fun c hc => ?_⟩
    rcases List.mem_append.1 hc with hc | hc
    · left
      simpa [utf16, utf16Char] using hc
    · exact hd c hc
  · cases h
    exact ⟨Or.inr (Or.inl (by simp)), fun c hc => hd c (by simpa using hc)⟩

/-- C13 (the code): whenever `new URL` accepts the text `tel:` + `normalizePhone(p)`, as
every browser does for this scheme, `decodeQRData` answers from the generic URL branch or
from a branch before it, so the result is never of type `phone` and has no `phone`
field. -/
theorem decodeQRData_tel (P : Platform) (now : Int) (p n : JSString) (u : URLRecord)
    (hn : normalizePhone (some p) = some n)
    (hu : P.parseURL (utf16 "tel:" ++ n) = some u) :
    ∃ r, decodeQRData P now (.string (utf16 "tel:" ++ n)) = .ok (some r)
      ∧ r.type ≠ utf16 "phone" ∧ r.phone = none := by
  refine ⟨decodePlain P (utf16 "tel:" ++ n),
    decodeQRData_plain P now _ (by simp +decide [utf16])
      (startsWith_append_of_differ _ _ _ (by decide)), ?_⟩
  have hunits := (normalizePhone_units p n hn).2
  have hw : (119 : Nat) ∉ utf16 "tel:" ++ n := by
    intro hc
    rcases List.mem_append.1 hc with hc | hc
    · revert hc; decide
    · rcases hunits _ hc with h | h
      · exact absurd h (by decide)
      · revert h; decide
  have hv : startsWith (utf16 "tel:" ++ n) (utf16 "BEGIN:VCARD") = false :=
    startsWith_append_of_differ _ _ _ (by decide)
  have h1 : includes (utf16 "tel:" ++ n) (utf16 "whatsapp") = false :=
    includes_of_not_mem _ _ 119 (by decide) hw
  have h2 : includes (utf16 "tel:" ++ n) (utf16 "wa.me") = false :=
    includes_of_not_mem _ _ 119 (by decide) hw
  have h3 : startsWith (utf16 "tel:" ++ n) (utf16 "https://api.whatsapp.com") = false :=
    startsWith_append_of_differ _ _ _ (by decide)
  unfold decodePlain
  rw [hu, hv, h1, h2, h3]
  simp only [Bool.false_eq_true, if_false, Bool.or_false]
  split_ifs
  · exact ⟨by rw [decodeWifi_type]; decide, rfl⟩
  · exact ⟨by rw [decodePayment_type]; decide, (decodePayment_fields P _).2⟩
  · exact ⟨by show utf16 "maps" ≠ _; decide, rfl⟩
  · exact ⟨(decodeURL_type_ne P _ u).2, (decodeURL_fields P _ u).2⟩

set_option maxRecDepth 100000 in
/-- C13 on the sample host: the number `+1 (555) 010-9999` is written `tel:+15550109999`,
which comes back as a plain URL, of type `url`, without a `phone` field. -/
theorem decodeQRData_tel_witness :
    normalizePhone (some (utf16 "+1 (555) 010-9999")) = some (utf16 "+15550109999")
      ∧ ∃ r, decodeQRData asciiHost 0 (.string (utf16 "tel:" ++ utf16 "+15550109999"))
          = .ok (some r)
        ∧ r.type = utf16 "url" ∧ r.action = utf16 "Open URL"
        ∧ r.url = some (utf16 "tel:+15550109999") ∧ r.phone = none := by
  obtain ⟨r, h, -, he⟩ :=
    decodeQRData_tel asciiHost 0 (utf16 "+1 (555) 010-9999") (utf16 "+15550109999")
      ⟨[], utf16 "+15550109999", []⟩ (by decide) (by decide)
  have h0 : decodeQRData asciiHost 0 (.string (utf16 "tel:" ++ utf16 "+15550109999"))
      = .ok (some
          { type := utf16 "url"
            content := utf16 "tel:+15550109999"
            action := utf16 "Open URL"
            url := some (utf16 "tel:+15550109999") }) := rfl
  rw [h0] at h
  cases h
  exact ⟨by decide, _, h0, rfl, rfl, rfl, rfl⟩

/-! ## C18: the five URL forms of a video -/

theorem youtubeForms_eq : youtubeForms =
    [[121, 111, 117, 116, 117, 98, 101, 46, 99, 111, 109, 47, 119, 97, 116, 99, 104, 63, 118, 61],
      [121, 111, 117, 116, 117, 46, 98, 101, 47],
      [121, 111, 117, 116, 117, 98, 101, 46, 99, 111, 109, 47, 101, 109, 98, 101, 100, 47],
      [121, 111, 117, 116, 117, 98, 101, 46, 99, 111, 109, 47, 118, 47],
      [121, 111, 117, 116, 117, 98, 101, 46, 99, 111, 109, 47, 115, 104, 111, 114, 116, 115, 47]] := by
  decide

theorem matchIdAfter_self (lit id rest : JSString) (hlen : id.length = 11)
    (hid : id.all isIdChar = true) : matchIdAfter lit (lit ++ (id ++ rest)) = some id := by
  have htake : ((lit ++ (id ++ rest)).drop lit.length).take 11 = id := by
    rw [List.drop_left, ← hlen, List.take_left]
  unfold matchIdAfter
  rw [startsWith_append_self]
  simp only [htake, hlen, hid, and_self, if_true]

theorem matchIdAfter_none (lit s : JSString) (h : startsWith s lit = false) :
    matchIdAfter lit s = none := by
  unfold matchIdAfter
  rw [h]
  rfl

theorem matchFormsAt_other (c : Nat) (rest : JSString) (h : c ≠ 121) :
    matchFormsAt (c :: rest) = none := by
  simp [matchFormsAt, youtubeForms_eq, matchIdAfter, startsWith, h]

theorem searchForms_skip (pre s : JSString) (h : ∀ c ∈ pre, c ≠ 121) :
    searchForms (pre ++ s) = searchForms s := by
  induction pre with
  | nil => rfl
  | cons c pre ih =>
    rw [List.cons_append, searchForms, matchFormsAt_other c _ (h c (by simp))]
    exact ih fun d hd => h d (by simp [hd])

/-- Each alternative of the first pattern, followed by an id, matches with that id. -/
theorem matchFormsAt_form (lit id rest : JSString) (hlit : lit ∈ youtubeForms)
    (hlen : id.length = 11) (hid : id.all isIdChar = true) :
    matchFormsAt (lit ++ (id ++ rest)) = some id := by
  have hself := matchIdAfter_self lit id rest hlen hid
  have hno : ∀ a b : JSString, (List.zipWith (fun x y => x == y) a b).all (fun x => x) = false →
      matchIdAfter b (a ++ (id ++ rest)) = none :=
    fun a b h => matchIdAfter_none _ _ (startsWith_append_of_differ a b _ h)
  unfold youtubeForms at hlit
  simp only [List.mem_cons, List.mem_singleton, List.not_mem_nil, or_false] at hlit
  unfold matchFormsAt youtubeForms
  rcases hlit with h | h | h | h | h <;> subst h
  · simp only [List.findSome?, hself]
  · simp only [List.findSome?, hself, hno (utf16 "youtu.be/") (utf16 "youtube.com/watch?v=")
      (by decide)]
  · simp only [List.findSome?, hself,
      hno (utf16 "youtube.com/embed/") (utf16 "youtube.com/watch?v=") (by decide),
      hno (utf16 "youtube.com/embed/") (utf16 "youtu.be/") (by decide)]
  · simp only [List.findSome?, hself,
      hno (utf16 "youtube.com/v/") (utf16 "youtube.com/watch?v=") (by decide),
      hno (utf16 "youtube.com/v/") (utf16 "youtu.be/") (by decide),
      hno (utf16 "youtube.com/v/") (utf16 "youtube.com/embed/") (by decide)]
  · simp only [List.findSome?, hself,
      hno (utf16 "youtube.com/shorts/") (utf16 "youtube.com/watch?v=") (by decide),
      hno (utf16 "youtube.com/shorts/") (utf16 "youtu.be/") (by decide),
      hno (utf16 "youtube.com/shorts/") (utf16 "youtube.com/embed/") (by decide),
      hno (utf16 "youtube.com/shorts/") (utf16 "youtube.com/v/") (by decide)]

theorem searchForms_form (pre lit id rest : JSString) (hpre : ∀ c ∈ pre, c ≠ 121)
    (hlit : lit ∈ youtubeForms) (hlen : id.length = 11) (hid : id.all isIdChar = true) :
    searchForms (pre ++ (lit ++ (id ++ rest))) = some id := by
  rw [searchForms_skip pre _ hpre]
  have h := matchFormsAt_form lit id rest hlit hlen hid
  cases hs : lit ++ (id ++ rest) with
  | nil =>
    rw [hs] at h
    simp [matchFormsAt, youtubeForms_eq, matchIdAfter, startsWith] at h
  | cons c t =>
    rw [hs] at h
    rw [searchForms, h]

/-- C18: on each of the five URL forms, before an id of exactly 11 characters from letters,
digits, `-` and `_`, `extractYouTubeVideoId` returns that id. -/
theorem extractYouTubeVideoId_forms (id : JSString) (hlen : id.length = 11)
    (hid : id.all isIdChar = true) :
    extractYouTubeVideoId (utf16 "https://www.youtube.com/watch?v=" ++ id) = some id
      ∧ extractYouTubeVideoId (utf16 "https://youtu.be/" ++ id) = some id
      ∧ extractYouTubeVideoId (utf16 "https://www.youtube.com/embed/" ++ id) = some id
      ∧ extractYouTubeVideoId (utf16 "https://www.youtube.com/v/" ++ id) = some id
      ∧ extractYouTubeVideoId (utf16 "https://www.youtube.com/shorts/" ++ id) = some id := by
  have key : ∀ pre lit : JSString, (∀ c ∈ pre, c ≠ 121) → lit ∈ youtubeForms →
      extractYouTubeVideoId (pre ++ lit ++ id) = some id := by
    intro pre lit hpre hlit
    have h := searchForms_form pre lit id [] hpre hlit hlen hid
    rw [List.append_nil] at h
    unfold extractYouTubeVideoId
    rw [List.append_assoc, h]
  have e1 : utf16 "https://www.youtube.com/watch?v="
      = utf16 "https://www." ++ utf16 "youtube.com/watch?v=" := by decide
  have e2 : utf16 "https://youtu.be/" = utf16 "https://" ++ utf16 "youtu.be/" := by decide
  have e3 : utf16 "https://www.youtube.com/embed/"
      = utf16 "https://www." ++ utf16 "youtube.com/embed/" := by decide
  have e4 : utf16 "https://www.youtube.com/v/"
      = utf16 "https://www." ++ utf16 "youtube.com/v/" := by decide
  have e5 : utf16 "https://www.youtube.com/shorts/"
      = utf16 "https://www." ++ utf16 "youtube.com/shorts/" := by decide
  rw [e1, e2, e3, e4, e5]
  exact ⟨key _ _ (by decide) (by decide), key _ _ (by decide) (by decide),
    key _ _ (by decide) (by decide), key _ _ (by decide) (by decide),
    key _ _ (by decide) (by decide)⟩

/-- C18 on the example of the specification. -/
theorem extractYouTubeVideoId_forms_witness :
    extractYouTubeVideoId (utf16 "https://youtu.be/dQw4w9WgXcQ") = some (utf16 "dQw4w9WgXcQ") :=
  (extractYouTubeVideoId_forms (utf16 "dQw4w9WgXcQ") (by decide) (by decide)).2.1

/-! ## C19: what an extracted id is -/

/-- A capture of `matchIdAfter` is an id that follows the literal. -/
theorem matchIdAfter_some (lit s id : JSString) (h : matchIdAfter lit s = some id) :
    id.length = 11 ∧ id.all isIdChar = true ∧ ∃ b, s = lit ++ id ++ b := by
  unfold matchIdAfter at h
  split at h
  · rename_i hs
    obtain ⟨t, ht⟩ := (startsWith_spec _ _).1 hs
    simp only at h
    split at h
    · rename_i hc
      cases h
      refine ⟨hc.1, hc.2, (s.drop lit.length).drop 11, ?_⟩
      rw [List.append_assoc, List.take_append_drop, ← ht, List.drop_left]
    · cases h
  · cases h

theorem matchFormsAt_some (s id : JSString) (h : matchFormsAt s = some id) :
    ∃ lit ∈ youtubeForms, matchIdAfter lit s = some id :=
  List.exists_of_findSome?_eq_some h

theorem searchForms_some (url id : JSString) (h : searchForms url = some id) :
    id.length = 11 ∧ id.all isIdChar = true
      ∧ ∃ a lit b, lit ∈ youtubeForms ∧ url = a ++ lit ++ id ++ b := by
  induction url with
  | nil => cases h
  | cons c rest ih =>
    rw [searchForms] at h
    split at h
    · rename_i id2 hm
      cases h
      obtain ⟨lit, hlit, hl⟩ := matchFormsAt_some _ _ hm
      obtain ⟨h1, h2, b, hb⟩ := matchIdAfter_some _ _ _ hl
      exact ⟨h1, h2, [], lit, b, hlit, by rw [hb]; simp⟩
    · obtain ⟨h1, h2, a, lit, b, hlit, hb⟩ := ih h
      exact ⟨h1, h2, c :: a, lit, b, hlit, by rw [hb]; simp⟩

theorem lastIdInLine_some (s id : JSString) (h : lastIdInLine s = some id) :
    id.length = 11 ∧ id.all isIdChar = true ∧ ∃ a b, s = a ++ utf16 "v=" ++ id ++ b := by
  induction s with
  | nil => cases h
  | cons c rest ih =>
    rw [lastIdInLine] at h
    split at h
    · rename_i id2 hm
      cases h
      split at hm
      · cases hm
      · obtain ⟨h1, h2, a, b, hb⟩ := ih hm
        exact ⟨h1, h2, c :: a, b, by rw [hb]; simp⟩
    · obtain ⟨h1, h2, b, hb⟩ := matchIdAfter_some _ _ _ h
      exact ⟨h1, h2, [], b, by rw [hb]; simp⟩

theorem searchWatch_some (url id : JSString) (h : searchWatch url = some id) :
    id.length = 11 ∧ id.all isIdChar = true
      ∧ ∃ a b c, url = a ++ utf16 "youtube.com/watch?" ++ b ++ utf16 "v=" ++ id ++ c := by
  induction url with
  | nil => cases h
  | cons x rest ih =>
    rw [searchWatch] at h
    split at h
    · rename_i id2 hm
      cases h
      split at hm
      · rename_i hs
        obtain ⟨t, ht⟩ := (startsWith_spec _ _).1 hs
        obtain ⟨h1, h2, a, b, hb⟩ := lastIdInLine_some _ _ hm
        refine ⟨h1, h2, [], a, b, ?_⟩
        rw [← ht, show (18 : Nat) = (utf16 "youtube.com/watch?").length by decide,
          List.drop_left] at hb
        rw [← ht, hb]
        simp
      · cases hm
    · obtain ⟨h1, h2, a, b, c, hb⟩ := ih h
      exact ⟨h1, h2, x :: a, b, c, by rw [hb]; simp⟩

/-- Every alternative of the first pattern begins with one of the two host names. -/
theorem youtubeForms_host (lit : JSString) (h : lit ∈ youtubeForms) :
    (∃ t, lit = utf16 "youtube.com/" ++ t) ∨ ∃ t, lit = utf16 "youtu.be/" ++ t := by
  unfold youtubeForms at h
  simp only [List.mem_cons, List.mem_singleton, List.not_mem_nil, or_false] at h
  rcases h with h | h | h | h | h <;> subst h
  · exact Or.inl ⟨utf16 "watch?v=", by decide⟩
  · exact Or.inr ⟨[], by decide⟩
  · exact Or.inl ⟨utf16 "embed/", by decide⟩
  · exact Or.inl ⟨utf16 "v/", by decide⟩
  · exact Or.inl ⟨utf16 "shorts/", by decide⟩

/-- C19: an id that `extractYouTubeVideoId` returns has exactly 11 characters, each a
letter, a digit, `-` or `_`, and occurs in the input; on an input that holds neither
`youtube.com/` nor `youtu.be/` the result is `null`. -/
theorem extractYouTubeVideoId_sound (url : JSString) :
    (∀ id, extractYouTubeVideoId url = some id →
        id.length = 11 ∧ id.all isIdChar = true ∧ ∃ a b, url = a ++ id ++ b)
      ∧ (includes url (utf16 "youtube.com/") = false → includes url (utf16 "youtu.be/") = false →
          extractYouTubeVideoId url = none) := by
  have key : ∀ id, extractYouTubeVideoId url = some id →
      (id.length = 11 ∧ id.all isIdChar = true ∧ ∃ a b, url = a ++ id ++ b)
        ∧ (includes url (utf16 "youtube.com/") = true
          ∨ includes url (utf16 "youtu.be/") = true) := by
    intro id h
    unfold extractYouTubeVideoId at h
    split at h
    · rename_i id2 hm
      cases h
      obtain ⟨h1, h2, a, lit, b, hlit, hb⟩ := searchForms_some _ _ hm
      refine ⟨⟨h1, h2, a ++ lit, b, by rw [hb]⟩, ?_⟩
      rcases youtubeForms_host lit hlit with ⟨t, ht⟩ | ⟨t, ht⟩
      · exact Or.inl (includes_of_eq a (t ++ id ++ b) (by rw [hb, ht]; simp))
      · exact Or.inr (includes_of_eq a (t ++ id ++ b) (by rw [hb, ht]; simp))
    · obtain ⟨h1, h2, a, b, c, hb⟩ := searchWatch_some _ _ h
      refine ⟨⟨h1, h2, a ++ utf16 "youtube.com/watch?" ++ b ++ utf16 "v=", c, by rw [hb]⟩, ?_⟩
      refine Or.inl (includes_of_eq a (utf16 "watch?" ++ b ++ utf16 "v=" ++ id ++ c) ?_)
      rw [hb, show utf16 "youtube.com/watch?" = utf16 "youtube.com/" ++ utf16 "watch?" by decide]
      simp
  refine ⟨fun id h => (key id h).1, fun h1 h2 => ?_⟩
  cases hx : extractYouTubeVideoId url with
  | none => rfl
  | some id =>
    rcases (key id hx).2 with h | h
    · rw [h1] at h; cases h
    · rw [h2] at h; cases h

/-- C19 on the example of the specification: a URL of another site has no id. -/
theorem extractYouTubeVideoId_sound_witness :
    extractYouTubeVideoId (utf16 "https://example.com") = none :=
  (extractYouTubeVideoId_sound (utf16 "https://example.com")).2 (by decide) (by decide)

/-! ## C20: the builder and the extractor of a video id -/

/-- C20: `buildYouTubeVideo(url)` is `https://youtube.com/watch?v=` followed by the id
that `extractYouTubeVideoId(url)` returns, and `url` itself when that returns `null`. -/
theorem buildYouTubeVideo_lockstep (url : JSString) :
    (∀ id, extractYouTubeVideoId url = some id →
        buildYouTubeVideo url = utf16 "https://youtube.com/watch?v=" ++ id)
      ∧ (extractYouTubeVideoId url = none → buildYouTubeVideo url = url) := by
  unfold buildYouTubeVideo extractYouTubeVideoId
  cases h1 : searchForms url with
  | some id1 =>
    refine ⟨fun id h => ?_, fun h => ?_⟩
    · cases h; rfl
    · cases h
  | none =>
    cases h2 : searchWatch url with
    | some id2 =>
      refine ⟨fun id h => ?_, fun h => ?_⟩
      · cases h; rfl
      · cases h
    | none =>
      refine ⟨fun id h => ?_, fun _ => rfl⟩
      cases h

/-- C20 on a short link and on a URL of another site. -/
theorem buildYouTubeVideo_lockstep_witness :
    buildYouTubeVideo (utf16 "https://youtu.be/dQw4w9WgXcQ")
        = utf16 "https://youtube.com/watch?v=" ++ utf16 "dQw4w9WgXcQ"
      ∧ buildYouTubeVideo (utf16 "https://example.com") = utf16 "https://example.com" :=
  ⟨(buildYouTubeVideo_lockstep (utf16 "https://youtu.be/dQw4w9WgXcQ")).1 _ (by decide),
    (buildYouTubeVideo_lockstep (utf16 "https://example.com")).2 (by decide)⟩

/-! ## Splitting and joining -/

theorem replaceAllUnit_of_not_mem (c : Nat) (r s : JSString) (h : c ∉ s) :
    replaceAllUnit c r s = s := by
  induction s with
  | nil => rfl
  | cons x t ih =>
    have hx : x ≠ c := fun e => h (by simp [e])
    have ht : c ∉ t := fun e => h (by simp [e])
    simp only [replaceAllUnit, List.flatMap_cons, hx, if_false] at ih ⊢
    rw [ih ht]
    rfl

theorem escapeSemicolons_of_plain (s : JSString) (h1 : 59 ∉ s) (h2 : 92 ∉ s) :
    escapeSemicolons (some s) = s := by
  cases s with
  | nil => rfl
  | cons c t =>
    simp only [escapeSemicolons, strTruthy, List.isEmpty_cons, Bool.not_false, Bool.not_true,
      Bool.false_eq_true, if_false]
    rw [replaceAllUnit_of_not_mem 92 _ _ h2, replaceAllUnit_of_not_mem 59 _ _ h1]

theorem splitOnUnit_ne_nil (sep : Nat) (s : JSString) : splitOnUnit sep s ≠ [] := by
  cases s with
  | nil => simp [splitOnUnit]
  | cons c rest =>
    rw [splitOnUnit]
    split_ifs
    · simp
    · split <;> simp

theorem splitOnUnit_of_not_mem (sep : Nat) (a : JSString) (h : sep ∉ a) :
    splitOnUnit sep a = [a] := by
  induction a with
  | nil => rfl
  | cons x t ih =>
    have hx : x ≠ sep := fun e => h (by simp [e])
    have ht : sep ∉ t := fun e => h (by simp [e])
    rw [splitOnUnit, if_neg hx, ih ht]

theorem splitOnUnit_append (sep : Nat) (a rest : JSString) (h : sep ∉ a) :
    splitOnUnit sep (a ++ sep :: rest) = a :: splitOnUnit sep rest := by
  induction a with
  | nil => simp [splitOnUnit]
  | cons x t ih =>
    have hx : x ≠ sep := fun e => h (by simp [e])
    have ht : sep ∉ t := fun e => h (by simp [e])
    rw [List.cons_append, splitOnUnit, if_neg hx, ih ht]

theorem joinWith_cons_cons (sep : JSString) (c : Nat) (seg : JSString) (segs : List JSString) :
    joinWith sep ((c :: seg) :: segs) = c :: joinWith sep (seg :: segs) := by
  cases segs <;> rfl

theorem joinWith_splitOnUnit (sep : Nat) (s : JSString) :
    joinWith [sep] (splitOnUnit sep s) = s := by
  induction s with
  | nil => rfl
  | cons c rest ih =>
    rw [splitOnUnit]
    split_ifs with hc
    · cases hs : splitOnUnit sep rest with
      | nil => exact absurd hs (splitOnUnit_ne_nil sep rest)
      | cons seg segs =>
        rw [hs] at ih
        rw [joinWith, ih, hc]
        rfl
    · cases hs : splitOnUnit sep rest with
      | nil => exact absurd hs (splitOnUnit_ne_nil sep rest)
      | cons seg segs =>
        rw [hs] at ih
        simp only
        rw [joinWith_cons_cons, ih]

/-! ## C15: the WiFi round trip -/

/-- The segments of the text of a protected network, as the WiFi branch reads them. -/
theorem decodeWifi_protected (T ssid pw : JSString) (hT : 59 ∉ T) (hs : 59 ∉ ssid)
    (hp : 59 ∉ pw) :
    decodeWifi (utf16 "WIFI:" ++ (([84, 58] ++ T) ++ 59 :: (([83, 58] ++ ssid) ++ 59 ::
        (([80, 58] ++ pw) ++ 59 :: [59]))))
      = { type := utf16 "wifi"
          content := utf16 "WIFI:" ++ (([84, 58] ++ T) ++ 59 :: (([83, 58] ++ ssid) ++ 59 ::
            (([80, 58] ++ pw) ++ 59 :: [59])))
          action := utf16 "Connect WiFi"
          ssid := jsOr (some ssid) none
          password := jsOr (some pw) (some [])
          security := jsOr (some T) (some (utf16 "WPA")) } := by
  have h1 : (59 : Nat) ∉ [84, 58] ++ T := by simp [hT]
  have h2 : (59 : Nat) ∉ [83, 58] ++ ssid := by simp [hs]
  have h3 : (59 : Nat) ∉ [80, 58] ++ pw := by simp [hp]
  unfold decodeWifi
  simp only
  rw [show (5 : Nat) = (utf16 "WIFI:").length by decide, List.drop_left,
    splitOnUnit_append 59 _ _ h1, splitOnUnit_append 59 _ _ h2, splitOnUnit_append 59 _ _ h3]
  have e1 : splitOnUnit 58 ([84, 58] ++ T) = [84] :: splitOnUnit 58 T :=
    splitOnUnit_append 58 [84] T (by decide)
  have e2 : splitOnUnit 58 ([83, 58] ++ ssid) = [83] :: splitOnUnit 58 ssid :=
    splitOnUnit_append 58 [83] ssid (by decide)
  have e3 : splitOnUnit 58 ([80, 58] ++ pw) = [80] :: splitOnUnit 58 pw :=
    splitOnUnit_append 58 [80] pw (by decide)
  simp +decide [splitOnUnit, strTruthy, e1, e2, e3, joinWith_splitOnUnit, lookupStr, utf16,
    utf16Char, jsOr]

/-- The segments of the text of an open network, as the WiFi branch reads them. -/
theorem decodeWifi_open (ssid : JSString) (hs : 59 ∉ ssid) :
    decodeWifi (utf16 "WIFI:" ++ (utf16 "T:nopass" ++ 59 :: (([83, 58] ++ ssid) ++ 59 :: [59])))
      = { type := utf16 "wifi"
          content := utf16 "WIFI:" ++ (utf16 "T:nopass" ++ 59 :: (([83, 58] ++ ssid) ++ 59 :: [59]))
          action := utf16 "Connect WiFi"
          ssid := jsOr (some ssid) none
          password := some []
          security := some (utf16 "nopass") } := by
  have h1 : (59 : Nat) ∉ utf16 "T:nopass" := by decide
  have h2 : (59 : Nat) ∉ [83, 58] ++ ssid := by simp [hs]
  unfold decodeWifi
  simp only
  rw [show (5 : Nat) = (utf16 "WIFI:").length by decide, List.drop_left,
    splitOnUnit_append 59 _ _ h1, splitOnUnit_append 59 _ _ h2]
  have e1 : splitOnUnit 58 (utf16 "T:nopass") = [[84], utf16 "nopass"] := by decide
  have e2 : splitOnUnit 58 ([83, 58] ++ ssid) = [83] :: splitOnUnit 58 ssid :=
    splitOnUnit_append 58 [83] ssid (by decide)
  have e3 : strTruthy (utf16 "T:nopass") = true := by decide
  have e4 : strTruthy (utf16 "nopass") = true := by decide
  have e5 : joinWith [58] [utf16 "nopass"] = utf16 "nopass" := rfl
  simp +decide [splitOnUnit, strTruthy, e1, e2, e3, e4, e5, joinWith_splitOnUnit, lookupStr, jsOr]

theorem jsOr_some (s : JSString) (b : Option JSString) (h : s ≠ []) : jsOr (some s) b = some s := by
  cases s with
  | nil => exact absurd rfl h
  | cons c t => rfl

theorem jsOr_empty (s : JSString) : jsOr (some s) (some []) = some s := by
  cases s <;> rfl

/-- The WiFi branch answers every text that begins with `WIFI:`. -/
theorem decodeQRData_wifi (P : Platform) (now : Int) (body : JSString) :
    decodeQRData P now (.string (utf16 "WIFI:" ++ body))
      = .ok (some (decodeWifi (utf16 "WIFI:" ++ body))) := by
  rw [decodeQRData_plain P now _ (by simp +decide [utf16])
    (startsWith_append_of_differ _ _ _ (by decide))]
  unfold decodePlain
  rw [startsWith_append_self]
  rfl

theorem asciiHost_upperCaseFacts : UpperCaseFacts asciiHost := by
  intro s
  refine ⟨fun h => ?_, fun h => ?_, asciiUpper_ne_nopass s⟩
  · show s.map asciiUpper ≠ []
    simpa using h
  · show 59 ∉ s.map asciiUpper
    intro hc
    obtain ⟨c, hc, he⟩ := List.mem_map.1 hc
    unfold asciiUpper at he
    split_ifs at he with hr
    · omega
    · exact h (he ▸ hc)

/-- C15: on a host whose upper-casing obeys `UpperCaseFacts`, a non-empty ssid, a password
and a security that is non-empty and not `open` in any letter case, the ssid and the
password without `;` and `\` and the security without `;`, come back from
`decodeQRData(buildWifiQR(..))` as a result of type `wifi` with that ssid, that password
and the security in upper case; when the security is absent, empty or `open` in any letter
case, the result has type `wifi`, the ssid, an empty password and the security `nopass`. -/
theorem wifi_round_trip (P : Platform) (now : Int) (ssid password : JSString)
    (security : Option JSString) (hP : UpperCaseFacts P)
    (hne : ssid ≠ []) (hs1 : 59 ∉ ssid) (hs2 : 92 ∉ ssid) :
    (∀ sec, security = some sec → sec ≠ [] → P.toLowerCase sec ≠ utf16 "open" → 59 ∉ sec →
      59 ∉ password → 92 ∉ password →
      ∃ r, decodeQRData P now (.string (buildWifiQR P ⟨some ssid, some password, security⟩))
          = .ok (some r)
        ∧ r.type = utf16 "wifi" ∧ r.ssid = some ssid ∧ r.password = some password
        ∧ r.security = some (P.toUpperCase sec))
    ∧ ((security = none ∨ security = some [] ∨
          ∃ sec, security = some sec ∧ P.toLowerCase sec = utf16 "open") →
      ∃ r, decodeQRData P now (.string (buildWifiQR P ⟨some ssid, some password, security⟩))
          = .ok (some r)
        ∧ r.type = utf16 "wifi" ∧ r.ssid = some ssid ∧ r.password = some []
        ∧ r.security = some (utf16 "nopass")) := by
  have l1 : utf16 "WIFI:T:" = utf16 "WIFI:" ++ [84, 58] := by decide
  have l2 : utf16 ";S:" = [59, 83, 58] := by decide
  have l3 : utf16 ";P:" = [59, 80, 58] := by decide
  have l4 : utf16 ";;" = [59, 59] := by decide
  have l5 : utf16 "WIFI:T:nopass;S:" = utf16 "WIFI:" ++ (utf16 "T:nopass" ++ [59, 83, 58]) := by
    decide
  constructor
  · intro sec hsec hsne hlow hsemi hp1 hp2
    subst hsec
    obtain ⟨hU1, hU2, hU3⟩ := hP sec
    have ht : wifiType P (some sec) = P.toUpperCase sec := by
      cases sec with
      | nil => exact absurd rfl hsne
      | cons c t => simp [wifiType, strTruthy, hlow]
    have hb : buildWifiQR P ⟨some ssid, some password, some sec⟩
        = utf16 "WIFI:" ++ (([84, 58] ++ P.toUpperCase sec) ++ 59 :: (([83, 58] ++ ssid) ++ 59 ::
          (([80, 58] ++ password) ++ 59 :: [59]))) := by
      simp only [buildWifiQR, ht, hU3, if_false, escapeSemicolons_of_plain ssid hs1 hs2,
        escapeSemicolons_of_plain password hp1 hp2, l1, l2, l3, l4]
      simp
    rw [hb, decodeQRData_wifi,
      decodeWifi_protected _ _ _ (hU2 hsemi) hs1 hp1]
    exact ⟨_, rfl, rfl, jsOr_some _ _ hne, jsOr_empty _, jsOr_some _ _ (hU1 hsne)⟩
  · intro h
    have ht : wifiType P security = utf16 "nopass" := by
      rcases h with h | h | ⟨s, h, hs⟩
      · subst h; rfl
      · subst h; rfl
      · subst h; simp [wifiType, hs]
    have hb : buildWifiQR P ⟨some ssid, some password, security⟩
        = utf16 "WIFI:" ++ (utf16 "T:nopass" ++ 59 :: (([83, 58] ++ ssid) ++ 59 :: [59])) := by
      simp only [buildWifiQR, ht, if_true, escapeSemicolons_of_plain ssid hs1 hs2, l5, l4]
      simp
    rw [hb, decodeQRData_wifi, decodeWifi_open _ hs1]
    exact ⟨_, rfl, rfl, jsOr_some _ _ hne, rfl, rfl⟩

/-- C15 on the sample host: the network `MyNet` with the password `p@ss` under `WPA2`, and
the same network when it is open. -/
theorem wifi_round_trip_witness :
    (∃ r, decodeQRData asciiHost 0 (.string (buildWifiQR asciiHost
          ⟨some (utf16 "MyNet"), some (utf16 "p@ss"), some (utf16 "wpa2")⟩)) = .ok (some r)
        ∧ r.type = utf16 "wifi" ∧ r.ssid = some (utf16 "MyNet")
        ∧ r.password = some (utf16 "p@ss")
        ∧ r.security = some (asciiHost.toUpperCase (utf16 "wpa2")))
    ∧ (∃ r, decodeQRData asciiHost 0 (.string (buildWifiQR asciiHost
          ⟨some (utf16 "MyNet"), some (utf16 "p@ss"), some (utf16 "Open")⟩)) = .ok (some r)
        ∧ r.type = utf16 "wifi" ∧ r.ssid = some (utf16 "MyNet") ∧ r.password = some []
        ∧ r.security = some (utf16 "nopass")) :=
  ⟨(wifi_round_trip asciiHost 0 (utf16 "MyNet") (utf16 "p@ss") (some (utf16 "wpa2"))
      asciiHost_upperCaseFacts (by decide) (by decide) (by decide)).1 (utf16 "wpa2") rfl
      (by decide) (by decide) (by decide) (by decide) (by decide),
    (wifi_round_trip asciiHost 0 (utf16 "MyNet") (utf16 "p@ss") (some (utf16 "Open"))
      asciiHost_upperCaseFacts (by decide) (by decide) (by decide)).2
      (Or.inr (Or.inr ⟨_, rfl, by decide⟩))⟩

/-! ## Trimming -/

theorem dropWhile_eq_self_iff_head (p : Nat → Bool) (l : List Nat) (h : l.dropWhile p = l) :
    ∀ c t, l = c :: t → p c = false := by
  intro c t hl
  subst hl
  cases hp : p c with
  | false => rfl
  | true =>
    rw [List.dropWhile_cons_of_pos hp] at h
    have := congrArg List.length h
    have h2 := (List.dropWhile_suffix p : t.dropWhile p <:+ t).length_le
    simp at this
    omega

theorem dropWhile_of_head (p : Nat → Bool) (c : Nat) (t : List Nat) (h : p c = false) :
    (c :: t).dropWhile p = c :: t := by
  rw [List.dropWhile_cons_of_neg (by simp [h])]

theorem dropWhile_append_all (p : Nat → Bool) (pre l : List Nat) (h : ∀ c ∈ pre, p c = true) :
    (pre ++ l).dropWhile p = l.dropWhile p := by
  induction pre with
  | nil => rfl
  | cons x t ih =>
    rw [List.cons_append, List.dropWhile_cons_of_pos (h x (by simp))]
    exact ih fun c hc => h c (by simp [hc])

/-- A string that `trim` leaves as it is begins and ends with no white space. -/
theorem trim_fixed (s : JSString) (h : trim s = s) :
    s.dropWhile isTrimSpace = s ∧ s.reverse.dropWhile isTrimSpace = s.reverse := by
  unfold trim at h
  have h1 := (List.dropWhile_suffix isTrimSpace : s.dropWhile isTrimSpace <:+ s).length_le
  have h2 := (List.dropWhile_suffix isTrimSpace :
    (s.dropWhile isTrimSpace).reverse.dropWhile isTrimSpace
      <:+ (s.dropWhile isTrimSpace).reverse).length_le
  have h3 := congrArg List.length h
  simp only [List.length_reverse] at h2 h3
  have h4 : s.dropWhile isTrimSpace = s := by
    have hsuf : s.dropWhile isTrimSpace <:+ s := List.dropWhile_suffix _
    exact hsuf.eq_of_length (by omega)
  rw [h4] at h
  exact ⟨h4, by rw [← List.reverse_eq_iff] ; exact h⟩

/-- White space around a string that `trim` leaves as it is goes away. -/
theorem trim_padded (pre s post : JSString) (h : trim s = s)
    (hpre : ∀ c ∈ pre, isTrimSpace c = true) (hpost : ∀ c ∈ post, isTrimSpace c = true) :
    trim (pre ++ s ++ post) = s := by
  obtain ⟨h1, h2⟩ := trim_fixed s h
  cases s with
  | nil =>
    unfold trim
    have hall : ∀ c ∈ pre ++ [] ++ post, isTrimSpace c = true := by
      intro c hc
      simp only [List.append_nil, List.mem_append] at hc
      rcases hc with hc | hc
      · exact hpre c hc
      · exact hpost c hc
    have : (pre ++ [] ++ post).dropWhile isTrimSpace = [] := by
      rw [List.dropWhile_eq_nil_iff]
      exact hall
    rw [this]
    rfl
  | cons c t =>
    unfold trim
    rw [List.append_assoc, dropWhile_append_all _ _ _ hpre]
    have hc : isTrimSpace c = false := dropWhile_eq_self_iff_head _ _ h1 c t rfl
    rw [List.cons_append, dropWhile_of_head _ _ _ hc, ← List.cons_append, List.reverse_append,
      dropWhile_append_all _ _ _ (fun x hx => hpost x (List.mem_reverse.1 hx)), h2,
      List.reverse_reverse]

/-! ## The lines of a contact card -/

theorem splitLines_lf (rest : JSString) : splitLines (10 :: rest) = [] :: splitLines rest := by
  rw [splitLines.eq_def]
  rfl

theorem splitLines_one (c : Nat) (hc : c ≠ 10) : splitLines [c] = [[c]] := by
  rw [splitLines.eq_def]
  simp only [if_neg hc]

theorem splitLines_two (c d : Nat) (rest seg : JSString) (segs : List JSString) (hc : c ≠ 10)
    (hd : ¬ (c = 13 ∧ d = 10)) (h : splitLines (d :: rest) = seg :: segs) :
    splitLines (c :: d :: rest) = (c :: seg) :: segs := by
  rw [splitLines.eq_def]
  simp only [if_neg hc, if_neg hd, h]

/-- A line feed ends a line that holds no line feed and does not end in a carriage
return. -/
theorem splitLines_append (l rest : JSString) (h10 : 10 ∉ l) (hlast : l.getLast? ≠ some 13) :
    splitLines (l ++ 10 :: rest) = l :: splitLines rest := by
  induction l with
  | nil => exact splitLines_lf rest
  | cons c t ih =>
    have hc : c ≠ 10 := fun e => h10 (by simp [e])
    have ht : 10 ∉ t := fun e => h10 (by simp [e])
    cases t with
    | nil =>
      have hc13 : c ≠ 13 := by
        intro e
        apply hlast
        simp [e]
      exact splitLines_two c 10 rest [] _ hc (fun e => hc13 e.1) (splitLines_lf rest)
    | cons d t2 =>
      have hd : d ≠ 10 := fun e => h10 (by simp [e])
      have hl : (d :: t2).getLast? ≠ some 13 := by
        intro e
        apply hlast
        rw [List.getLast?_cons_cons]
        exact e
      exact splitLines_two c d _ _ _ hc (fun e => hd e.2) (ih ht hl)

theorem splitLines_single (l : JSString) (h10 : 10 ∉ l) : splitLines l = [l] := by
  induction l with
  | nil => rfl
  | cons c t ih =>
    have hc : c ≠ 10 := fun e => h10 (by simp [e])
    have ht : 10 ∉ t := fun e => h10 (by simp [e])
    cases t with
    | nil => exact splitLines_one c hc
    | cons d t2 =>
      have hd : d ≠ 10 := fun e => h10 (by simp [e])
      exact splitLines_two c d _ _ _ hc (fun e => hd e.2) (ih ht)

/-- Joining lines with line feeds and splitting them again gives the lines back. -/
theorem splitLines_joinWith (lines : List JSString) (hne : lines ≠ [])
    (h : ∀ l ∈ lines, 10 ∉ l ∧ l.getLast? ≠ some 13) :
    splitLines (joinWith (utf16 "\n") lines) = lines := by
  induction lines with
  | nil => exact absurd rfl hne
  | cons l rest ih =>
    cases rest with
    | nil =>
      rw [joinWith]
      exact splitLines_single l (h l (by simp)).1
    | cons m rest2 =>
      rw [joinWith, show utf16 "\n" = [10] by decide, List.append_assoc, List.singleton_append,
        splitLines_append l _ (h l (by simp)).1 (h l (by simp)).2]
      rw [show ([10] : JSString) = utf16 "\n" by decide,
        ih (by simp) (fun x hx => h x (by simp [hx]))]

theorem collapseSemicolonPairs_append (x rest : JSString) (h : 59 ∉ x) :
    collapseSemicolonPairs (x ++ 59 :: rest) = x ++ collapseSemicolonPairs (59 :: rest) := by
  induction x with
  | nil => rfl
  | cons c t ih =>
    have hc : c ≠ 59 := fun e => h (by simp [e])
    have ht : 59 ∉ t := fun e => h (by simp [e])
    cases t with
    | nil =>
      rw [List.cons_append, List.nil_append, collapseSemicolonPairs, if_neg (by simp [hc])]
      rfl
    | cons d t2 =>
      rw [List.cons_append, List.cons_append, collapseSemicolonPairs, if_neg (by simp [hc]),
        ← List.cons_append, ih ht]
      rfl

/-- The address component `;;x;;;;` collapses to `x` between spaces. -/
theorem collapse_address (x : JSString) (h : 59 ∉ x) :
    collapseSemicolonPairs (utf16 ";;" ++ x ++ utf16 ";;;;") = [32] ++ x ++ [32, 32] := by
  rw [show utf16 ";;" = [59, 59] by decide, show utf16 ";;;;" = 59 :: [59, 59, 59] by decide]
  rw [List.append_assoc]
  show collapseSemicolonPairs (59 :: 59 :: (x ++ 59 :: [59, 59, 59])) = _
  rw [collapseSemicolonPairs, if_pos ⟨rfl, rfl⟩, collapseSemicolonPairs_append x _ h]
  simp [collapseSemicolonPairs]



/-! ## C16: the vCard round trip -/

theorem startsWith_append_of_prefix (a b t : JSString) (h : startsWith a b = true) :
    startsWith (a ++ t) b = true :=
  (startsWith_spec _ _).2
    (((startsWith_spec _ _).1 h).trans (List.prefix_append a t))

theorem secondPart_of (key x : JSString) (hk : 58 ∉ key) (hx : 58 ∉ x) (hne : x ≠ []) :
    secondPart (key ++ 58 :: x) = some x := by
  unfold secondPart
  rw [splitOnUnit_append 58 key x hk, splitOnUnit_of_not_mem 58 x hx]
  cases x with
  | nil => exact absurd rfl hne
  | cons c t => rfl

theorem vcardLine_fixed (out : VCardOut) :
    vcardLine out (utf16 "BEGIN:VCARD") = out ∧ vcardLine out (utf16 "VERSION:3.0") = out
      ∧ vcardLine out (utf16 "END:VCARD") = out := by
  refine ⟨?_, ?_, ?_⟩ <;> simp +decide [vcardLine]

theorem vcardLine_fn (out : VCardOut) (x : JSString) :
    vcardLine out (utf16 "FN:" ++ x) = { out with fullName := some (trim x) } := by
  have d : (utf16 "FN:" ++ x).drop 3 = x := List.drop_left' (by decide)
  unfold vcardLine
  simp only [startsWith_append_self, d,
    startsWith_append_of_differ (utf16 "FN:") (utf16 "TEL") x (by decide),
    startsWith_append_of_differ (utf16 "FN:") (utf16 "EMAIL") x (by decide),
    startsWith_append_of_differ (utf16 "FN:") (utf16 "ORG:") x (by decide),
    startsWith_append_of_differ (utf16 "FN:") (utf16 "ADR") x (by decide),
    startsWith_append_of_differ (utf16 "FN:") (utf16 "TITLE:") x (by decide),
    startsWith_append_of_differ (utf16 "FN:") (utf16 "URL:") x (by decide),
    if_true, Bool.false_eq_true, if_false]

theorem vcardLine_org (out : VCardOut) (x : JSString) :
    vcardLine out (utf16 "ORG:" ++ x) = { out with org := some (trim x) } := by
  have d : (utf16 "ORG:" ++ x).drop 4 = x := List.drop_left' (by decide)
  unfold vcardLine
  simp only [startsWith_append_self, d,
    startsWith_append_of_differ (utf16 "ORG:") (utf16 "FN:") x (by decide),
    startsWith_append_of_differ (utf16 "ORG:") (utf16 "TEL") x (by decide),
    startsWith_append_of_differ (utf16 "ORG:") (utf16 "EMAIL") x (by decide),
    startsWith_append_of_differ (utf16 "ORG:") (utf16 "ADR") x (by decide),
    startsWith_append_of_differ (utf16 "ORG:") (utf16 "TITLE:") x (by decide),
    startsWith_append_of_differ (utf16 "ORG:") (utf16 "URL:") x (by decide),
    if_true, Bool.false_eq_true, if_false]

theorem vcardLine_title (out : VCardOut) (x : JSString) :
    vcardLine out (utf16 "TITLE:" ++ x) = { out with title := some (trim x) } := by
  have d : (utf16 "TITLE:" ++ x).drop 6 = x := List.drop_left' (by decide)
  unfold vcardLine
  simp only [startsWith_append_self, d,
    startsWith_append_of_differ (utf16 "TITLE:") (utf16 "FN:") x (by decide),
    startsWith_append_of_differ (utf16 "TITLE:") (utf16 "TEL") x (by decide),
    startsWith_append_of_differ (utf16 "TITLE:") (utf16 "EMAIL") x (by decide),
    startsWith_append_of_differ (utf16 "TITLE:") (utf16 "ORG:") x (by decide),
    startsWith_append_of_differ (utf16 "TITLE:") (utf16 "ADR") x (by decide),
    startsWith_append_of_differ (utf16 "TITLE:") (utf16 "URL:") x (by decide),
    if_true, Bool.false_eq_true, if_false]

theorem vcardLine_url (out : VCardOut) (x : JSString) :
    vcardLine out (utf16 "URL:" ++ x) = { out with website := some (trim x) } := by
  have d : (utf16 "URL:" ++ x).drop 4 = x := List.drop_left' (by decide)
  unfold vcardLine
  simp only [startsWith_append_self, d,
    startsWith_append_of_differ (utf16 "URL:") (utf16 "FN:") x (by decide),
    startsWith_append_of_differ (utf16 "URL:") (utf16 "TEL") x (by decide),
    startsWith_append_of_differ (utf16 "URL:") (utf16 "EMAIL") x (by decide),
    startsWith_append_of_differ (utf16 "URL:") (utf16 "ORG:") x (by decide),
    startsWith_append_of_differ (utf16 "URL:") (utf16 "ADR") x (by decide),
    startsWith_append_of_differ (utf16 "URL:") (utf16 "TITLE:") x (by decide),
    if_true, Bool.false_eq_true, if_false]

theorem vcardLine_tel (out : VCardOut) (x : JSString) (hx : 58 ∉ x) (hne : x ≠ []) :
    vcardLine out (utf16 "TEL;TYPE=CELL:" ++ x) = { out with phone := some (trim x) } := by
  have hs : secondPart (utf16 "TEL;TYPE=CELL:" ++ x) = some x := by
    rw [show utf16 "TEL;TYPE=CELL:" = utf16 "TEL;TYPE=CELL" ++ [58] by decide,
      List.append_assoc, List.singleton_append]
    exact secondPart_of _ x (by decide) hx hne
  unfold vcardLine
  simp only [hs, startsWith_append_of_prefix (utf16 "TEL;TYPE=CELL:") (utf16 "TEL") x (by decide),
    startsWith_append_of_differ (utf16 "TEL;TYPE=CELL:") (utf16 "FN:") x (by decide),
    startsWith_append_of_differ (utf16 "TEL;TYPE=CELL:") (utf16 "EMAIL") x (by decide),
    startsWith_append_of_differ (utf16 "TEL;TYPE=CELL:") (utf16 "ORG:") x (by decide),
    startsWith_append_of_differ (utf16 "TEL;TYPE=CELL:") (utf16 "ADR") x (by decide),
    startsWith_append_of_differ (utf16 "TEL;TYPE=CELL:") (utf16 "TITLE:") x (by decide),
    startsWith_append_of_differ (utf16 "TEL;TYPE=CELL:") (utf16 "URL:") x (by decide),
    if_true, Bool.false_eq_true, if_false]

theorem vcardLine_email (out : VCardOut) (x : JSString) (hx : 58 ∉ x) (hne : x ≠ []) :
    vcardLine out (utf16 "EMAIL:" ++ x) = { out with email := some (trim x) } := by
  have hs : secondPart (utf16 "EMAIL:" ++ x) = some x := by
    rw [show utf16 "EMAIL:" = utf16 "EMAIL" ++ [58] by decide,
      List.append_assoc, List.singleton_append]
    exact secondPart_of _ x (by decide) hx hne
  unfold vcardLine
  simp only [hs, startsWith_append_of_prefix (utf16 "EMAIL:") (utf16 "EMAIL") x (by decide),
    startsWith_append_of_differ (utf16 "EMAIL:") (utf16 "FN:") x (by decide),
    startsWith_append_of_differ (utf16 "EMAIL:") (utf16 "TEL") x (by decide),
    startsWith_append_of_differ (utf16 "EMAIL:") (utf16 "ORG:") x (by decide),
    startsWith_append_of_differ (utf16 "EMAIL:") (utf16 "ADR") x (by decide),
    startsWith_append_of_differ (utf16 "EMAIL:") (utf16 "TITLE:") x (by decide),
    startsWith_append_of_differ (utf16 "EMAIL:") (utf16 "URL:") x (by decide),
    if_true, Bool.false_eq_true, if_false]

theorem vcardLine_adr (out : VCardOut) (x : JSString) (hx : 58 ∉ x) (h59 : 59 ∉ x)
    (ht : trim x = x) :
    vcardLine out (utf16 "ADR:;;" ++ x ++ utf16 ";;;;") = { out with address := some x } := by
  have hs : secondPart (utf16 "ADR:;;" ++ x ++ utf16 ";;;;")
      = some (utf16 ";;" ++ x ++ utf16 ";;;;") := by
    rw [show utf16 "ADR:;;" = utf16 "ADR" ++ 58 :: utf16 ";;" by decide]
    have := secondPart_of (utf16 "ADR") (utf16 ";;" ++ x ++ utf16 ";;;;") (by decide)
      (by
        intro h
        simp only [List.mem_append] at h
        rcases h with (h | h) | h
        · revert h; decide
        · exact hx h
        · revert h; decide)
      (by simp +decide [utf16])
    simpa using this
  have hc : trim (collapseSemicolonPairs (utf16 ";;" ++ x ++ utf16 ";;;;")) = x := by
    rw [collapse_address x h59]
    exact trim_padded [32] x [32, 32] ht (by decide) (by decide)
  unfold vcardLine
  rw [List.append_assoc] at hs ⊢
  simp only [hs, startsWith_append_of_prefix (utf16 "ADR:;;") (utf16 "ADR") _ (by decide),
    startsWith_append_of_differ (utf16 "ADR:;;") (utf16 "FN:") _ (by decide),
    startsWith_append_of_differ (utf16 "ADR:;;") (utf16 "TEL") _ (by decide),
    startsWith_append_of_differ (utf16 "ADR:;;") (utf16 "EMAIL") _ (by decide),
    startsWith_append_of_differ (utf16 "ADR:;;") (utf16 "ORG:") _ (by decide),
    startsWith_append_of_differ (utf16 "ADR:;;") (utf16 "TITLE:") _ (by decide),
    startsWith_append_of_differ (utf16 "ADR:;;") (utf16 "URL:") _ (by decide),
    if_true, Bool.false_eq_true, if_false]
  rw [hc]


theorem escapeVCard_of_plain (s : JSString) (h : 10 ∉ s) : escapeVCard (some s) = s := by
  cases s with
  | nil => rfl
  | cons c t =>
    simp only [escapeVCard, strTruthy, List.isEmpty_cons, Bool.not_false, if_true]
    exact replaceAllUnit_of_not_mem 10 _ _ h

theorem ne_nil_of_truthy (s : JSString) (h : strTruthy s = true) : s ≠ [] := by
  rintro rfl
  cases h

/-- A string that `trim` leaves as it is does not end in a carriage return. -/
theorem trim_last (s : JSString) (h : trim s = s) : s.getLast? ≠ some 13 := by
  intro hl
  rw [← List.head?_reverse] at hl
  cases hr : s.reverse with
  | nil => rw [hr] at hl; cases hl
  | cons c t =>
    rw [hr] at hl
    cases hl
    have := dropWhile_eq_self_iff_head _ _ (trim_fixed s h).2 13 t hr
    revert this
    decide

/-- The lines that a field adds hold no line feed and do not end in a carriage return. -/
theorem pushIfTruthy_lines (before after : JSString) (v : Option JSString)
    (hb : 10 ∉ before) (ha : 10 ∉ after) (hl : after.getLast? ≠ some 13)
    (hv : ∀ s, v = some s → trim s = s ∧ 10 ∉ s) :
    ∀ l ∈ pushIfTruthy before after v, 10 ∉ l ∧ l.getLast? ≠ some 13 := by
  intro l hmem
  unfold pushIfTruthy at hmem
  cases v with
  | none => cases hmem
  | some s =>
    simp only at hmem
    split_ifs at hmem with ht
    · obtain ⟨h1, h2⟩ := hv s rfl
      rw [List.mem_singleton] at hmem
      subst hmem
      rw [escapeVCard_of_plain s h2]
      refine ⟨by simp [hb, ha, h2], ?_⟩
      cases after with
      | nil =>
        rw [List.append_nil, List.getLast?_append_of_ne_nil _ (ne_nil_of_truthy s ht)]
        exact trim_last s h1
      | cons c t =>
        rw [List.getLast?_append_of_ne_nil _ (by simp)]
        exact hl
    · cases hmem


theorem filter_truthy_some (v : Option JSString) (s : JSString)
    (h : v.filter strTruthy = some s) : v = some s ∧ strTruthy s = true := by
  cases v with
  | none => cases h
  | some x =>
    simp only [Option.filter] at h
    split_ifs at h with hx
    cases h
    exact ⟨rfl, hx⟩

theorem foldl_push_none (before after : JSString) (v : Option JSString) (out : VCardOut)
    (h : v.filter strTruthy = none) : (pushIfTruthy before after v).foldl vcardLine out = out := by
  unfold pushIfTruthy
  cases v with
  | none => rfl
  | some s =>
    cases ht : strTruthy s with
    | false => simp [ht]
    | true => simp [Option.filter, ht] at h

theorem foldl_push_some (before after s : JSString) (v : Option JSString) (out : VCardOut)
    (h : v.filter strTruthy = some s) (h10 : 10 ∉ s) :
    (pushIfTruthy before after v).foldl vcardLine out = vcardLine out (before ++ s ++ after) := by
  obtain ⟨hv, ht⟩ := filter_truthy_some v s h
  subst hv
  unfold pushIfTruthy
  simp only [ht, if_true, List.foldl_cons, List.foldl_nil]
  rw [escapeVCard_of_plain s h10]

theorem step_fn (out : VCardOut) (v : Option JSString) (hv : ∀ s, v = some s → PlainValue s) :
    (pushIfTruthy (utf16 "FN:") [] v).foldl vcardLine out
      = { out with fullName := (v.filter strTruthy).or out.fullName } := by
  cases hf : v.filter strTruthy with
  | none => rw [foldl_push_none _ _ _ _ hf]; rfl
  | some s =>
    obtain ⟨h1, h2, -, -⟩ := hv s (filter_truthy_some v s hf).1
    rw [foldl_push_some _ _ s _ _ hf h2, List.append_nil, vcardLine_fn, h1]
    rfl

theorem step_org (out : VCardOut) (v : Option JSString) (hv : ∀ s, v = some s → PlainValue s) :
    (pushIfTruthy (utf16 "ORG:") [] v).foldl vcardLine out
      = { out with org := (v.filter strTruthy).or out.org } := by
  cases hf : v.filter strTruthy with
  | none => rw [foldl_push_none _ _ _ _ hf]; rfl
  | some s =>
    obtain ⟨h1, h2, -, -⟩ := hv s (filter_truthy_some v s hf).1
    rw [foldl_push_some _ _ s _ _ hf h2, List.append_nil, vcardLine_org, h1]
    rfl

theorem step_title (out : VCardOut) (v : Option JSString) (hv : ∀ s, v = some s → PlainValue s) :
    (pushIfTruthy (utf16 "TITLE:") [] v).foldl vcardLine out
      = { out with title := (v.filter strTruthy).or out.title } := by
  cases hf : v.filter strTruthy with
  | none => rw [foldl_push_none _ _ _ _ hf]; rfl
  | some s =>
    obtain ⟨h1, h2, -, -⟩ := hv s (filter_truthy_some v s hf).1
    rw [foldl_push_some _ _ s _ _ hf h2, List.append_nil, vcardLine_title, h1]
    rfl

theorem step_tel (out : VCardOut) (v : Option JSString) (hv : ∀ s, v = some s → PlainValue s) :
    (pushIfTruthy (utf16 "TEL;TYPE=CELL:") [] v).foldl vcardLine out
      = { out with phone := (v.filter strTruthy).or out.phone } := by
  cases hf : v.filter strTruthy with
  | none => rw [foldl_push_none _ _ _ _ hf]; rfl
  | some s =>
    obtain ⟨h0, ht⟩ := filter_truthy_some v s hf
    obtain ⟨h1, h2, h3, -⟩ := hv s h0
    rw [foldl_push_some _ _ s _ _ hf h2, List.append_nil,
      vcardLine_tel _ _ h3 (ne_nil_of_truthy s ht), h1]
    rfl

theorem step_email (out : VCardOut) (v : Option JSString) (hv : ∀ s, v = some s → PlainValue s) :
    (pushIfTruthy (utf16 "EMAIL:") [] v).foldl vcardLine out
      = { out with email := (v.filter strTruthy).or out.email } := by
  cases hf : v.filter strTruthy with
  | none => rw [foldl_push_none _ _ _ _ hf]; rfl
  | some s =>
    obtain ⟨h0, ht⟩ := filter_truthy_some v s hf
    obtain ⟨h1, h2, h3, -⟩ := hv s h0
    rw [foldl_push_some _ _ s _ _ hf h2, List.append_nil,
      vcardLine_email _ _ h3 (ne_nil_of_truthy s ht), h1]
    rfl

theorem step_adr (out : VCardOut) (v : Option JSString) (hv : ∀ s, v = some s → PlainValue s) :
    (pushIfTruthy (utf16 "ADR:;;") (utf16 ";;;;") v).foldl vcardLine out
      = { out with address := (v.filter strTruthy).or out.address } := by
  cases hf : v.filter strTruthy with
  | none => rw [foldl_push_none _ _ _ _ hf]; rfl
  | some s =>
    obtain ⟨h1, h2, h3, h4⟩ := hv s (filter_truthy_some v s hf).1
    rw [foldl_push_some _ _ s _ _ hf h2, vcardLine_adr _ _ h3 h4 h1]
    rfl

theorem step_url (out : VCardOut) (v : Option JSString) (hv : ∀ s, v = some s → PlainLink s) :
    (pushIfTruthy (utf16 "URL:") [] v).foldl vcardLine out
      = { out with website := (v.filter strTruthy).or out.website } := by
  cases hf : v.filter strTruthy with
  | none => rw [foldl_push_none _ _ _ _ hf]; rfl
  | some s =>
    obtain ⟨h1, h2, -⟩ := hv s (filter_truthy_some v s hf).1
    rw [foldl_push_some _ _ s _ _ hf h2, List.append_nil, vcardLine_url, h1]
    rfl

/-- The vCard branch answers every text that begins with `BEGIN:VCARD`. -/
theorem decodeQRData_vcard (P : Platform) (now : Int) (body : JSString) :
    decodeQRData P now (.string (utf16 "BEGIN:VCARD" ++ body))
      = .ok (some (decodeVCard (utf16 "BEGIN:VCARD" ++ body))) := by
  rw [decodeQRData_plain P now _ (by simp +decide [utf16])
    (startsWith_append_of_differ _ _ _ (by decide))]
  unfold decodePlain
  rw [startsWith_append_self, startsWith_append_of_differ _ _ _ (by decide)]
  have hm : matchesWifiIgnoreCase (utf16 "BEGIN:VCARD" ++ body) = false := rfl
  rw [hm]
  rfl

/-- The record that the vCard branch reads out of the lines of `buildVCard`. -/
theorem foldl_vcardLines (f : VCardFields)
    (h1 : ∀ s, f.fullName = some s → PlainValue s) (h2 : ∀ s, f.phone = some s → PlainValue s)
    (h3 : ∀ s, f.email = some s → PlainValue s) (h4 : ∀ s, f.address = some s → PlainValue s)
    (h5 : ∀ s, f.org = some s → PlainValue s) (h6 : ∀ s, f.title = some s → PlainValue s)
    (h7 : ∀ s, f.website = some s → PlainLink s) :
    (vcardLines f).foldl vcardLine {}
      = { fullName := f.fullName.filter strTruthy
          phone := f.phone.filter strTruthy
          email := f.email.filter strTruthy
          org := f.org.filter strTruthy
          address := f.address.filter strTruthy
          title := f.title.filter strTruthy
          website := f.website.filter strTruthy } := by
  unfold vcardLines
  simp only [List.foldl_append, List.foldl_cons, List.foldl_nil, (vcardLine_fixed _).1,
    (vcardLine_fixed _).2.1, (vcardLine_fixed _).2.2, step_fn _ _ h1, step_org _ _ h5,
    step_title _ _ h6, step_tel _ _ h2, step_email _ _ h3, step_adr _ _ h4, step_url _ _ h7,
    Option.or_none]

theorem vcardLines_safe (f : VCardFields)
    (h1 : ∀ s, f.fullName = some s → PlainValue s) (h2 : ∀ s, f.phone = some s → PlainValue s)
    (h3 : ∀ s, f.email = some s → PlainValue s) (h4 : ∀ s, f.address = some s → PlainValue s)
    (h5 : ∀ s, f.org = some s → PlainValue s) (h6 : ∀ s, f.title = some s → PlainValue s)
    (h7 : ∀ s, f.website = some s → PlainLink s) :
    ∀ l ∈ vcardLines f, 10 ∉ l ∧ l.getLast? ≠ some 13 := by
  have hp : ∀ v : Option JSString, (∀ s, v = some s → PlainValue s) →
      ∀ s, v = some s → trim s = s ∧ 10 ∉ s := fun v hv s hs => ⟨(hv s hs).1, (hv s hs).2.1⟩
  intro l hl
  unfold vcardLines at hl
  simp only [List.mem_append, List.mem_cons, List.mem_singleton, List.not_mem_nil,
    or_false] at hl
  rcases hl with (((((((hl | hl) | hl) | hl) | hl) | hl) | hl) | hl) | hl
  · rcases hl with hl | hl <;> subst hl <;> decide
  · exact pushIfTruthy_lines _ _ _ (by decide) (by decide) (by decide) (hp _ h1) l hl
  · exact pushIfTruthy_lines _ _ _ (by decide) (by decide) (by decide) (hp _ h5) l hl
  · exact pushIfTruthy_lines _ _ _ (by decide) (by decide) (by decide) (hp _ h6) l hl
  · exact pushIfTruthy_lines _ _ _ (by decide) (by decide) (by decide) (hp _ h2) l hl
  · exact pushIfTruthy_lines _ _ _ (by decide) (by decide) (by decide) (hp _ h3) l hl
  · exact pushIfTruthy_lines _ _ _ (by decide) (by decide) (by decide) (hp _ h4) l hl
  · exact pushIfTruthy_lines _ _ _ (by decide) (by decide) (by decide)
      (fun s hs => ⟨(h7 s hs).1, (h7 s hs).2.1⟩) l hl
  · subst hl; decide

theorem buildVCard_head (f : VCardFields) :
    ∃ body, buildVCard f = utf16 "BEGIN:VCARD" ++ body := by
  unfold buildVCard vcardLines
  simp only [List.append_assoc, List.cons_append, List.nil_append]
  cases h : (pushIfTruthy (utf16 "FN:") [] f.fullName ++
      (pushIfTruthy (utf16 "ORG:") [] f.org ++
        (pushIfTruthy (utf16 "TITLE:") [] f.title ++
          (pushIfTruthy (utf16 "TEL;TYPE=CELL:") [] f.phone ++
            (pushIfTruthy (utf16 "EMAIL:") [] f.email ++
              (pushIfTruthy (utf16 "ADR:;;") (utf16 ";;;;") f.address ++
                (pushIfTruthy (utf16 "URL:") [] f.website ++ [utf16 "END:VCARD"]))))))) with
  | nil => exact ⟨_, rfl⟩
  | cons a t => exact ⟨_, rfl⟩

/-- C16: when every field of a contact card has no white space at either end and holds no
line feed, colon or semicolon (the web address may hold colons), `decodeQRData(buildVCard(..))`
is a result of type `vcard` in which every non-empty field comes back under its own name
and every empty or absent field is absent: each field of the result is the field of the
card filtered by truthiness. -/
theorem vcard_round_trip (P : Platform) (now : Int) (f : VCardFields)
    (h1 : ∀ s, f.fullName = some s → PlainValue s) (h2 : ∀ s, f.phone = some s → PlainValue s)
    (h3 : ∀ s, f.email = some s → PlainValue s) (h4 : ∀ s, f.address = some s → PlainValue s)
    (h5 : ∀ s, f.org = some s → PlainValue s) (h6 : ∀ s, f.title = some s → PlainValue s)
    (h7 : ∀ s, f.website = some s → PlainLink s) :
    ∃ r, decodeQRData P now (.string (buildVCard f)) = .ok (some r)
      ∧ r.type = utf16 "vcard"
      ∧ r.fullName = f.fullName.filter strTruthy ∧ r.phone = f.phone.filter strTruthy
      ∧ r.email = f.email.filter strTruthy ∧ r.address = f.address.filter strTruthy
      ∧ r.org = f.org.filter strTruthy ∧ r.title = f.title.filter strTruthy
      ∧ r.website = f.website.filter strTruthy := by
  obtain ⟨body, hb⟩ := buildVCard_head f
  have hs : splitLines (buildVCard f) = vcardLines f :=
    splitLines_joinWith _ (by simp [vcardLines]) (vcardLines_safe f h1 h2 h3 h4 h5 h6 h7)
  have hd := decodeQRData_vcard P now body
  rw [← hb] at hd
  refine ⟨_, hd, rfl, ?_⟩
  unfold decodeVCard
  simp only [hs, foldl_vcardLines f h1 h2 h3 h4 h5 h6 h7, and_self]

/-- C16 on a card with a name, a phone, an e-mail address, a street address and a web
address, without an organisation and with an empty title. -/
theorem vcard_round_trip_witness :
    ∃ r, decodeQRData asciiHost 0 (.string (buildVCard
          ⟨some (utf16 "John Doe"), some (utf16 "+1 555 0100"), some (utf16 "j@d.example"),
            some (utf16 "1 Main St"), none, some [], some (utf16 "https://d.example")⟩))
        = .ok (some r)
      ∧ r.type = utf16 "vcard"
      ∧ r.fullName = some (utf16 "John Doe") ∧ r.phone = some (utf16 "+1 555 0100")
      ∧ r.email = some (utf16 "j@d.example") ∧ r.address = some (utf16 "1 Main St")
      ∧ r.org = none ∧ r.title = none
      ∧ r.website = some (utf16 "https://d.example") :=
  vcard_round_trip asciiHost 0
    ⟨some (utf16 "John Doe"), some (utf16 "+1 555 0100"), some (utf16 "j@d.example"),
      some (utf16 "1 Main St"), none, some [], some (utf16 "https://d.example")⟩
    (fun s hs => by cases hs; exact ⟨by decide, by decide, by decide, by decide⟩)
    (fun s hs => by cases hs; exact ⟨by decide, by decide, by decide, by decide⟩)
    (fun s hs => by cases hs; exact ⟨by decide, by decide, by decide, by decide⟩)
    (fun s hs => by cases hs; exact ⟨by decide, by decide, by decide, by decide⟩)
    (fun s hs => by cases hs)
    (fun s hs => by cases hs; exact ⟨by decide, by decide, by decide, by decide⟩)
    (fun s hs => by cases hs; exact ⟨by decide, by decide, by decide⟩)

/-! ## C14: the payment round trip -/

theorem formEncode_key :
    formEncode (utf16 "pa") = utf16 "pa" ∧ formEncode (utf16 "pn") = utf16 "pn"
      ∧ formEncode (utf16 "am") = utf16 "am" ∧ formEncode (utf16 "tn") = utf16 "tn"
      ∧ formEncode (utf16 "cu") = utf16 "cu" ∧ formEncode (utf16 "INR") = utf16 "INR" := by
  decide

/-- The text of `buildUPI`, parameter by parameter. -/
theorem buildUPI_eq (f : UPIFields) :
    buildUPI f = utf16 "upi://pay?" ++ (upiPart (utf16 "pa") f.pa ++ (upiPart (utf16 "pn") f.pn
      ++ (upiPart (utf16 "am") f.am ++ (upiPart (utf16 "tn") f.tn ++ utf16 "cu=INR")))) := by
  obtain ⟨k1, k2, k3, k4, k5, k6⟩ := formEncode_key
  have hopt : ∀ v : Option JSString, v = none ∨ (∃ s, v = some s ∧ strTruthy s = false)
      ∨ ∃ s, v = some s ∧ strTruthy s = true := by
    intro v
    cases v with
    | none => exact Or.inl rfl
    | some s =>
      cases h : strTruthy s
      · exact Or.inr (Or.inl ⟨s, rfl, h⟩)
      · exact Or.inr (Or.inr ⟨s, rfl, h⟩)
  have e1 : utf16 "pa" ≠ utf16 "pn" := by decide
  have e2 : utf16 "pa" ≠ utf16 "am" := by decide
  have e3 : utf16 "pa" ≠ utf16 "tn" := by decide
  have e4 : utf16 "pa" ≠ utf16 "cu" := by decide
  have e5 : utf16 "pn" ≠ utf16 "am" := by decide
  have e6 : utf16 "pn" ≠ utf16 "tn" := by decide
  have e7 : utf16 "pn" ≠ utf16 "cu" := by decide
  have e8 : utf16 "am" ≠ utf16 "tn" := by decide
  have e9 : utf16 "am" ≠ utf16 "cu" := by decide
  have e10 : utf16 "tn" ≠ utf16 "cu" := by decide
  have c1 : utf16 "cu=INR" = utf16 "cu" ++ (utf16 "=" ++ utf16 "INR") := by decide
  cases f with
  | mk pa pn am tn =>
    rcases hopt pa with h | ⟨s1, h, t1⟩ | ⟨s1, h, t1⟩ <;> subst h <;>
    rcases hopt pn with h | ⟨s2, h, t2⟩ | ⟨s2, h, t2⟩ <;> subst h <;>
    rcases hopt am with h | ⟨s3, h, t3⟩ | ⟨s3, h, t3⟩ <;> subst h <;>
    rcases hopt tn with h | ⟨s4, h, t4⟩ | ⟨s4, h, t4⟩ <;> subst h <;>
    simp [buildUPI, setIfTruthy, setEntry, serializeParams, joinWith, upiPart, k1, k2, k3, k4,
      k5, k6, e1, e2, e3, e4, e5, e6, e7, e8, e9, e10, c1, *]


theorem startsWith_cons_ne (x : Nat) (s q : JSString) (d : Nat) (h : x ≠ d) :
    startsWith (x :: s) (d :: q) = false := by
  rw [startsWith, Bool.and_eq_false_iff]
  exact Or.inl (by simpa using h)

/-- A code unit other than `w` starts no occurrence of `whatsapp`. -/
theorem includes_whatsapp_cons (x : Nat) (s : JSString) (h : x ≠ 119) :
    includes (x :: s) (utf16 "whatsapp") = includes s (utf16 "whatsapp") := by
  rw [includes, show utf16 "whatsapp" = 119 :: utf16 "hatsapp" by decide,
    startsWith_cons_ne x s _ 119 h, Bool.false_or]

theorem includes_whatsapp_skip (pre s : JSString) (h : 119 ∉ pre) :
    includes (pre ++ s) (utf16 "whatsapp") = includes s (utf16 "whatsapp") := by
  induction pre with
  | nil => rfl
  | cons x t ih =>
    rw [List.cons_append, includes_whatsapp_cons x _ (fun e => h (by simp [e]))]
    exact ih fun e => h (by simp [e])

theorem scalarValues_ascii (s : JSString) (h : ∀ c ∈ s, c < 128) : scalarValues s = s := by
  induction s with
  | nil => rfl
  | cons c t ih =>
    have hc : c < 128 := h c (by simp)
    have h1 : isHighSurrogate c = false := by
      simp only [isHighSurrogate, Bool.and_eq_false_iff, decide_eq_false_iff_not]
      omega
    have h2 : isLowSurrogate c = false := by
      simp only [isLowSurrogate, Bool.and_eq_false_iff, decide_eq_false_iff_not]
      omega
    have ht := ih fun x hx => h x (by simp [hx])
    cases t with
    | nil => simp [scalarValues, h1, h2]
    | cons d t2 =>
      rw [scalarValues]
      simp only [h1, h2, Bool.false_and, Bool.false_eq_true, if_false, Bool.or_self, ht]

theorem formEncode_ascii (s : JSString) (h : ∀ c ∈ s, c < 128) :
    formEncode s = s.flatMap formByte := by
  unfold formEncode
  rw [scalarValues_ascii s h]
  congr 1
  induction s with
  | nil => rfl
  | cons c t ih =>
    rw [List.flatMap_cons, ih fun x hx => h x (by simp [hx])]
    have hc : c < 128 := h c (by simp)
    simp [utf8Encode, hc]

theorem isPaymentUnit_lt (c : Nat) (h : isPaymentUnit c = true) : c < 128 := by
  simp only [isPaymentUnit, isAlphanumeric, Bool.or_eq_true, Bool.and_eq_true,
    decide_eq_true_eq, beq_iff_eq] at h
  omega

/-- The form of a payment unit in the query: itself, `+` for a space, `%40` for `@`. -/
theorem formByte_paymentUnit (c : Nat) (h : isPaymentUnit c = true) :
    (isAlphanumeric c = true ∧ formByte c = [c]) ∨ (c = 32 ∧ formByte c = [43])
      ∨ (c = 64 ∧ formByte c = [37, 52, 48]) := by
  cases ha : isAlphanumeric c with
  | true => exact Or.inl ⟨rfl, by simp [formByte, ha]⟩
  | false =>
    simp only [isPaymentUnit, ha, Bool.false_or, Bool.or_eq_true, beq_iff_eq] at h
    rcases h with h | h <;> subst h
    · exact Or.inr (Or.inl ⟨rfl, by decide⟩)
    · exact Or.inr (Or.inr ⟨rfl, by decide⟩)

/-- The form of a value, before a code unit that is no lower-case letter, begins with a
word of lower-case letters exactly when the value does. -/
theorem startsWith_form (q v rest : JSString) (hq : ∀ d ∈ q, 97 ≤ d ∧ d ≤ 122)
    (hv : ∀ c ∈ v, isPaymentUnit c = true)
    (hrest : ∀ r t, rest = r :: t → ¬ (97 ≤ r ∧ r ≤ 122)) :
    startsWith (v.flatMap formByte ++ rest) q = startsWith v q := by
  induction q generalizing v with
  | nil => simp [startsWith]
  | cons d q ih =>
    have hd := hq d (by simp)
    have hq2 : ∀ x ∈ q, 97 ≤ x ∧ x ≤ 122 := fun x hx => hq x (by simp [hx])
    cases v with
    | nil =>
      cases rest with
      | nil => rfl
      | cons r t =>
        have := hrest r t rfl
        rw [List.flatMap_nil, List.nil_append, startsWith_cons_ne r t q d (by omega)]
        rfl
    | cons c v2 =>
      have hv2 : ∀ x ∈ v2, isPaymentUnit x = true := fun x hx => hv x (by simp [hx])
      rw [List.flatMap_cons]
      rcases formByte_paymentUnit c (hv c (by simp)) with ⟨-, hf⟩ | ⟨hc, hf⟩ | ⟨hc, hf⟩
      · rw [hf, List.singleton_append, List.cons_append, startsWith, startsWith, ih v2 hq2 hv2]
      · rw [hf, List.singleton_append, List.cons_append, startsWith_cons_ne 43 _ q d (by omega),
          startsWith_cons_ne c v2 q d (by omega)]
      · simp only [hf, List.cons_append, List.nil_append]
        rw [startsWith_cons_ne 37 _ q d (by omega), startsWith_cons_ne c v2 q d (by omega)]

/-- The word `whatsapp` stands in the form of a value, before a code unit that is no
lower-case letter, exactly when it stands in the value. -/
theorem includes_whatsapp_form (v rest : JSString) (hv : ∀ c ∈ v, isPaymentUnit c = true)
    (hrest : ∀ r t, rest = r :: t → ¬ (97 ≤ r ∧ r ≤ 122)) :
    includes (v.flatMap formByte ++ rest) (utf16 "whatsapp")
      = (includes v (utf16 "whatsapp") || includes rest (utf16 "whatsapp")) := by
  induction v with
  | nil =>
    rw [List.flatMap_nil, List.nil_append, show includes [] (utf16 "whatsapp") = false by decide,
      Bool.false_or]
  | cons c v2 ih =>
    have hv2 : ∀ x ∈ v2, isPaymentUnit x = true := fun x hx => hv x (by simp [hx])
    have hst := startsWith_form (utf16 "whatsapp") (c :: v2) rest (by decide) hv hrest
    rw [List.flatMap_cons] at hst ⊢
    rcases formByte_paymentUnit c (hv c (by simp)) with ⟨-, hf⟩ | ⟨hc, hf⟩ | ⟨hc, hf⟩
    · rw [hf, List.singleton_append, List.cons_append] at hst ⊢
      rw [includes, includes, hst, ih hv2, Bool.or_assoc]
    · rw [hf, List.singleton_append, List.cons_append, includes_whatsapp_cons 43 _ (by omega),
        includes_whatsapp_cons c v2 (by omega), ih hv2]
    · simp only [hf, List.cons_append, List.nil_append]
      rw [includes_whatsapp_cons 37 _ (by omega), includes_whatsapp_cons 52 _ (by omega),
        includes_whatsapp_cons 48 _ (by omega), includes_whatsapp_cons c v2 (by omega), ih hv2]


theorem includes_whatsapp_part (key : JSString) (v : Option JSString) (rest : JSString)
    (hk : 119 ∉ key) (hv : ∀ s, v = some s → ∀ c ∈ s, isPaymentUnit c = true) :
    includes (upiPart key v ++ rest) (utf16 "whatsapp")
      = (includes (v.getD []) (utf16 "whatsapp") || includes rest (utf16 "whatsapp")) := by
  have hnil : includes [] (utf16 "whatsapp") = false := by decide
  cases v with
  | none => simp [upiPart, hnil]
  | some s =>
    cases ht : strTruthy s with
    | false =>
      have : s = [] := by
        cases s with
        | nil => rfl
        | cons c t => cases ht
      subst this
      simp [upiPart, hnil, strTruthy]
    | true =>
      have hs := hv s rfl
      simp only [upiPart, ht, if_true, Option.getD_some, List.append_assoc]
      rw [includes_whatsapp_skip key _ hk, includes_whatsapp_skip (utf16 "=") _ (by decide),
        formEncode_ascii s (fun c hc => isPaymentUnit_lt c (hs c hc)),
        includes_whatsapp_form s _ hs (by
          intro r t h
          rw [show utf16 "&" = [38] by decide, List.singleton_append] at h
          cases h
          omega),
        includes_whatsapp_skip (utf16 "&") _ (by decide)]

theorem not_mem_part (key : JSString) (v : Option JSString)
    (hk : 46 ∉ key) (hv : ∀ s, v = some s → ∀ c ∈ s, isPaymentUnit c = true) :
    46 ∉ upiPart key v := by
  cases v with
  | none => simp [upiPart]
  | some s =>
    have hs := hv s rfl
    unfold upiPart
    simp only
    split_ifs
    · rw [formEncode_ascii s (fun c hc => isPaymentUnit_lt c (hs c hc))]
      intro h
      simp only [List.mem_append, List.mem_flatMap] at h
      rcases h with ((h | h) | ⟨c, hc, h⟩) | h
      · exact hk h
      · revert h; decide
      · rcases formByte_paymentUnit c (hs c hc) with ⟨ha, hf⟩ | ⟨-, hf⟩ | ⟨-, hf⟩
        · rw [hf, List.mem_singleton] at h
          subst h
          revert ha
          decide
        · rw [hf] at h; revert h; decide
        · rw [hf] at h; revert h; decide
      · revert h; decide
    · simp

/-- The branch that answers the text of `buildUPI`: the WhatsApp branch when the text holds
`whatsapp` or `wa.me`, the payment branch otherwise. -/
theorem decodeQRData_buildUPI (P : Platform) (now : Int) (f : UPIFields) :
    decodeQRData P now (.string (buildUPI f))
      = .ok (some (if includes (buildUPI f) (utf16 "whatsapp") = true
            ∨ includes (buildUPI f) (utf16 "wa.me") = true
          then decodeWhatsApp P (buildUPI f) else decodePayment P (buildUPI f))) := by
  rw [buildUPI_eq]
  generalize upiPart (utf16 "pa") f.pa ++ (upiPart (utf16 "pn") f.pn
      ++ (upiPart (utf16 "am") f.am ++ (upiPart (utf16 "tn") f.tn ++ utf16 "cu=INR"))) = body
  rw [decodeQRData_plain P now _ (by simp +decide [utf16])
    (startsWith_append_of_differ _ _ _ (by decide))]
  unfold decodePlain
  have hm : matchesWifiIgnoreCase (utf16 "upi://pay?" ++ body) = false := rfl
  rw [startsWith_append_of_differ (utf16 "upi://pay?") (utf16 "WIFI:") body (by decide), hm,
    startsWith_append_of_differ (utf16 "upi://pay?") (utf16 "BEGIN:VCARD") body (by decide),
    startsWith_append_of_differ (utf16 "upi://pay?") (utf16 "https://api.whatsapp.com") body
      (by decide),
    startsWith_append_of_prefix (utf16 "upi://pay?") (utf16 "upi:") body (by decide)]
  simp only [Bool.or_false, Bool.false_eq_true, if_false, Bool.true_or, if_true,
    Bool.or_eq_true]


/-- C14 (counterexample): the payment address `whatsapp@upi`, letters and `@` only, is
built into `upi://pay?pa=whatsapp%40upi&cu=INR`, which `decodeQRData` classifies as
`whatsapp`, not as `payment`. -/
theorem upi_round_trip_counterexample :
    buildUPI ⟨some (utf16 "whatsapp@upi"), none, none, none⟩
        = utf16 "upi://pay?pa=whatsapp%40upi&cu=INR"
      ∧ decodeQRData asciiHost 0
          (.string (buildUPI ⟨some (utf16 "whatsapp@upi"), none, none, none⟩))
        = .ok (some
            { type := utf16 "whatsapp"
              content := utf16 "upi://pay?pa=whatsapp%40upi&cu=INR"
              action := utf16 "Open WhatsApp"
              phone := some []
              message := some []
              url := some (utf16 "upi://pay?pa=whatsapp%40upi&cu=INR") }) :=
  ⟨by decide, rfl⟩

/-- C14 (amended): for fields `pa`, `pn`, `am`, `tn` of letters, digits, spaces and `@`
only, `decodeQRData(buildUPI(..))` has type `payment` when no field holds the word
`whatsapp`, and type `whatsapp` when one of them does. -/
theorem upi_round_trip (P : Platform) (now : Int) (f : UPIFields)
    (h1 : ∀ s, f.pa = some s → ∀ c ∈ s, isPaymentUnit c = true)
    (h2 : ∀ s, f.pn = some s → ∀ c ∈ s, isPaymentUnit c = true)
    (h3 : ∀ s, f.am = some s → ∀ c ∈ s, isPaymentUnit c = true)
    (h4 : ∀ s, f.tn = some s → ∀ c ∈ s, isPaymentUnit c = true) :
    ∃ r, decodeQRData P now (.string (buildUPI f)) = .ok (some r)
      ∧ ((includes (f.pa.getD []) (utf16 "whatsapp") || includes (f.pn.getD []) (utf16 "whatsapp")
            || includes (f.am.getD []) (utf16 "whatsapp")
            || includes (f.tn.getD []) (utf16 "whatsapp")) = false →
          r.type = utf16 "payment")
      ∧ ((includes (f.pa.getD []) (utf16 "whatsapp") || includes (f.pn.getD []) (utf16 "whatsapp")
            || includes (f.am.getD []) (utf16 "whatsapp")
            || includes (f.tn.getD []) (utf16 "whatsapp")) = true →
          r.type = utf16 "whatsapp") := by
  have hw : includes (buildUPI f) (utf16 "whatsapp")
      = (includes (f.pa.getD []) (utf16 "whatsapp") || includes (f.pn.getD []) (utf16 "whatsapp")
          || includes (f.am.getD []) (utf16 "whatsapp")
          || includes (f.tn.getD []) (utf16 "whatsapp")) := by
    rw [buildUPI_eq, includes_whatsapp_skip (utf16 "upi://pay?") _ (by decide),
      includes_whatsapp_part _ _ _ (by decide) h1, includes_whatsapp_part _ _ _ (by decide) h2,
      includes_whatsapp_part _ _ _ (by decide) h3, includes_whatsapp_part _ _ _ (by decide) h4,
      show includes (utf16 "cu=INR") (utf16 "whatsapp") = false by decide]
    simp only [Bool.or_false, Bool.or_assoc]
  have hd : includes (buildUPI f) (utf16 "wa.me") = false := by
    refine includes_of_not_mem _ _ 46 (by decide) ?_
    rw [buildUPI_eq]
    have p1 := not_mem_part (utf16 "pa") f.pa (by decide) h1
    have p2 := not_mem_part (utf16 "pn") f.pn (by decide) h2
    have p3 := not_mem_part (utf16 "am") f.am (by decide) h3
    have p4 := not_mem_part (utf16 "tn") f.tn (by decide) h4
    have p0 : (46 : Nat) ∉ utf16 "upi://pay?" := by decide
    have p5 : (46 : Nat) ∉ utf16 "cu=INR" := by decide
    simp only [List.mem_append, not_or]
    exact ⟨p0, p1, p2, p3, p4, p5⟩
  refine ⟨_, decodeQRData_buildUPI P now f, ?_, ?_⟩
  · intro h
    rw [hw, hd, h]
    simp only [Bool.false_eq_true, or_self, if_false]
    exact decodePayment_type P _
  · intro h
    rw [hw, h]
    simp only [true_or, if_true]
    exact decodeWhatsApp_type P _

/-- C14 (amended) on the example of the specification, `pa` = `a@bank` and `am` = `10`,
with the name `A b`, and on the address `whatsapp@upi`. -/
theorem upi_round_trip_witness :
    (∃ r, decodeQRData asciiHost 0 (.string (buildUPI
          ⟨some (utf16 "a@bank"), some (utf16 "A b"), some (utf16 "10"), none⟩)) = .ok (some r)
        ∧ r.type = utf16 "payment")
      ∧ ∃ r, decodeQRData asciiHost 0 (.string (buildUPI
          ⟨some (utf16 "whatsapp@upi"), none, none, none⟩)) = .ok (some r)
        ∧ r.type = utf16 "whatsapp" := by
  constructor
  · obtain ⟨r, h, hp, -⟩ := upi_round_trip asciiHost 0
      ⟨some (utf16 "a@bank"), some (utf16 "A b"), some (utf16 "10"), none⟩
      (fun s hs => by cases hs; decide) (fun s hs => by cases hs; decide)
      (fun s hs => by cases hs; decide) (fun s hs => by cases hs)
    exact ⟨r, h, hp (by decide)⟩
  · obtain ⟨r, h, -, hw⟩ := upi_round_trip asciiHost 0
      ⟨some (utf16 "whatsapp@upi"), none, none, none⟩
      (fun s hs => by cases hs; decide) (fun s hs => by cases hs)
      (fun s hs => by cases hs) (fun s hs => by cases hs)
    exact ⟨r, h, hw (by decide)⟩

/-! ## C17: the WhatsApp round trip -/

/-- The text of `buildWhatsApp` begins with the address of the send page. -/
theorem buildWhatsApp_head (f : WhatsAppFields) (t : JSString) (h : buildWhatsApp f = .ok t) :
    ∃ rest, t = utf16 "https://api.whatsapp.com/send?phone=" ++ rest := by
  unfold buildWhatsApp at h
  simp only at h
  split at h
  · cases h
  · split at h
    · cases h
    · split_ifs at h
      · cases h
        exact ⟨_, List.append_assoc _ _ _ |>.trans (List.append_assoc _ _ _)⟩
      · cases h
        exact ⟨_, rfl⟩

/-- The WhatsApp branch answers every text that begins with the address of the send
page. -/
theorem decodeQRData_sendPage (P : Platform) (now : Int) (rest : JSString) :
    decodeQRData P now (.string (utf16 "https://api.whatsapp.com/send?phone=" ++ rest))
      = .ok (some (decodeWhatsApp P (utf16 "https://api.whatsapp.com/send?phone=" ++ rest))) := by
  rw [decodeQRData_plain P now _ (by simp +decide [utf16])
    (startsWith_append_of_differ _ _ _ (by decide))]
  unfold decodePlain
  have hm : matchesWifiIgnoreCase (utf16 "https://api.whatsapp.com/send?phone=" ++ rest) = false :=
    rfl
  have hi : includes (utf16 "https://api.whatsapp.com/send?phone=" ++ rest) (utf16 "whatsapp")
      = true :=
    includes_of_eq (utf16 "https://api.") (utf16 ".com/send?phone=" ++ rest) (by
      rw [show utf16 "https://api.whatsapp.com/send?phone="
        = utf16 "https://api." ++ utf16 "whatsapp" ++ utf16 ".com/send?phone=" by decide]
      simp only [List.append_assoc])
  rw [startsWith_append_of_differ _ (utf16 "WIFI:") rest (by decide), hm,
    startsWith_append_of_differ _ (utf16 "BEGIN:VCARD") rest (by decide), hi]
  rfl

/-- C17 (the code): when the URL parser hands the message of `buildWhatsApp` back as the
value of `text`, decoded once, `decodeQRData` passes it through `decodeURIComponent` a
second time: the `message` of the result is the outcome of that second call, and when the
call throws, the result of type `whatsapp` has neither a `message` nor a `phone`. -/
theorem decodeQRData_whatsapp_twice (P : Platform) (now : Int) (f : WhatsAppFields)
    (t message : JSString) (u : URLRecord) (hb : buildWhatsApp f = .ok t)
    (hu : P.parseURL t = some u)
    (hm : searchGet (utf16 "text") u.searchParams = some message) (hne : message ≠ []) :
    ∃ r, decodeQRData P now (.string t) = .ok (some r) ∧ r.type = utf16 "whatsapp"
      ∧ r.message = P.decodeURIComponent message
      ∧ (P.decodeURIComponent message = none → r.phone = none) := by
  obtain ⟨rest, hr⟩ := buildWhatsApp_head f t hb
  have hd := decodeQRData_sendPage P now rest
  rw [← hr] at hd
  refine ⟨_, hd, decodeWhatsApp_type P t, ?_⟩
  unfold decodeWhatsApp
  simp only [hu, hm, jsOr_some message _ hne, Option.getD_some]
  cases hdec : P.decodeURIComponent message with
  | none => exact ⟨rfl, fun _ => rfl⟩
  | some m => exact ⟨rfl, fun h => by cases h⟩

set_option maxRecDepth 100000 in
/-- C17 on the sample host: the message `50% off` comes back as no message and no phone,
the message `%41` comes back as `A`. -/
theorem decodeQRData_whatsapp_twice_witness :
    (buildWhatsApp ⟨some (utf16 "+1 234"), some (utf16 "50% off")⟩
        = .ok (utf16 "https://api.whatsapp.com/send?phone=1234&text=50%25%20off")
      ∧ ∃ r, decodeQRData asciiHost 0
          (.string (utf16 "https://api.whatsapp.com/send?phone=1234&text=50%25%20off"))
          = .ok (some r)
        ∧ r.type = utf16 "whatsapp" ∧ r.message = none ∧ r.phone = none)
    ∧ (buildWhatsApp ⟨some (utf16 "+1 234"), some (utf16 "%41")⟩
        = .ok (utf16 "https://api.whatsapp.com/send?phone=1234&text=%2541")
      ∧ ∃ r, decodeQRData asciiHost 0
          (.string (utf16 "https://api.whatsapp.com/send?phone=1234&text=%2541"))
          = .ok (some r)
        ∧ r.type = utf16 "whatsapp" ∧ r.message = some (utf16 "A")
        ∧ r.phone = some (utf16 "1234")) := by
  constructor
  · obtain ⟨r, h, ht, hm, hp⟩ := decodeQRData_whatsapp_twice asciiHost 0
      ⟨some (utf16 "+1 234"), some (utf16 "50% off")⟩
      (utf16 "https://api.whatsapp.com/send?phone=1234&text=50%25%20off") (utf16 "50% off")
      ⟨utf16 "api.whatsapp.com", utf16 "/send",
        [(utf16 "phone", utf16 "1234"), (utf16 "text", utf16 "50% off")]⟩
      rfl (by decide) (by decide) (by decide)
    have hn : asciiHost.decodeURIComponent (utf16 "50% off") = none := by decide
    exact ⟨rfl, r, h, ht, hm.trans hn, hp hn⟩
  · obtain ⟨r, h, ht, hm, -⟩ := decodeQRData_whatsapp_twice asciiHost 0
      ⟨some (utf16 "+1 234"), some (utf16 "%41")⟩
      (utf16 "https://api.whatsapp.com/send?phone=1234&text=%2541") (utf16 "%41")
      ⟨utf16 "api.whatsapp.com", utf16 "/send",
        [(utf16 "phone", utf16 "1234"), (utf16 "text", utf16 "%41")]⟩
      rfl (by decide) (by decide) (by decide)
    have hn : asciiHost.decodeURIComponent (utf16 "%41") = some (utf16 "A") := by decide
    have h0 : decodeQRData asciiHost 0
        (.string (utf16 "https://api.whatsapp.com/send?phone=1234&text=%2541"))
        = .ok (some
            { type := utf16 "whatsapp"
              content := utf16 "https://api.whatsapp.com/send?phone=1234&text=%2541"
              action := utf16 "Open WhatsApp"
              phone := some (utf16 "1234")
              message := some (utf16 "A")
              url := some (utf16 "https://api.whatsapp.com/send?phone=1234&text=%2541") }) :=
      rfl
    rw [h0] at h
    cases h
    exact ⟨rfl, _, h0, rfl, rfl, rfl⟩

/-! ## C21: the escape of backslashes and semicolons -/

theorem replaceAllUnit_cons (c : Nat) (r : JSString) (x : Nat) (s : JSString) :
    replaceAllUnit c r (x :: s) = (if x = c then r else [x]) ++ replaceAllUnit c r s := by
  simp [replaceAllUnit]

theorem replaceAllUnit_append (c : Nat) (r a b : JSString) :
    replaceAllUnit c r (a ++ b) = replaceAllUnit c r a ++ replaceAllUnit c r b := by
  simp [replaceAllUnit]

/-- The two global replacements of `escapeSemicolons`, in their order, are the single
pass. -/
theorem replace_twice (s : JSString) :
    replaceAllUnit 59 (utf16 "\\;") (replaceAllUnit 92 (utf16 "\\\\") s) = escapeSinglePass s := by
  induction s with
  | nil => rfl
  | cons x t ih =>
    rw [replaceAllUnit_cons, replaceAllUnit_append, ih]
    unfold escapeSinglePass
    rw [List.flatMap_cons]
    congr 1
    by_cases h1 : x = 92
    · subst h1; decide
    · by_cases h2 : x = 59
      · subst h2; decide
      · simp [h1, h2, replaceAllUnit]

theorem escapeSinglePass_length (s : JSString) :
    (escapeSinglePass s).length = s.length + s.count 92 + s.count 59 := by
  induction s with
  | nil => rfl
  | cons x t ih =>
    unfold escapeSinglePass at ih ⊢
    rw [List.flatMap_cons, List.length_append, ih, List.count_cons, List.count_cons]
    by_cases h1 : x = 92
    · subst h1; simp; omega
    · by_cases h2 : x = 59
      · subst h2; simp; omega
      · simp [h1, h2]; omega

/-- C21: on a non-empty string, `escapeSemicolons` (backslashes first, then semicolons) is
the single pass that writes `\\` for a backslash, `\;` for a semicolon and every other code
unit as it is, so the result is as long as the string plus one for each backslash and
semicolon; on an absent or empty string it is the empty string. -/
theorem escapeSemicolons_spec (s : JSString) :
    (s ≠ [] → escapeSemicolons (some s) = escapeSinglePass s
        ∧ (escapeSemicolons (some s)).length = s.length + s.count 92 + s.count 59)
      ∧ escapeSemicolons none = [] ∧ escapeSemicolons (some []) = [] := by
  refine ⟨fun hne => ?_, rfl, rfl⟩
  have h : escapeSemicolons (some s) = escapeSinglePass s := by
    cases s with
    | nil => exact absurd rfl hne
    | cons c t =>
      simp only [escapeSemicolons, strTruthy, List.isEmpty_cons, Bool.not_false, Bool.not_true,
        Bool.false_eq_true, if_false]
      exact replace_twice _
  exact ⟨h, by rw [h, escapeSinglePass_length]⟩

/-- C21 on a text with a backslash and a semicolon: the backslash written for the
semicolon is not doubled. -/
theorem escapeSemicolons_spec_witness :
    escapeSemicolons (some (utf16 "a;b\\c")) = utf16 "a\\;b\\\\c"
      ∧ (escapeSemicolons (some (utf16 "a;b\\c"))).length = 5 + 1 + 1 := by
  have h := (escapeSemicolons_spec (utf16 "a;b\\c")).1 (by decide)
  exact ⟨h.1.trans (by decide), h.2.trans (by decide)⟩

/-! ## C22: the normal form of a phone number -/

/-- C22: on a non-empty string, `normalizePhone` returns one `+` when the trimmed string
begins with `+`, and nothing otherwise, followed by the ASCII digits of the string in their
order, so the result is an optional `+` before digits only; an absent argument and the
empty string are returned as they are. -/
theorem normalizePhone_spec (phone : JSString) :
    (phone ≠ [] →
        normalizePhone (some phone)
          = some ((if startsWith (trim phone) (utf16 "+") = true then utf16 "+" else [])
              ++ phone.filter isDigit)
        ∧ ∃ plus digits, normalizePhone (some phone) = some (plus ++ digits)
            ∧ (plus = [] ∨ plus = utf16 "+") ∧ digits.all isDigit = true)
      ∧ normalizePhone none = none ∧ normalizePhone (some []) = some [] := by
  refine ⟨fun hne => ?_, rfl, rfl⟩
  have h : normalizePhone (some phone)
      = some ((if startsWith (trim phone) (utf16 "+") = true then utf16 "+" else [])
          ++ phone.filter isDigit) := by
    cases phone with
    | nil => exact absurd rfl hne
    | cons c t => rfl
  refine ⟨h, _, _, h, ?_, ?_⟩
  · split_ifs
    · exact Or.inr rfl
    · exact Or.inl rfl
  · rw [List.all_eq_true]
    intro x hx
    exact (List.mem_filter.1 hx).2

/-- C22 on a number written with spaces, brackets and a hyphen, and on one without a
leading `+`. -/
theorem normalizePhone_spec_witness :
    normalizePhone (some (utf16 " +1 (555) 010-9999")) = some (utf16 "+15550109999")
      ∧ normalizePhone (some (utf16 "1+2")) = some (utf16 "12") :=
  ⟨((normalizePhone_spec (utf16 " +1 (555) 010-9999")).1 (by decide)).1.trans (by decide),
    ((normalizePhone_spec (utf16 "1+2")).1 (by decide)).1.trans (by decide)⟩

/-! ## C23: the text of a payment -/

/-- C23: `buildUPI` returns `upi://pay?` and then, joined by `&`, one parameter
`name=value` for each of `pa`, `pn`, `am`, `tn` whose value is non-empty, in that order, and
last `cu=INR`; each value is written in the form-urlencoded escape of `URLSearchParams`
(letters, digits, `*`, `-`, `.` and `_` as they are, a space as `+`, any other byte of the
UTF-8 text as `%XX`). -/
theorem buildUPI_spec (f : UPIFields) :
    buildUPI f = utf16 "upi://pay?" ++ joinWith (utf16 "&")
      (([(utf16 "pa", f.pa), (utf16 "pn", f.pn), (utf16 "am", f.am), (utf16 "tn", f.tn)].filterMap
          fun kv => (kv.2.filter strTruthy).map fun s => kv.1 ++ utf16 "=" ++ formEncode s)
        ++ [utf16 "cu=INR"]) := by
  have hopt : ∀ v : Option JSString, v = none ∨ (∃ s, v = some s ∧ strTruthy s = false)
      ∨ ∃ s, v = some s ∧ strTruthy s = true := by
    intro v
    cases v with
    | none => exact Or.inl rfl
    | some s =>
      cases h : strTruthy s
      · exact Or.inr (Or.inl ⟨s, rfl, h⟩)
      · exact Or.inr (Or.inr ⟨s, rfl, h⟩)
  rw [buildUPI_eq]
  congr 1
  cases f with
  | mk pa pn am tn =>
    rcases hopt pa with h | ⟨s1, h, t1⟩ | ⟨s1, h, t1⟩ <;> subst h <;>
    rcases hopt pn with h | ⟨s2, h, t2⟩ | ⟨s2, h, t2⟩ <;> subst h <;>
    rcases hopt am with h | ⟨s3, h, t3⟩ | ⟨s3, h, t3⟩ <;> subst h <;>
    rcases hopt tn with h | ⟨s4, h, t4⟩ | ⟨s4, h, t4⟩ <;> subst h <;>
    simp [upiPart, joinWith, Option.filter, *]

/-- C23 on the example of the specification: the parameters are `pa`, `am` and `cu`, in
this order. -/
theorem buildUPI_spec_witness :
    buildUPI ⟨some (utf16 "a@bank"), none, some (utf16 "10"), none⟩
      = utf16 "upi://pay?pa=a%40bank&am=10&cu=INR" :=
  (buildUPI_spec ⟨some (utf16 "a@bank"), none, some (utf16 "10"), none⟩).trans (by decide)

/-! ## C24: the lines of a contact card -/

theorem splitOnUnit_joinWith (sep : Nat) (lines : List JSString) (hne : lines ≠ [])
    (h : ∀ l ∈ lines, sep ∉ l) : splitOnUnit sep (joinWith [sep] lines) = lines := by
  induction lines with
  | nil => exact absurd rfl hne
  | cons l rest ih =>
    cases rest with
    | nil =>
      rw [joinWith]
      exact splitOnUnit_of_not_mem sep l (h l (by simp))
    | cons m rest2 =>
      rw [joinWith, List.append_assoc, List.singleton_append,
        splitOnUnit_append sep l _ (h l (by simp)),
        ih (by simp) (fun x hx => h x (by simp [hx]))]

theorem not_mem_replaceAllUnit (c : Nat) (r s : JSString) (hr : c ∉ r) :
    c ∉ replaceAllUnit c r s := by
  unfold replaceAllUnit
  intro h
  obtain ⟨x, -, hx⟩ := List.mem_flatMap.1 h
  split_ifs at hx with hc
  · exact hr hx
  · rw [List.mem_singleton] at hx
    exact hc hx.symm

theorem pushIfTruthy_eq (before after : JSString) (v : Option JSString) :
    pushIfTruthy before after v
      = ((v.filter strTruthy).map fun s =>
          before ++ replaceAllUnit 10 (utf16 "\\n") s ++ after).toList := by
  cases v with
  | none => rfl
  | some s =>
    cases ht : strTruthy s <;> simp [pushIfTruthy, escapeVCard, Option.filter, ht]

theorem pushIfTruthy_length (before after : JSString) (v : Option JSString) :
    (pushIfTruthy before after v).length = if strTruthy (v.getD []) = true then 1 else 0 := by
  cases v with
  | none => rfl
  | some s =>
    cases ht : strTruthy s <;> simp [pushIfTruthy, ht]

theorem pushIfTruthy_no_lf (before after : JSString) (v : Option JSString)
    (hb : 10 ∉ before) (ha : 10 ∉ after) : ∀ l ∈ pushIfTruthy before after v, 10 ∉ l := by
  intro l hl
  rw [pushIfTruthy_eq] at hl
  cases hf : v.filter strTruthy with
  | none => rw [hf] at hl; cases hl
  | some s =>
    rw [hf] at hl
    simp only [Option.map_some', Option.toList_some, List.mem_singleton] at hl
    subst hl
    have := not_mem_replaceAllUnit 10 (utf16 "\\n") s (by decide)
    simp [hb, ha, this]

theorem vcardLines_no_lf (f : VCardFields) : ∀ l ∈ vcardLines f, 10 ∉ l := by
  intro l hl
  unfold vcardLines at hl
  simp only [List.mem_append, List.mem_cons, List.mem_singleton, List.not_mem_nil,
    or_false] at hl
  rcases hl with (((((((hl | hl) | hl) | hl) | hl) | hl) | hl) | hl) | hl
  · rcases hl with hl | hl <;> subst hl <;> decide
  · exact pushIfTruthy_no_lf _ _ _ (by decide) (by decide) l hl
  · exact pushIfTruthy_no_lf _ _ _ (by decide) (by decide) l hl
  · exact pushIfTruthy_no_lf _ _ _ (by decide) (by decide) l hl
  · exact pushIfTruthy_no_lf _ _ _ (by decide) (by decide) l hl
  · exact pushIfTruthy_no_lf _ _ _ (by decide) (by decide) l hl
  · exact pushIfTruthy_no_lf _ _ _ (by decide) (by decide) l hl
  · exact pushIfTruthy_no_lf _ _ _ (by decide) (by decide) l hl
  · subst hl; decide

theorem filterMap_cons_toList {α β : Type} (g : α → Option β) (x : α) (l : List α) :
    (x :: l).filterMap g = (g x).toList ++ l.filterMap g := by
  rw [List.filterMap_cons]
  cases g x <;> rfl

/-- C24: the text of `buildVCard`, split at the line feeds, is `BEGIN:VCARD`, `VERSION:3.0`,
then one line for each non-empty field in the order FN, ORG, TITLE, TEL;TYPE=CELL, EMAIL,
ADR, URL (the address between `ADR:;;` and `;;;;`), each value with every line feed
replaced by a backslash and `n` and otherwise as given, then `END:VCARD`: three lines and
one more for each non-empty field. -/
theorem buildVCard_spec (f : VCardFields) :
    splitOnUnit 10 (buildVCard f)
        = [utf16 "BEGIN:VCARD", utf16 "VERSION:3.0"]
          ++ ([(utf16 "FN:", f.fullName, []), (utf16 "ORG:", f.org, []),
                (utf16 "TITLE:", f.title, []), (utf16 "TEL;TYPE=CELL:", f.phone, []),
                (utf16 "EMAIL:", f.email, []), (utf16 "ADR:;;", f.address, utf16 ";;;;"),
                (utf16 "URL:", f.website, [])].filterMap
              fun t => (t.2.1.filter strTruthy).map fun s =>
                t.1 ++ replaceAllUnit 10 (utf16 "\\n") s ++ t.2.2)
          ++ [utf16 "END:VCARD"]
      ∧ (splitOnUnit 10 (buildVCard f)).length
        = 3 + List.countP (fun v : Option JSString => strTruthy (v.getD []))
            [f.fullName, f.org, f.title, f.phone, f.email, f.address, f.website] := by
  have hs : splitOnUnit 10 (buildVCard f) = vcardLines f := by
    unfold buildVCard
    rw [show utf16 "\n" = [10] by decide]
    exact splitOnUnit_joinWith 10 _ (by simp [vcardLines]) (vcardLines_no_lf f)
  rw [hs]
  constructor
  · unfold vcardLines
    simp only [pushIfTruthy_eq, filterMap_cons_toList, List.filterMap_nil, List.append_nil,
      List.append_assoc]
  · unfold vcardLines
    simp only [List.length_append, pushIfTruthy_length, List.length_cons, List.length_nil,
      List.countP_cons, List.countP_nil]
    omega

/-- C24 on a card with a name of two lines and a phone: five lines, the line feed of the
name written as a backslash and `n`, the phone as given. -/
theorem buildVCard_spec_witness :
    splitOnUnit 10 (buildVCard ⟨some (utf16 "Ann\nLee"), some (utf16 "+1 (555) 0100"),
        some [], none, none, none, none⟩)
      = [utf16 "BEGIN:VCARD", utf16 "VERSION:3.0", utf16 "FN:Ann\\nLee",
          utf16 "TEL;TYPE=CELL:+1 (555) 0100", utf16 "END:VCARD"] :=
  (buildVCard_spec ⟨some (utf16 "Ann\nLee"), some (utf16 "+1 (555) 0100"),
    some [], none, none, none, none⟩).1.trans (by decide)

/-! ## C30: the content of a result -/

theorem decodeWhatsApp_content (P : Platform) (s : JSString) :
    (decodeWhatsApp P s).content = s := by
  unfold decodeWhatsApp
  simp only
  split
  · rfl
  · split <;> rfl

theorem decodePayment_content (P : Platform) (s : JSString) :
    (decodePayment P s).content = s := by
  unfold decodePayment
  simp only
  split <;> rfl

theorem decodeURL_content (P : Platform) (s : JSString) (u : URLRecord) :
    (decodeURL P s u).content = s := by
  have hplain : ∀ o : Option (JSString × JSString),
      (match o with
        | some social =>
          ({ type := utf16 "social"
             content := s
             action := utf16 "Open Social"
             platform := some social.2
             url := some s } : DecodedResult)
        | none =>
          { type := utf16 "url"
            content := s
            action := utf16 "Open URL"
            url := some s }).content = s := by
    intro o
    cases o <;> rfl
  unfold decodeURL
  simp only
  split_ifs
  · split
    · rfl
    · rfl
  · split
    · rfl
    · exact hplain _
  · rfl
  · exact hplain _

/-- The content of a plain classification is the text itself. -/
theorem decodePlain_content (P : Platform) (s : JSString) : (decodePlain P s).content = s := by
  unfold decodePlain
  split_ifs
  · rfl
  · rfl
  · exact decodeWhatsApp_content P s
  · exact decodePayment_content P s
  · rfl
  · split
    · exact decodeURL_content P s _
    · rfl
  · split
    · exact decodeURL_content P s _
    · rfl
  · split
    · exact decodeURL_content P s _
    · rfl

/-- C30: for every non-empty text that does not begin with `SMQR:`, `decodeQRData` returns
a result whose `content` is the text itself, whichever branch answers, the fallback results
of the WhatsApp and payment branches included. -/
theorem decodeQRData_content (P : Platform) (now : Int) (text : JSString) (hne : text ≠ [])
    (hs : startsWith text (utf16 "SMQR:") = false) :
    ∃ r, decodeQRData P now (.string text) = .ok (some r) ∧ r.content = text :=
  ⟨_, decodeQRData_plain P now text hne hs, decodePlain_content P text⟩

set_option maxRecDepth 100000 in
/-- C30 on a WiFi text and on a link whose `text` parameter makes the WhatsApp branch fall
back. -/
theorem decodeQRData_content_witness :
    (∃ r, decodeQRData asciiHost 0 (.string (utf16 "WIFI:T:WPA;S:MyNet;P:p@ss;;")) = .ok (some r)
        ∧ r.content = utf16 "WIFI:T:WPA;S:MyNet;P:p@ss;;")
      ∧ ∃ r, decodeQRData asciiHost 0 (.string (utf16 "https://wa.me/123?text=50%25")) = .ok (some r)
        ∧ r.content = utf16 "https://wa.me/123?text=50%25" :=
  ⟨decodeQRData_content asciiHost 0 (utf16 "WIFI:T:WPA;S:MyNet;P:p@ss;;") (by decide) (by decide),
    decodeQRData_content asciiHost 0 (utf16 "https://wa.me/123?text=50%25") (by decide)
      (by decide)⟩

/-! ## The generic URL branch and the branches behind it -/

theorem decodePlain_url (P : Platform) (s : JSString) (u : URLRecord)
    (hb : beforeURL s = false) (hu : P.parseURL s = some u) :
    decodePlain P s = decodeURL P s u := by
  simp only [beforeURL, Bool.or_eq_false_iff] at hb
  obtain ⟨⟨⟨⟨⟨h1, h2⟩, h3⟩, ⟨h4, h5⟩, h6⟩, ⟨h7, h8⟩, h9⟩, ⟨⟨h10, h11⟩, h12⟩, h13⟩ := hb
  unfold decodePlain
  simp only [h1, h2, h3, h4, h5, h6, h7, h8, h9, h10, h11, h12, h13, hu, Bool.or_self,
    Bool.false_eq_true, if_false]

/-- C25: a non-empty text that none of the branches 1 to 9 takes (it does not begin with
`SMQR:`, no test of the WiFi, vCard, WhatsApp, payment and maps branches holds, `new URL`
throws on it, and it begins with neither `mailto:` nor `tel:`) is returned as a result of
type `text` whose content is the text itself. -/
theorem decodeQRData_text (P : Platform) (now : Int) (text : JSString) (hne : text ≠ [])
    (hs : startsWith text (utf16 "SMQR:") = false) (hb : beforeURL text = false)
    (hu : P.parseURL text = none) (hm : startsWith text (utf16 "mailto:") = false)
    (ht : startsWith text (utf16 "tel:") = false) :
    decodeQRData P now (.string text)
      = .ok (some { type := utf16 "text", content := text, action := utf16 "Text Content" }) := by
  rw [decodeQRData_plain P now text hne hs]
  simp only [beforeURL, Bool.or_eq_false_iff] at hb
  obtain ⟨⟨⟨⟨⟨h1, h2⟩, h3⟩, ⟨h4, h5⟩, h6⟩, ⟨h7, h8⟩, h9⟩, ⟨⟨h10, h11⟩, h12⟩, h13⟩ := hb
  unfold decodePlain
  simp only [h1, h2, h3, h4, h5, h6, h7, h8, h9, h10, h11, h12, h13, hu, hm, ht, Bool.or_self,
    Bool.false_eq_true, if_false]

/-- C25 on the example of the specification. -/
theorem decodeQRData_text_witness :
    decodeQRData asciiHost 0 (.string (utf16 "not a known format xyz"))
      = .ok (some
          { type := utf16 "text"
            content := utf16 "not a known format xyz"
            action := utf16 "Text Content" }) :=
  decodeQRData_text asciiHost 0 (utf16 "not a known format xyz") (by decide) (by decide)
    (by decide) (by decide) (by decide) (by decide)

/-! ## C26: a YouTube address without a video id -/

/-- The test of one row of `socialPlatforms` on a host. -/
theorem find_social (host : JSString)
    (hy : includes host (utf16 "youtube.com") = true ∨ includes host (utf16 "youtu.be") = true) :
    ∃ social, socialPlatforms.find?
        (fun social => includes host social.1 || endsWith host social.1) = some social
      ∧ ((includes host (utf16 "instagram.com") = false ∧ includes host (utf16 "facebook.com") = false
          ∧ includes host (utf16 "linkedin.com") = false ∧ includes host (utf16 "t.me") = false
          ∧ includes host (utf16 "telegram.me") = false) → social.2 = utf16 "youtube") := by
  cases hf : socialPlatforms.find? (fun social => includes host social.1 || endsWith host social.1) with
  | none =>
    rw [List.find?_eq_none] at hf
    rcases hy with hy | hy
    · have := hf (utf16 "youtube.com", utf16 "youtube") (by simp [socialPlatforms])
      simp [hy] at this
    · have := hf (utf16 "youtu.be", utf16 "youtube") (by simp [socialPlatforms])
      simp [hy] at this
  | some social =>
    refine ⟨social, rfl, ?_⟩
    rintro ⟨h1, h2, h3, h4, h5⟩
    have hmem := List.mem_of_find?_eq_some hf
    have hp := List.find?_some hf
    simp only [socialPlatforms, List.mem_cons, List.mem_singleton, List.not_mem_nil,
      or_false] at hmem
    have hend : ∀ d : JSString, includes host d = false → d ≠ [] → endsWith host d = false := by
      intro d hd hne
      cases he : endsWith host d with
      | false => rfl
      | true =>
        exfalso
        unfold endsWith at he
        obtain ⟨t, ht⟩ := (startsWith_spec _ _).1 he
        have : host = t.reverse ++ d := by
          have := congrArg List.reverse ht
          simpa using this.symm
        rw [includes_of_eq t.reverse [] (by simpa using this)] at hd
        cases hd
    rcases hmem with h | h | h | h | h | h | h <;> subst h
    · simp [h1, hend _ h1 (by decide)] at hp
    · simp [h2, hend _ h2 (by decide)] at hp
    · simp [h3, hend _ h3 (by decide)] at hp
    · simp [h4, hend _ h4 (by decide)] at hp
    · simp [h5, hend _ h5 (by decide)] at hp
    · rfl
    · rfl

/-- C26 (counterexample): the address `https://youtube.com/@somechannel` of a channel, a
YouTube host without a video id, is classified as `social` with the platform `youtube`, not
as `url`. -/
theorem decodeQRData_channel_counterexample :
    decodeQRData asciiHost 0 (.string (utf16 "https://youtube.com/@somechannel"))
      = .ok (some
          { type := utf16 "social"
            content := utf16 "https://youtube.com/@somechannel"
            action := utf16 "Open Social"
            platform := some (utf16 "youtube")
            url := some (utf16 "https://youtube.com/@somechannel") }) :=
  rfl

/-- C26 (amended): a text that reaches the generic URL branch, parses as a URL whose host
holds `youtube.com` or `youtu.be`, and has no video id, is never classified as `url`: the
type is `portfolio` when the host holds `portfolio`, `personal`, `cv` or `resume`, and
otherwise `social`, by the rows of the table for the two YouTube domains, with the platform
`youtube` unless the host also holds a domain of an earlier row. -/
theorem decodeQRData_channel (P : Platform) (now : Int) (text : JSString) (u : URLRecord)
    (hne : text ≠ []) (hs : startsWith text (utf16 "SMQR:") = false)
    (hb : beforeURL text = false) (hu : P.parseURL text = some u)
    (hy : includes (P.toLowerCase u.hostname) (utf16 "youtube.com") = true
      ∨ includes (P.toLowerCase u.hostname) (utf16 "youtu.be") = true)
    (hx : extractYouTubeVideoId text = none) :
    ∃ r, decodeQRData P now (.string text) = .ok (some r) ∧ r.type ≠ utf16 "url"
      ∧ ((includes (P.toLowerCase u.hostname) (utf16 "portfolio")
            || includes (P.toLowerCase u.hostname) (utf16 "personal")
            || includes (P.toLowerCase u.hostname) (utf16 "cv")
            || includes (P.toLowerCase u.hostname) (utf16 "resume")) = true →
          r.type = utf16 "portfolio")
      ∧ ((includes (P.toLowerCase u.hostname) (utf16 "portfolio")
            || includes (P.toLowerCase u.hostname) (utf16 "personal")
            || includes (P.toLowerCase u.hostname) (utf16 "cv")
            || includes (P.toLowerCase u.hostname) (utf16 "resume")) = false →
          r.type = utf16 "social"
          ∧ ((includes (P.toLowerCase u.hostname) (utf16 "instagram.com") = false
              ∧ includes (P.toLowerCase u.hostname) (utf16 "facebook.com") = false
              ∧ includes (P.toLowerCase u.hostname) (utf16 "linkedin.com") = false
              ∧ includes (P.toLowerCase u.hostname) (utf16 "t.me") = false
              ∧ includes (P.toLowerCase u.hostname) (utf16 "telegram.me") = false) →
            r.platform = some (utf16 "youtube"))) := by
  have hcond : (includes (P.toLowerCase u.hostname) (utf16 "youtube.com")
      || includes (P.toLowerCase u.hostname) (utf16 "youtu.be")) = true := by
    rcases hy with h | h <;> simp [h]
  obtain ⟨social, hf, hplat⟩ := find_social (P.toLowerCase u.hostname) hy
  have hq : decodeQRData P now (.string text) = .ok (some (decodeURL P text u)) := by
    rw [decodeQRData_plain P now text hne hs, decodePlain_url P text u hb hu]
  cases hw : (includes (P.toLowerCase u.hostname) (utf16 "portfolio")
      || includes (P.toLowerCase u.hostname) (utf16 "personal")
      || includes (P.toLowerCase u.hostname) (utf16 "cv")
      || includes (P.toLowerCase u.hostname) (utf16 "resume")) with
  | true =>
    have hres : decodeURL P text u
        = { type := utf16 "portfolio"
            content := text
            action := utf16 "Open Portfolio"
            url := some text } := by
      unfold decodeURL
      simp only [hcond, hx, if_true, hw]
    rw [hres] at hq
    refine ⟨_, hq, ?_, fun _ => rfl, fun h => by cases h⟩
    show utf16 "portfolio" ≠ utf16 "url"
    decide
  | false =>
    have hres : decodeURL P text u
        = { type := utf16 "social"
            content := text
            action := utf16 "Open Social"
            platform := some social.2
            url := some text } := by
      unfold decodeURL
      simp only [hcond, hx, if_true, hw, hf, Bool.false_eq_true, if_false]
    rw [hres] at hq
    refine ⟨_, hq, ?_, (fun h => by cases h),
      fun _ => ⟨rfl, fun h => congrArg some (hplat h)⟩⟩
    show utf16 "social" ≠ utf16 "url"
    decide

/-- C26 (amended) on the address of a channel. -/
theorem decodeQRData_channel_witness :
    ∃ r, decodeQRData asciiHost 0 (.string (utf16 "https://youtube.com/@somechannel"))
        = .ok (some r)
      ∧ r.type = utf16 "social" ∧ r.platform = some (utf16 "youtube") := by
  obtain ⟨r, h, -, -, h2⟩ := decodeQRData_channel asciiHost 0
    (utf16 "https://youtube.com/@somechannel")
    ⟨utf16 "youtube.com", utf16 "/@somechannel", []⟩ (by decide) (by decide) (by decide)
    (by decide) (Or.inl (by decide)) (by decide)
  have h3 := h2 (by decide)
  exact ⟨r, h, h3.1, h3.2 (by decide)⟩

/-! ## C27: the ssid that holds a semicolon or a backslash -/

theorem splitOnUnit_mem (sep : Nat) (s seg : JSString) (h : seg ∈ splitOnUnit sep s) :
    sep ∉ seg ∧ ∀ c ∈ seg, c ∈ s := by
  induction s generalizing seg with
  | nil =>
    simp only [splitOnUnit, List.mem_singleton] at h
    subst h
    simp
  | cons x t ih =>
    rw [splitOnUnit] at h
    split_ifs at h with hx
    · rcases List.mem_cons.1 h with h | h
      · subst h; simp
      · obtain ⟨h1, h2⟩ := ih seg h
        exact ⟨h1, fun c hc => List.mem_cons_of_mem _ (h2 c hc)⟩
    · cases hs : splitOnUnit sep t with
      | nil => exact absurd hs (splitOnUnit_ne_nil sep t)
      | cons s0 segs =>
        rw [hs] at h ih
        simp only [List.mem_cons] at h
        rcases h with h | h
        · subst h
          obtain ⟨h1, h2⟩ := ih s0 (by simp)
          refine ⟨?_, ?_⟩
          · intro hc
            rcases List.mem_cons.1 hc with hc | hc
            · exact hx hc.symm
            · exact h1 hc
          · intro c hc
            rcases List.mem_cons.1 hc with hc | hc
            · subst hc; simp
            · exact List.mem_cons_of_mem _ (h2 c hc)
        · obtain ⟨h1, h2⟩ := ih seg (by simp [h])
          exact ⟨h1, fun c hc => List.mem_cons_of_mem _ (h2 c hc)⟩

theorem mem_joinWith (sep : JSString) (l : List JSString) (c : Nat) (h : c ∈ joinWith sep l) :
    c ∈ sep ∨ ∃ seg ∈ l, c ∈ seg := by
  induction l with
  | nil => cases h
  | cons a rest ih =>
    cases rest with
    | nil =>
      rw [joinWith] at h
      exact Or.inr ⟨a, by simp, h⟩
    | cons b rest2 =>
      rw [joinWith] at h
      simp only [List.mem_append] at h
      rcases h with (h | h) | h
      · exact Or.inr ⟨a, by simp, h⟩
      · exact Or.inl h
      · rcases ih h with h | ⟨seg, hs, hc⟩
        · exact Or.inl h
        · exact Or.inr ⟨seg, List.mem_cons_of_mem _ hs, hc⟩

theorem lookupStr_mem (key v : JSString) (data : List (JSString × JSString))
    (h : lookupStr key data = some v) : ∃ k, (k, v) ∈ data := by
  induction data with
  | nil => cases h
  | cons kv rest ih =>
    obtain ⟨k, w⟩ := kv
    rw [lookupStr] at h
    cases hr : lookupStr key rest with
    | some w2 =>
      rw [hr] at h
      simp only [Option.some.injEq] at h
      subst h
      obtain ⟨k2, hk⟩ := ih hr
      exact ⟨k2, List.mem_cons_of_mem _ hk⟩
    | none =>
      rw [hr] at h
      simp only at h
      split_ifs at h
      cases h
      exact ⟨k, by simp⟩

theorem jsOr_cases (a b : Option JSString) (v : JSString) (h : jsOr a b = some v) :
    a = some v ∨ b = some v := by
  unfold jsOr at h
  cases a with
  | none => exact Or.inr h
  | some s =>
    simp only at h
    split_ifs at h
    · exact Or.inl h
    · exact Or.inr h

/-- No ssid that the WiFi branch reads holds a semicolon. -/
theorem decodeWifi_ssid_plain (t v : JSString) (h : (decodeWifi t).ssid = some v) : 59 ∉ v := by
  unfold decodeWifi at h
  simp only at h
  have hval : ∀ key : JSString, lookupStr key (((splitOnUnit 59 (t.drop 5)).filter strTruthy).map
      fun p =>
        match splitOnUnit 58 p with
        | k :: rest => (k, joinWith [58] rest)
        | [] => (p, [])) = some v → 59 ∉ v := by
    intro key hk
    obtain ⟨k, hmem⟩ := lookupStr_mem key v _ hk
    obtain ⟨p, hp, hpv⟩ := List.mem_map.1 hmem
    have hp59 := (splitOnUnit_mem 59 _ p (List.mem_filter.1 hp).1).1
    cases hs : splitOnUnit 58 p with
    | nil => exact absurd hs (splitOnUnit_ne_nil 58 p)
    | cons k0 rest =>
      rw [hs] at hpv
      simp only [Prod.mk.injEq] at hpv
      obtain ⟨-, hv⟩ := hpv
      subst hv
      intro hc
      rcases mem_joinWith _ _ _ hc with hc | ⟨seg, hseg, hc⟩
      · revert hc; decide
      · have := (splitOnUnit_mem 58 p seg (by rw [hs]; exact List.mem_cons_of_mem _ hseg)).2 59 hc
        exact hp59 this
  rcases jsOr_cases _ _ _ h with h | h
  · exact hval _ h
  · rcases jsOr_cases _ _ _ h with h | h
    · exact hval _ h
    · rcases jsOr_cases _ _ _ h with h | h
      · exact hval _ h
      · rcases jsOr_cases _ _ _ h with h | h
        · exact hval _ h
        · exact hval _ h


theorem splitOnUnit_append_any (sep : Nat) (a rest : JSString) :
    splitOnUnit sep (a ++ sep :: rest) = splitOnUnit sep a ++ splitOnUnit sep rest := by
  induction a with
  | nil => simp [splitOnUnit]
  | cons x t ih =>
    rw [List.cons_append, splitOnUnit, splitOnUnit]
    split_ifs with hx
    · rw [ih]; rfl
    · rw [ih]
      cases hs : splitOnUnit sep t with
      | nil => exact absurd hs (splitOnUnit_ne_nil sep t)
      | cons s0 segs => rfl

theorem lookupStr_append (key v : JSString) (l1 l2 : List (JSString × JSString))
    (h : lookupStr key l2 = some v) : lookupStr key (l1 ++ l2) = some v := by
  induction l1 with
  | nil => exact h
  | cons kv rest ih =>
    obtain ⟨k, w⟩ := kv
    rw [List.cons_append, lookupStr, ih]

theorem not_mem_escapeSinglePass (s : JSString) (h : 59 ∉ s) : 59 ∉ escapeSinglePass s := by
  unfold escapeSinglePass
  intro hc
  obtain ⟨x, hx, hm⟩ := List.mem_flatMap.1 hc
  have hx59 : x ≠ 59 := fun e => h (e ▸ hx)
  split_ifs at hm with h1
  · revert hm; decide
  · rw [List.mem_singleton] at hm
    exact hx59 hm.symm

theorem escapeSemicolons_eq (s : JSString) : escapeSemicolons (some s) = escapeSinglePass s := by
  cases s with
  | nil => rfl
  | cons c t =>
    simp only [escapeSemicolons, strTruthy, List.isEmpty_cons, Bool.not_false, Bool.not_true,
      Bool.false_eq_true, if_false]
    exact replace_twice _

theorem decodeWifi_ssid (t : JSString) :
    (decodeWifi t).ssid
      = jsOr (lookupStr (utf16 "S") (wifiData t)) (jsOr (lookupStr (utf16 "s") (wifiData t))
          (jsOr (lookupStr (utf16 "SSID") (wifiData t))
            (jsOr (lookupStr (utf16 "ssid") (wifiData t))
              (lookupStr (utf16 "SSID") (wifiData t))))) :=
  rfl

theorem wifiPair_of (key value : JSString) (h : 58 ∉ key) :
    wifiPair (key ++ 58 :: value) = (key, value) := by
  unfold wifiPair
  rw [splitOnUnit_append 58 key value h]
  simp only
  rw [joinWith_splitOnUnit]

theorem filter_truthy_cons (p : JSString) (l : List JSString) (h : p ≠ []) :
    (p :: l).filter strTruthy = p :: l.filter strTruthy := by
  cases p with
  | nil => exact absurd rfl h
  | cons c t => rfl

/-- The ssid that the WiFi branch reads in a text whose `S` segment is followed by nothing
or by the `P` segment of a password without a semicolon: the text of that segment. -/
theorem decodeWifi_ssid_last (a e tail : JSString) (he : 59 ∉ e) (hne : e ≠ [])
    (htail : tail = [59] ∨ ∃ pw, 59 ∉ pw ∧ tail = ([80] ++ 58 :: pw) ++ 59 :: [59]) :
    (decodeWifi (utf16 "WIFI:" ++ (a ++ 59 :: (([83] ++ 58 :: e) ++ 59 :: tail)))).ssid
      = some e := by
  have h2 : (59 : Nat) ∉ [83] ++ 58 :: e := by simp [he]
  have e3 : splitOnUnit 59 [59] = [[], []] := by decide
  have hdata : ∃ l1 l2, wifiData (utf16 "WIFI:" ++ (a ++ 59 :: (([83] ++ 58 :: e) ++ 59 :: tail)))
      = l1 ++ (([83], e) :: l2) ∧ (l2 = [] ∨ ∃ pw, l2 = [([80], pw)]) := by
    unfold wifiData
    rw [show (5 : Nat) = (utf16 "WIFI:").length by decide, List.drop_left,
      splitOnUnit_append_any 59 a, splitOnUnit_append 59 _ _ h2, List.filter_append,
      List.map_append, filter_truthy_cons _ _ (by simp), List.map_cons,
      wifiPair_of [83] e (by decide)]
    rcases htail with h | ⟨pw, hpw, h⟩ <;> subst h
    · exact ⟨_, _, rfl, Or.inl (by rw [e3]; rfl)⟩
    · have h3 : (59 : Nat) ∉ [80] ++ 58 :: pw := by simp [hpw]
      refine ⟨_, _, rfl, Or.inr ⟨pw, ?_⟩⟩
      rw [splitOnUnit_append 59 _ _ h3, e3, filter_truthy_cons _ _ (by simp), List.map_cons,
        wifiPair_of [80] pw (by decide)]
      rfl
  obtain ⟨l1, l2, hd, hl2⟩ := hdata
  have hS : lookupStr (utf16 "S") (l1 ++ (([83], e) :: l2)) = some e := by
    refine lookupStr_append _ _ l1 _ ?_
    rcases hl2 with h | ⟨pw, h⟩ <;> subst h <;> simp +decide [lookupStr]
  rw [decodeWifi_ssid, hd, hS]
  exact jsOr_some e _ hne


/-- The text of `buildWifiQR`, as the segments that the WiFi branch splits. -/
theorem buildWifiQR_segments (P : Platform) (ssid password : JSString)
    (security : Option JSString) :
    ∃ a tail, buildWifiQR P ⟨some ssid, some password, security⟩
        = utf16 "WIFI:" ++ (a ++ 59 :: (([83] ++ 58 :: escapeSinglePass ssid) ++ 59 :: tail))
      ∧ (tail = [59] ∨ tail = ([80] ++ 58 :: escapeSinglePass password) ++ 59 :: [59]) := by
  have l1 : utf16 "WIFI:T:" = utf16 "WIFI:" ++ [84, 58] := by decide
  have l2 : utf16 ";S:" = [59, 83, 58] := by decide
  have l3 : utf16 ";P:" = [59, 80, 58] := by decide
  have l4 : utf16 ";;" = [59, 59] := by decide
  have l5 : utf16 "WIFI:T:nopass;S:" = utf16 "WIFI:" ++ (utf16 "T:nopass" ++ [59, 83, 58]) := by
    decide
  unfold buildWifiQR
  simp only [escapeSemicolons_eq]
  split_ifs with h
  · refine ⟨utf16 "T:nopass", [59], ?_, Or.inl rfl⟩
    rw [l5, l4]
    simp
  · refine ⟨[84, 58] ++ wifiType P security, _, ?_, Or.inr rfl⟩
    rw [l1, l2, l3, l4]
    simp

/-- C27 (counterexample): with the ssid `a\`, the password `x;S:a;y` and the security
`WPA`, the text is `WIFI:T:WPA;S:a\\;P:x\;S:a\;y;;`; its segment `S:a\`, cut out of the
escaped password, is read after the segment of the ssid, so the ssid of the result is `a\`,
equal to the original ssid. -/
theorem wifi_ssid_counterexample :
    buildWifiQR asciiHost ⟨some (utf16 "a\\"), some (utf16 "x;S:a;y"), some (utf16 "WPA")⟩
        = utf16 "WIFI:T:WPA;S:a\\\\;P:x\\;S:a\\;y;;"
      ∧ decodeQRData asciiHost 0 (.string (buildWifiQR asciiHost
          ⟨some (utf16 "a\\"), some (utf16 "x;S:a;y"), some (utf16 "WPA")⟩))
        = .ok (some
            { type := utf16 "wifi"
              content := utf16 "WIFI:T:WPA;S:a\\\\;P:x\\;S:a\\;y;;"
              action := utf16 "Connect WiFi"
              ssid := some (utf16 "a\\")
              password := some (utf16 "x\\")
              security := some (utf16 "WPA") }) :=
  ⟨by decide, rfl⟩

/-- C27 (amended): for every password and every security, an ssid that holds a semicolon
never comes back: the ssid of `decodeQRData(buildWifiQR(..))` is not the original one. An
ssid that holds a backslash and no semicolon comes back as its escaped form, with every
backslash doubled, hence not as the original one, when the password holds no semicolon. -/
theorem wifi_ssid_asymmetry (P : Platform) (now : Int) (ssid password : JSString)
    (security : Option JSString) :
    ∃ r, decodeQRData P now (.string (buildWifiQR P ⟨some ssid, some password, security⟩))
        = .ok (some r)
      ∧ (59 ∈ ssid → r.ssid ≠ some ssid)
      ∧ (92 ∈ ssid → 59 ∉ ssid → 59 ∉ password →
          r.ssid = some (escapeSemicolons (some ssid)) ∧ r.ssid ≠ some ssid) := by
  obtain ⟨a, tail, hb, htail⟩ := buildWifiQR_segments P ssid password security
  refine ⟨_, by rw [hb]; exact decodeQRData_wifi P now _, ?_, ?_⟩
  · intro h59 heq
    exact decodeWifi_ssid_plain _ _ heq h59
  · intro h92 h59 hp
    have hlen := escapeSinglePass_length ssid
    have hcount : 0 < ssid.count 92 := List.count_pos_iff.2 h92
    have hne : escapeSinglePass ssid ≠ [] := by
      intro h
      rw [h] at hlen
      simp at hlen
      omega
    have hs := decodeWifi_ssid_last a (escapeSinglePass ssid) tail
      (not_mem_escapeSinglePass ssid h59) hne
      (by
        rcases htail with h | h
        · exact Or.inl h
        · exact Or.inr ⟨_, not_mem_escapeSinglePass password hp, h⟩)
    rw [escapeSemicolons_eq, hs]
    refine ⟨rfl, fun h => ?_⟩
    have := congrArg List.length (Option.some.inj h)
    omega

/-- C27 (amended) on the ssid `a;b` and on the ssid `a\b`, with the password `p@ss` and
the security `WPA`. -/
theorem wifi_ssid_asymmetry_witness :
    (∃ r, decodeQRData asciiHost 0 (.string (buildWifiQR asciiHost
          ⟨some (utf16 "a;b"), some (utf16 "p@ss"), some (utf16 "WPA")⟩)) = .ok (some r)
        ∧ r.ssid ≠ some (utf16 "a;b"))
      ∧ ∃ r, decodeQRData asciiHost 0 (.string (buildWifiQR asciiHost
          ⟨some (utf16 "a\\b"), some (utf16 "p@ss"), some (utf16 "WPA")⟩)) = .ok (some r)
        ∧ r.ssid = some (utf16 "a\\\\b") ∧ r.ssid ≠ some (utf16 "a\\b") := by
  constructor
  · obtain ⟨r, h, h1, -⟩ := wifi_ssid_asymmetry asciiHost 0 (utf16 "a;b") (utf16 "p@ss")
      (some (utf16 "WPA"))
    exact ⟨r, h, h1 (by decide)⟩
  · obtain ⟨r, h, -, h2⟩ := wifi_ssid_asymmetry asciiHost 0 (utf16 "a\\b") (utf16 "p@ss")
      (some (utf16 "WPA"))
    have h3 := h2 (by decide) (by decide) (by decide)
    exact ⟨r, h, h3.1.trans (by decide), h3.2⟩

/-! ## C28: the recursion of `decodeQRData` ends -/

/-- C28: `decodeQRData` returns on every string without a bound on the depth of the
recursion: the model with a depth bound returns a result as soon as the bound exceeds the
length of the text, the same result for every larger bound, and whenever the text unwraps
to an envelope whose payload is a string, the only value `decodeQRData` is called on again,
that payload is strictly shorter than the text. -/
theorem decodeQRData_terminates (P : Platform) (now : Int) (text : JSString) :
    (∀ fuel, text.length + 1 ≤ fuel →
        decodeQRDataFuel P now fuel (.string text) = some (decodeQRData P now (.string text)))
      ∧ (∀ env payload, parseSMQREnvelope text = some env →
          env.get (utf16 "payload") = .string payload → payload.length < text.length) := by
  refine ⟨fun fuel h => decodeQRDataFuel_eq P now fuel (.string text) h, ?_⟩
  intro env payload hparse hp
  have := parseSMQREnvelope_member_length text env _ payload hparse hp
  omega

set_option maxRecDepth 100000 in
/-- C28 on an envelope inside an envelope: the text of 101 code units carries the envelope
of 45 code units, which carries the text `hi`. -/
theorem decodeQRData_terminates_witness :
    decodeQRDataFuel asciiHost 0 200 (.string (utf16
        "SMQR:eyJzbXFyIjp0cnVlLCJwYXlsb2FkIjoiU01RUjpleUp6YlhGeUlqcDBjblZsTENKd1lYbHNiMkZrSWpvaWFHa2lmUT09In0="))
        = some (decodeQRData asciiHost 0 (.string (utf16
          "SMQR:eyJzbXFyIjp0cnVlLCJwYXlsb2FkIjoiU01RUjpleUp6YlhGeUlqcDBjblZsTENKd1lYbHNiMkZrSWpvaWFHa2lmUT09In0=")))
      ∧ (utf16 "SMQR:eyJzbXFyIjp0cnVlLCJwYXlsb2FkIjoiaGkifQ==").length
        < (utf16
          "SMQR:eyJzbXFyIjp0cnVlLCJwYXlsb2FkIjoiU01RUjpleUp6YlhGeUlqcDBjblZsTENKd1lYbHNiMkZrSWpvaWFHa2lmUT09In0=").length :=
  ⟨(decodeQRData_terminates asciiHost 0 (utf16
      "SMQR:eyJzbXFyIjp0cnVlLCJwYXlsb2FkIjoiU01RUjpleUp6YlhGeUlqcDBjblZsTENKd1lYbHNiMkZrSWpvaWFHa2lmUT09In0=")).1 200
      (by decide),
    (decodeQRData_terminates asciiHost 0 (utf16
      "SMQR:eyJzbXFyIjp0cnVlLCJwYXlsb2FkIjoiU01RUjpleUp6YlhGeUlqcDBjblZsTENKd1lYbHNiMkZrSWpvaWFHa2lmUT09In0=")).2
      (.object [(utf16 "smqr", .bool true), (utf16 "payload", .string (utf16
        "SMQR:eyJzbXFyIjp0cnVlLCJwYXlsb2FkIjoiaGkifQ=="))])
      (utf16 "SMQR:eyJzbXFyIjp0cnVlLCJwYXlsb2FkIjoiaGkifQ==") rfl rfl⟩

/-! ## C29: the payload of a generated envelope -/

theorem not_envelope_of_head (c : Nat) (t : JSString) (h : c ≠ 83) :
    startsWith (c :: t) (utf16 "SMQR:") = false := by
  rw [show utf16 "SMQR:" = 83 :: utf16 "MQR:" by decide]
  exact startsWith_cons_ne c t _ 83 h

theorem hasHttpScheme_not_envelope (s : JSString) (h : hasHttpScheme s = true) :
    startsWith s (utf16 "SMQR:") = false := by
  cases s with
  | nil => rfl
  | cons c t =>
    apply not_envelope_of_head
    intro hc
    subst hc
    unfold hasHttpScheme at h
    simp +decide [startsWith, asciiLower] at h

theorem withHttps_not_envelope (s : JSString) : startsWith (withHttps s) (utf16 "SMQR:") = false := by
  unfold withHttps
  split_ifs with h
  · exact hasHttpScheme_not_envelope s h
  · exact startsWith_append_of_differ _ _ _ (by decide)

theorem buildSocial_not_envelope (href : JSString → Option JSString) (platform profile : JSString)
    (hhref : ∀ t url, href t = some url → startsWith url (utf16 "SMQR:") = false)
    (hplat : platform ∈ [utf16 "instagram", utf16 "facebook", utf16 "linkedin",
      utf16 "telegram", utf16 "youtube"]) :
    startsWith (buildSocial href platform profile) (utf16 "SMQR:") = false := by
  unfold buildSocial
  split
  · rename_i url h
    exact hhref _ _ h
  · simp only
    split_ifs
    · exact startsWith_append_of_differ _ _ _ (by decide)
    · exact startsWith_append_of_differ _ _ _ (by decide)
    · exact startsWith_append_of_differ _ _ _ (by decide)
    · exact startsWith_append_of_differ _ _ _ (by decide)
    · exact startsWith_append_of_differ _ _ _ (by decide)
    · exact startsWith_append_of_differ _ _ _ (by decide)
    · simp only [List.mem_cons, List.mem_singleton, List.not_mem_nil, or_false] at hplat
      rcases hplat with h | h | h | h | h <;> contradiction

theorem buildMaps_not_envelope (f : MapsFields) (t : JSString) (h : buildMaps f = .ok t) :
    startsWith t (utf16 "SMQR:") = false := by
  unfold buildMaps at h
  split_ifs at h
  · cases h
    simp only [List.append_assoc]
    exact startsWith_append_of_differ _ _ _ (by decide)
  · split at h
    · cases h
      exact startsWith_append_of_differ _ _ _ (by decide)
    · cases h

theorem buildYouTubeVideo_envelope (url : JSString) :
    startsWith (buildYouTubeVideo url) (utf16 "SMQR:") = true
      ↔ startsWith url (utf16 "SMQR:") = true ∧ extractYouTubeVideoId url = none := by
  have hd : ∀ id : JSString,
      startsWith (utf16 "https://youtube.com/watch?v=" ++ id) (utf16 "SMQR:") = false :=
    fun id => startsWith_append_of_differ _ _ _ (by decide)
  unfold buildYouTubeVideo extractYouTubeVideoId
  cases h1 : searchForms url with
  | some id => simp [hd]
  | none =>
    cases h2 : searchWatch url with
    | some id => simp [hd]
    | none => simp

theorem sampleHref_not_envelope (t url : JSString) (h : sampleHref t = some url) :
    startsWith url (utf16 "SMQR:") = false := by
  unfold sampleHref at h
  split at h
  · cases h
  · rename_i scheme rest hs
    cases h
    unfold splitScheme at hs
    split at hs
    · cases hs
    · rename_i c r
      split_ifs at hs with hc
      split at hs
      · split_ifs at hs
        cases hs
        rw [List.map_cons, List.cons_append, List.cons_append]
        apply not_envelope_of_head
        unfold asciiLower
        split_ifs <;> omega
      · cases hs


/-- C29 (counterexample): in the category `text` the input is the payload, and in the
category `youtube` an input without a video id passes unchanged, so the envelope text
`SMQR:eyJzbXFyIjp0cnVlfQ==` typed into either form is handed to `createSMQREnvelope` as it
is, a payload that begins with `SMQR:`. -/
theorem generatePayload_counterexample :
    generatePayload asciiHost sampleHref
        { qrType := utf16 "text", qrInput := utf16 "SMQR:eyJzbXFyIjp0cnVlfQ==" }
        = .ok (some (utf16 "SMQR:eyJzbXFyIjp0cnVlfQ=="))
      ∧ generatePayload asciiHost sampleHref
        { qrType := utf16 "youtube", youtubeUrl := utf16 "SMQR:eyJzbXFyIjp0cnVlfQ==" }
        = .ok (some (utf16 "SMQR:eyJzbXFyIjp0cnVlfQ=="))
      ∧ startsWith (utf16 "SMQR:eyJzbXFyIjp0cnVlfQ==") (utf16 "SMQR:") = true :=
  ⟨rfl, rfl, by decide⟩

/-- C29 (amended): a payload that `generateQR` builds begins with `SMQR:` in two categories
only. In the category `text` the payload is the input itself; in the category `youtube` it
is `buildYouTubeVideo` of the trimmed input, which begins with `SMQR:` exactly when that
input does and holds no video id. In every other category, with one of the five platforms
of `buildSocial` and a host whose URL serialisation never begins with `SMQR:` (a scheme is
written in lower case), the payload does not begin with `SMQR:`. -/
theorem generatePayload_envelope (P : Platform) (href : JSString → Option JSString)
    (s : GeneratorForm) (p : JSString)
    (hhref : ∀ t url, href t = some url → startsWith url (utf16 "SMQR:") = false)
    (hp : generatePayload P href s = .ok (some p)) :
    (s.qrType ≠ utf16 "text" → s.qrType ≠ utf16 "youtube" →
        (s.qrType = utf16 "social" → s.socialPlatform ∈ [utf16 "instagram", utf16 "facebook",
          utf16 "linkedin", utf16 "telegram", utf16 "youtube"]) →
        startsWith p (utf16 "SMQR:") = false)
      ∧ (s.qrType = utf16 "text" → p = s.qrInput)
      ∧ (s.qrType = utf16 "youtube" → p = buildYouTubeVideo (trim s.youtubeUrl)
          ∧ (startsWith p (utf16 "SMQR:") = true
            ↔ startsWith (trim s.youtubeUrl) (utf16 "SMQR:") = true
              ∧ extractYouTubeVideoId (trim s.youtubeUrl) = none)) := by
  have ne1 : utf16 "url" ≠ utf16 "text" := by decide
  have ne2 : utf16 "url" ≠ utf16 "youtube" := by decide
  have ne3 : utf16 "text" ≠ utf16 "youtube" := by decide
  have ne4 : utf16 "email" ≠ utf16 "text" := by decide
  have ne5 : utf16 "email" ≠ utf16 "youtube" := by decide
  have ne6 : utf16 "phone" ≠ utf16 "text" := by decide
  have ne7 : utf16 "phone" ≠ utf16 "youtube" := by decide
  have ne8 : utf16 "portfolio" ≠ utf16 "text" := by decide
  have ne9 : utf16 "portfolio" ≠ utf16 "youtube" := by decide
  have ne10 : utf16 "social" ≠ utf16 "text" := by decide
  have ne11 : utf16 "social" ≠ utf16 "youtube" := by decide
  have ne12 : utf16 "wifi" ≠ utf16 "text" := by decide
  have ne13 : utf16 "wifi" ≠ utf16 "youtube" := by decide
  have ne14 : utf16 "payment" ≠ utf16 "text" := by decide
  have ne15 : utf16 "payment" ≠ utf16 "youtube" := by decide
  have ne16 : utf16 "vcard" ≠ utf16 "text" := by decide
  have ne17 : utf16 "vcard" ≠ utf16 "youtube" := by decide
  have ne18 : utf16 "whatsapp" ≠ utf16 "text" := by decide
  have ne19 : utf16 "whatsapp" ≠ utf16 "youtube" := by decide
  have ne20 : utf16 "maps" ≠ utf16 "text" := by decide
  have ne21 : utf16 "maps" ≠ utf16 "youtube" := by decide
  have other : ∀ t : JSString, s.qrType = t → t ≠ utf16 "text" → t ≠ utf16 "youtube" →
      startsWith p (utf16 "SMQR:") = false →
      (s.qrType ≠ utf16 "text" → s.qrType ≠ utf16 "youtube" →
        (s.qrType = utf16 "social" → s.socialPlatform ∈ [utf16 "instagram", utf16 "facebook",
          utf16 "linkedin", utf16 "telegram", utf16 "youtube"]) →
        startsWith p (utf16 "SMQR:") = false)
      ∧ (s.qrType = utf16 "text" → p = s.qrInput)
      ∧ (s.qrType = utf16 "youtube" → p = buildYouTubeVideo (trim s.youtubeUrl)
          ∧ (startsWith p (utf16 "SMQR:") = true
            ↔ startsWith (trim s.youtubeUrl) (utf16 "SMQR:") = true
              ∧ extractYouTubeVideoId (trim s.youtubeUrl) = none)) := by
    intro t ht h1 h2 hres
    exact ⟨fun _ _ _ => hres, fun h => absurd (ht.symm.trans h) h1,
      fun h => absurd (ht.symm.trans h) h2⟩
  unfold generatePayload at hp
  by_cases t1 : s.qrType = utf16 "url"
  · rw [if_pos t1] at hp
    split at hp
    · cases hp
    · cases hp
      exact other _ t1 ne1 ne2 (withHttps_not_envelope _)
  rw [if_neg t1] at hp
  by_cases t2 : s.qrType = utf16 "text"
  · rw [if_pos t2] at hp
    split at hp
    · cases hp
    · cases hp
      exact ⟨fun h => absurd t2 h, fun _ => rfl, fun h => absurd (t2.symm.trans h) ne3⟩
  rw [if_neg t2] at hp
  by_cases t3 : s.qrType = utf16 "email"
  · rw [if_pos t3] at hp
    split at hp
    · cases hp
    · cases hp
      exact other _ t3 ne4 ne5 (startsWith_append_of_differ _ _ _ (by decide))
  rw [if_neg t3] at hp
  by_cases t4 : s.qrType = utf16 "phone"
  · rw [if_pos t4] at hp
    split at hp
    · cases hp
    · cases hp
      exact other _ t4 ne6 ne7 (startsWith_append_of_differ _ _ _ (by decide))
  rw [if_neg t4] at hp
  by_cases t5 : s.qrType = utf16 "portfolio"
  · rw [if_pos t5] at hp
    split at hp
    · cases hp
    · cases hp
      exact other _ t5 ne8 ne9 (withHttps_not_envelope _)
  rw [if_neg t5] at hp
  by_cases t6 : s.qrType = utf16 "social"
  · rw [if_pos t6] at hp
    split at hp
    · cases hp
    · cases hp
      exact ⟨fun _ _ hplat => buildSocial_not_envelope href _ _ hhref (hplat t6),
        fun h => absurd (t6.symm.trans h) ne10, fun h => absurd (t6.symm.trans h) ne11⟩
  rw [if_neg t6] at hp
  by_cases t7 : s.qrType = utf16 "wifi"
  · rw [if_pos t7] at hp
    split at hp
    · cases hp
    · cases hp
      obtain ⟨a, tail, hb, -⟩ := buildWifiQR_segments P (trim s.wifiSsid) s.wifiPassword
        (some s.wifiSecurity)
      refine other _ t7 ne12 ne13 ?_
      rw [hb]
      exact startsWith_append_of_differ _ _ _ (by decide)
  rw [if_neg t7] at hp
  by_cases t8 : s.qrType = utf16 "payment"
  · rw [if_pos t8] at hp
    split at hp
    · cases hp
    · cases hp
      refine other _ t8 ne14 ne15 ?_
      rw [buildUPI_eq]
      exact startsWith_append_of_differ _ _ _ (by decide)
  rw [if_neg t8] at hp
  by_cases t9 : s.qrType = utf16 "vcard"
  · rw [if_pos t9] at hp
    split at hp
    · cases hp
    · cases hp
      refine other _ t9 ne16 ne17 ?_
      obtain ⟨body, hb⟩ := buildVCard_head
        { fullName := some (trim s.vcardFullName)
          phone := some (trim s.vcardPhone)
          email := some (trim s.vcardEmail)
          address := some (trim s.vcardAddress)
          org := some (trim s.vcardOrg)
          title := some (trim s.vcardTitle)
          website := some (trim s.vcardWebsite) }
      rw [hb]
      exact startsWith_append_of_differ _ _ _ (by decide)
  rw [if_neg t9] at hp
  by_cases t10 : s.qrType = utf16 "whatsapp"
  · rw [if_pos t10] at hp
    split at hp
    · cases hp
    · split at hp
      · rename_i t hb
        cases hp
        refine other _ t10 ne18 ne19 ?_
        obtain ⟨rest, hr⟩ := buildWhatsApp_head _ _ hb
        rw [hr]
        exact startsWith_append_of_differ _ _ _ (by decide)
      · cases hp
  rw [if_neg t10] at hp
  by_cases t11 : s.qrType = utf16 "maps"
  · rw [if_pos t11] at hp
    split at hp
    · cases hp
    · split at hp
      · rename_i t hb
        cases hp
        exact other _ t11 ne20 ne21 (buildMaps_not_envelope _ _ hb)
      · cases hp
  rw [if_neg t11] at hp
  by_cases t12 : s.qrType = utf16 "youtube"
  · rw [if_pos t12] at hp
    split at hp
    · cases hp
    · cases hp
      exact ⟨fun _ h => absurd t12 h, fun h => absurd h t2,
        fun _ => ⟨rfl, buildYouTubeVideo_envelope _⟩⟩
  rw [if_neg t12] at hp
  cases hp
  exact ⟨fun _ _ _ => rfl, fun h => absurd h t2, fun h => absurd h t12⟩

/-- C29 (amended) on the sample host: a WiFi form and a social form give the payloads
`WIFI:T:WPA;S:MyNet;P:p@ss;;` and `https://instagram.com/john`, which do not begin with
`SMQR:`. -/
theorem generatePayload_envelope_witness :
    (generatePayload asciiHost sampleHref
          { qrType := utf16 "wifi", wifiSsid := utf16 "MyNet", wifiPassword := utf16 "p@ss" }
        = .ok (some (utf16 "WIFI:T:WPA;S:MyNet;P:p@ss;;"))
      ∧ startsWith (utf16 "WIFI:T:WPA;S:MyNet;P:p@ss;;") (utf16 "SMQR:") = false)
    ∧ (generatePayload asciiHost sampleHref
          { qrType := utf16 "social", socialProfile := utf16 "@john" }
        = .ok (some (utf16 "https://instagram.com/john"))
      ∧ startsWith (utf16 "https://instagram.com/john") (utf16 "SMQR:") = false) :=
  ⟨⟨rfl, (generatePayload_envelope asciiHost sampleHref
      { qrType := utf16 "wifi", wifiSsid := utf16 "MyNet", wifiPassword := utf16 "p@ss" }
      (utf16 "WIFI:T:WPA;S:MyNet;P:p@ss;;") sampleHref_not_envelope rfl).1
      (by decide) (by decide) (fun h => absurd h (by decide))⟩,
    ⟨rfl, (generatePayload_envelope asciiHost sampleHref
      { qrType := utf16 "social", socialProfile := utf16 "@john" }
      (utf16 "https://instagram.com/john") sampleHref_not_envelope rfl).1
      (by decide) (by decide) (fun _ => by decide)⟩⟩

end SmartQR
